import Mathlib

/-!
The record parser and the evaluation engine of go-spf.

A shallow embedding of `parser.go`, `lookup.go` and `interpreter.go`.

* Go strings are modelled by `String` (valid UTF-8 text); a `range` loop over a
  string is a walk over its list of runes.
* A Go result pair `(value, error)` is a Lean pair whose second component is an
  `Option Error` (`none` is Go's `nil` error).
* `Qualifier` and the mechanism kind are Go `int`s and stay integers here.
* `depth` is a Go `int`. It is only decremented and compared with `0`; a
  wrap-around can change such a comparison only after more than `2^63` nested
  calls, so it is modelled by an unbounded `Int`.
* With a negative `depth` the recursion of `ExecuteMechanism` is unbounded, so
  the embedding carries a fuel counter that is consumed by each nested record
  walk; `none` means that the fuel ran out.
-/

set_option linter.dupNamespace false

namespace spf

/-! ## errors.go -/

/-- Error values of the package, and the errors that reach it from outside. -/
inductive Error where
  | ErrSyntax
  | ErrInvalidQualifier
  | ErrInvalidMechanism
  | ErrInvalidModifier
  | ErrNotFound
  | ErrOutOfRecursions
  /-- The value of `errors.New("nospf")` in `ParseSPF`. -/
  | nospf
  /-- A `*net.ParseError` of `net.ParseCIDR` for the given text. -/
  | ParseError (text : String)
  /-- An error of the DNS client. -/
  | dns (msg : String)
deriving DecidableEq, Repr

/-! ## parser.go: data model -/

abbrev Qualifier := Int

abbrev PassQualifier : Qualifier := 0
abbrev FailQualifier : Qualifier := 1
abbrev SoftFailQualifier : Qualifier := 2
abbrev NeutralQualifier : Qualifier := 3
abbrev NoneQualifier : Qualifier := 4

abbrev AllMechanism : Int := 1
abbrev IPv4Mechanism : Int := 2
abbrev IPv6Mechanism : Int := 3
abbrev AMechanism : Int := 4
abbrev MXMechanism : Int := 5
abbrev PTRMechanism : Int := 6
abbrev ExistsMechanism : Int := 7
abbrev IncludeMechanism : Int := 8
abbrev RedirectMechanism : Int := 9

/-- An argument of the SPF record: `type Mechanism struct`. -/
structure Mechanism where
  Qualifier : Qualifier
  Mechanism : Int
  Value : String
deriving DecidableEq, Repr

/-- The parser's per-token state: `type MechanismParseContext struct`. -/
structure MechanismParseContext where
  Qualifier : Qualifier
  Mechanism : String
  Value : String
  WritingDescriptor : Bool
  Modifier : Bool
deriving DecidableEq, Repr

abbrev Record := List Mechanism

/-- The field of the parse context that the pointer `writeValue` refers to. -/
inductive WriteTarget where
  | Mechanism
  | Value
deriving DecidableEq, Repr

/-- The variables of the scan loop of `ParseSPF`. -/
structure ParseState where
  spfRecord : List Mechanism
  spfModifiers : List Mechanism
  parseContext : MechanismParseContext
  writeValue : WriteTarget
deriving DecidableEq, Repr

/-! ## Standard-library string functions -/

/-- Go's `unicode.ToLower` on one rune: the ASCII rule for ASCII runes, and the
Unicode case table `U` (external to the package) for every other rune. -/
def toLowerRune (U : Char → Char) (c : Char) : Char :=
  if c.toNat < 128 then
    (if 65 ≤ c.toNat ∧ c.toNat ≤ 90 then Char.ofNat (c.toNat + 32) else c)
  else U c

/-- Go's `strings.ToLower`: `unicode.ToLower` on every rune. -/
def ToLower (U : Char → Char) (s : String) : String :=
  ⟨s.data.map (toLowerRune U)⟩

/-- Go's `strings.HasPrefix(spf, "v=spf1")`. -/
def IsSPF (spf : String) : Bool :=
  "v=spf1".data.isPrefixOf spf.data

/-! ## parser.go: functions -/

def EvaluateQualifier (char : Char) : Qualifier × Option Error :=
  if char = '+' then (PassQualifier, none)
  else if char = '-' then (FailQualifier, none)
  else if char = '~' then (SoftFailQualifier, none)
  else if char = '?' then (NeutralQualifier, none)
  else (0, some Error.ErrInvalidQualifier)

def EvaluateMechanism (U : Char → Char) (context : MechanismParseContext) :
    Mechanism × Option Error :=
  let mechanism : Mechanism := ⟨context.Qualifier, 0, context.Value⟩
  let name := ToLower U context.Mechanism
  if name = "all" then ({ mechanism with Mechanism := AllMechanism }, none)
  else if name = "ip4" then ({ mechanism with Mechanism := IPv4Mechanism }, none)
  else if name = "ip6" then ({ mechanism with Mechanism := IPv6Mechanism }, none)
  else if name = "a" then ({ mechanism with Mechanism := AMechanism }, none)
  else if name = "mx" then ({ mechanism with Mechanism := MXMechanism }, none)
  else if name = "ptr" then ({ mechanism with Mechanism := PTRMechanism }, none)
  else if name = "exists" then ({ mechanism with Mechanism := ExistsMechanism }, none)
  else if name = "include" then ({ mechanism with Mechanism := IncludeMechanism }, none)
  else (⟨0, 0, ""⟩, some Error.ErrInvalidMechanism)

def EvaluateModifier (context : MechanismParseContext) : Mechanism × Option Error :=
  let modifier : Mechanism := ⟨PassQualifier, 0, context.Value⟩
  if context.Mechanism = "redirect" then
    ({ modifier with Mechanism := RedirectMechanism }, none)
  else (⟨0, 0, ""⟩, some Error.ErrInvalidModifier)

/-- The statement `*writeValue += string(chr)`. -/
def ParseState.write (st : ParseState) (chr : Char) : ParseState :=
  match st.writeValue with
  | .Mechanism =>
    { st with parseContext :=
        { st.parseContext with Mechanism := st.parseContext.Mechanism.push chr } }
  | .Value =>
    { st with parseContext :=
        { st.parseContext with Value := st.parseContext.Value.push chr } }

/-- The state at the start of the scan, and after a token has been emitted. -/
def ParseState.fresh (spfRecord spfModifiers : List Mechanism) : ParseState :=
  { spfRecord := spfRecord
    spfModifiers := spfModifiers
    parseContext := ⟨PassQualifier, "", "", true, false⟩
    writeValue := .Mechanism }

/-- Classify the current token and append it to the directives or to the
modifiers: the code shared by the whitespace case and by the end of input. -/
def ParseState.emit (U : Char → Char) (st : ParseState) : Except Error ParseState :=
  if st.parseContext.Modifier then
    match EvaluateModifier st.parseContext with
    | (_, some err) => .error err
    | (mechanism, none) => .ok { st with spfModifiers := st.spfModifiers ++ [mechanism] }
  else
    match EvaluateMechanism U st.parseContext with
    | (_, some err) => .error err
    | (mechanism, none) => .ok { st with spfRecord := st.spfRecord ++ [mechanism] }

/-- One iteration of the scan loop of `ParseSPF`: the `switch chr`. -/
def parseStep (U : Char → Char) (st : ParseState) (chr : Char) : Except Error ParseState :=
  if chr = '+' ∨ chr = '-' ∨ chr = '~' ∨ chr = '?' then
    if st.parseContext.Mechanism = "" ∧ st.parseContext.Value = "" then
      match EvaluateQualifier chr with
      | (_, some err) => .error err
      | (qualifier, none) =>
        .ok { st with parseContext := { st.parseContext with Qualifier := qualifier } }
    else .ok (st.write chr)
  else if chr = ':' then
    if st.parseContext.Mechanism = "" then .error Error.ErrSyntax
    else if st.parseContext.WritingDescriptor then
      .ok { st with
        writeValue := .Value
        parseContext := { st.parseContext with WritingDescriptor := false } }
    else .ok (st.write chr)
  else if chr = '=' then
    if st.parseContext.Mechanism = "" then .error Error.ErrSyntax
    else if st.parseContext.WritingDescriptor then
      .ok { st with
        writeValue := .Value
        parseContext := { st.parseContext with WritingDescriptor := false, Modifier := true } }
    else .ok (st.write chr)
  else if chr = ' ' ∨ chr = '\n' ∨ chr = '\r' then
    if st.parseContext.WritingDescriptor ∨ st.parseContext.Value = "" then .ok st
    else
      match st.emit U with
      | .error err => .error err
      | .ok st1 => .ok (ParseState.fresh st1.spfRecord st1.spfModifiers)
  else .ok (st.write chr)

/-- The scan loop `for _, chr := range spfContent`. -/
def parseLoop (U : Char → Char) : List Char → ParseState → Except Error ParseState
  | [], st => .ok st
  | chr :: rest, st =>
    match parseStep U st chr with
    | .error err => .error err
    | .ok st1 => parseLoop U rest st1

/-- The code of `ParseSPF` after the scan loop. -/
def parseFinish (U : Char → Char) (st : ParseState) : Record × Option Error :=
  if st.parseContext.Mechanism ≠ "" then
    match st.emit U with
    | .error err => ([], some err)
    | .ok st1 => (st1.spfRecord ++ st1.spfModifiers, none)
  else (st.spfRecord ++ st.spfModifiers, none)

/-- Informationful way to read out an spf record: `func ParseSPF`. The content
is `spf[len("v=spf "):]`, the text after the six bytes of the version marker. -/
def ParseSPF (U : Char → Char) (spf : String) : Record × Option Error :=
  if ¬ IsSPF spf then ([], some Error.nospf)
  else
    match parseLoop U (spf.data.drop 6) (ParseState.fresh [] []) with
    | .error err => ([], some err)
    | .ok st => parseFinish U st

/-! ## The resolver adapter and the standard library -/

/-- A Go `net.IP`: `none` is the `nil` address, otherwise the bytes. -/
abbrev IP := Option (List Nat)

/-- A Go `net.IPNet`: network address and mask. -/
structure IPNet where
  IP : IP
  Mask : List Nat
deriving DecidableEq, Repr

/-- The resource records of a DNS answer section, as far as the package looks
at them. -/
inductive RR where
  | A (A : IP)
  | MX (Mx : String)
  | PTR (Ptr : String)
  | TXT (Txt : List String)
  | other
deriving DecidableEq, Repr

/-- The question types the package asks for. -/
inductive RRType where
  | TypeA
  | TypeMX
  | TypePTR
  | TypeTXT
deriving DecidableEq, Repr

/-- Everything the package calls but does not define: the DNS client of
`github.com/miekg/dns` and functions of Go's `net` and `unicode` packages. -/
structure Extern where
  /-- The function `dns.Fqdn`. -/
  Fqdn : String → String
  /-- The calls `m.SetQuestion(name, t); c.Exchange(m, nameserver)`: the error,
  or the answer section `in.Answer`. -/
  Exchange : String → RRType → String → Except Error (List RR)
  /-- The part of `net.ParseCIDR` that follows the search for `'/'`. -/
  parseCIDRSlash : String → Except Error IPNet
  /-- The method `ipNet.Contains(ip)`. -/
  Contains : IPNet → IP → Bool
  /-- The method `ip.String()`. -/
  ipString : IP → String
  /-- The method `ip.Equal(x)`. -/
  ipEqual : IP → IP → Bool
  /-- The case table of `unicode.ToLower` for non-ASCII runes. -/
  unicodeToLower : Char → Char

/-- Go's `net.ParseCIDR`, reduced to the resulting network. Its first step
looks for the byte `'/'` and rejects a text without one with a `ParseError`;
what it does with a text that has one is external. -/
def ParseCIDR (X : Extern) (s : String) : Except Error IPNet :=
  if '/' ∈ s.data then X.parseCIDRSlash s else .error (Error.ParseError s)

/-- The call `strings.Replace(s, "%\x7bi\x7d", new, -1)`: every occurrence of
the four runes `%`, `\x7b`, `i`, `\x7d`, from left to right and without
overlap, becomes `new`. The counter `skip` is the number of runes of an
occurrence already replaced that are still to be passed over. -/
def replaceMacroI (new : List Char) : Nat → List Char → List Char
  | _, [] => []
  | skip + 1, _ :: rest => replaceMacroI new skip rest
  | 0, c :: rest =>
    if ['%', Char.ofNat 123, 'i', Char.ofNat 125].isPrefixOf (c :: rest) then
      new ++ replaceMacroI new 3 rest
    else c :: replaceMacroI new 0 rest

/-! ## lookup.go -/

/-- The loops of `LookupSPF` over the answer section and over the strings of
each TXT record. -/
def firstSPF : List RR → String × Option Error
  | [] => ("", some Error.ErrNotFound)
  | RR.TXT Txt :: rest =>
    match Txt.find? IsSPF with
    | some record => (record, none)
    | none => firstSPF rest
  | _ :: rest => firstSPF rest

/-- Get an SPF record as string from a domain: `func LookupSPF`. -/
def LookupSPF (X : Extern) (domain nameserver : String) : String × Option Error :=
  match X.Exchange (X.Fqdn domain) RRType.TypeTXT nameserver with
  | .error err => ("", some err)
  | .ok answer => firstSPF answer

/-- The loop of `LookupARec`: the first A record of the answer. -/
def firstARec : List RR → IP × Option Error
  | [] => (none, none)
  | RR.A a :: _ => (a, none)
  | _ :: rest => firstARec rest

def LookupARec (X : Extern) (domain nameserver : String) : IP × Option Error :=
  match X.Exchange (X.Fqdn domain) RRType.TypeA nameserver with
  | .error err => (none, some err)
  | .ok answer => firstARec answer

/-- The loop of `MatchIPWithARec`. -/
def anyARec (X : Extern) (ip : IP) : List RR → Bool × Option Error
  | [] => (false, none)
  | RR.A a :: rest => if X.ipEqual ip a then (true, none) else anyARec X ip rest
  | _ :: rest => anyARec X ip rest

def MatchIPWithARec (X : Extern) (ip : IP) (domain nameserver : String) : Bool × Option Error :=
  match X.Exchange (X.Fqdn domain) RRType.TypeA nameserver with
  | .error err => (false, some err)
  | .ok answer => anyARec X ip answer

/-- The loop of `MatchIPWithMXRec`: it returns at the first MX record. -/
def firstMXRec (X : Extern) (ip : IP) (nameserver : String) : List RR → Bool × Option Error
  | [] => (false, none)
  | RR.MX Mx :: _ =>
    match MatchIPWithARec X ip Mx nameserver with
    | (_, some err) => (false, some err)
    | (found, none) => (found, none)
  | _ :: rest => firstMXRec X ip nameserver rest

def MatchIPWithMXRec (X : Extern) (ip : IP) (domain nameserver : String) : Bool × Option Error :=
  match X.Exchange (X.Fqdn domain) RRType.TypeMX nameserver with
  | .error err => (false, some err)
  | .ok answer => firstMXRec X ip nameserver answer

/-- The loop of `MatchIPWithPtrRec`. -/
def anyPtrRec (domain : String) : List RR → Bool × Option Error
  | [] => (false, none)
  | RR.PTR Ptr :: rest => if Ptr = domain then (true, none) else anyPtrRec domain rest
  | _ :: rest => anyPtrRec domain rest

def MatchIPWithPtrRec (X : Extern) (ip : IP) (domain nameserver : String) : Bool × Option Error :=
  match X.Exchange (X.ipString ip) RRType.TypePTR nameserver with
  | .error err => (false, some err)
  | .ok answer => anyPtrRec domain answer

/-! ## interpreter.go -/

/-- Check if ip exists in a network: `func MatchIPWithCIDR`. -/
def MatchIPWithCIDR (X : Extern) (ip : IP) (cidr : String) : Bool × Option Error :=
  match ParseCIDR X cidr with
  | .error err => (false, some err)
  | .ok ipNet => (X.Contains ipNet ip, none)

/-- The shared tail of the simple mechanisms: an error gives `NoneQualifier`
and the error, no match gives `NoneQualifier`, a match the qualifier. -/
def qualifierOfMatch (mechanism : Mechanism) (r : Bool × Option Error) :
    Qualifier × Option Error :=
  match r with
  | (_, some err) => (NoneQualifier, some err)
  | (found, none) => if ¬ found then (NoneQualifier, none) else (mechanism.Qualifier, none)

/-- The loop over the included record in `ExecuteMechanism`; `exec` is the
recursive call on one nested mechanism. In the source the loop variable is
named `mechanism` too and hides the include directive itself, so the
qualifier that is tested is the one of the nested mechanism `m`. -/
def includeLoop (exec : Mechanism → Option (Qualifier × Option Error)) :
    List Mechanism → Option (Qualifier × Option Error)
  | [] => some (NoneQualifier, none)
  | m :: rest =>
    match exec m with
    | none => none
    | some (_, some err) => some (NoneQualifier, some err)
    | some (result, none) =>
      if result ≠ NoneQualifier then
        (if m.Qualifier ≠ PassQualifier then some (m.Qualifier, none)
         else some (result, none))
      else includeLoop exec rest

/-- Make exact queries or execute a part of a record: `func ExecuteMechanism`.
The fuel bounds the nesting of record walks; `none` is returned when it is
used up. -/
def ExecuteMechanism (X : Extern) (ip : IP) (nameserver : String) :
    Nat → Mechanism → Int → Option (Qualifier × Option Error)
  | fuel, mechanism, depth =>
    if mechanism.Mechanism = AllMechanism then some (mechanism.Qualifier, none)
    else if mechanism.Mechanism = IPv4Mechanism ∨ mechanism.Mechanism = IPv6Mechanism then
      some (qualifierOfMatch mechanism (MatchIPWithCIDR X ip mechanism.Value))
    else if mechanism.Mechanism = AMechanism then
      some (qualifierOfMatch mechanism (MatchIPWithARec X ip mechanism.Value nameserver))
    else if mechanism.Mechanism = MXMechanism then
      some (qualifierOfMatch mechanism (MatchIPWithMXRec X ip mechanism.Value nameserver))
    else if mechanism.Mechanism = PTRMechanism then
      some (qualifierOfMatch mechanism (MatchIPWithPtrRec X ip mechanism.Value nameserver))
    else if mechanism.Mechanism = ExistsMechanism then
      let query : String :=
        ⟨replaceMacroI (X.ipString ip).data 0 mechanism.Value.data⟩
      match LookupARec X query nameserver with
      | (_, some err) => some (NoneQualifier, some err)
      | (resolved, none) =>
        if resolved = none then some (NoneQualifier, none)
        else some (mechanism.Qualifier, none)
    else if mechanism.Mechanism = IncludeMechanism ∨
        mechanism.Mechanism = RedirectMechanism then
      if depth = 0 then some (NoneQualifier, some Error.ErrOutOfRecursions)
      else
        match LookupSPF X mechanism.Value nameserver with
        | (_, some err) => some (NoneQualifier, some err)
        | (spf, none) =>
          match ParseSPF X.unicodeToLower spf with
          | (_, some err) => some (NoneQualifier, some err)
          | (parsedSpf, none) =>
            match fuel with
            | 0 => none
            | fuel1 + 1 =>
              includeLoop (fun m => ExecuteMechanism X ip nameserver fuel1 m (depth - 1))
                parsedSpf
    else some (NoneQualifier, none)

/-- The loop over the record in `ValidateIP`. -/
def validateLoop (exec : Mechanism → Option (Qualifier × Option Error)) :
    List Mechanism → Option (Qualifier × Option Error)
  | [] => some (NoneQualifier, none)
  | mechanism :: rest =>
    match exec mechanism with
    | none => none
    | some (_, some err) => some (NoneQualifier, some err)
    | some (qualifier, none) =>
      if qualifier ≠ NoneQualifier then some (qualifier, none)
      else validateLoop exec rest

/-- Returns the qualifier of a domain for given IP: `func ValidateIP`. -/
def ValidateIP (X : Extern) (fuel : Nat) (ip : IP) (name nameserver : String) (depth : Int) :
    Option (Qualifier × Option Error) :=
  match LookupSPF X name nameserver with
  | (_, some err) => some (0, some err)
  | (spf, none) =>
    match ParseSPF X.unicodeToLower spf with
    | (_, some err) => some (NoneQualifier, some err)
    | (record, none) =>
      validateLoop (fun mechanism => ExecuteMechanism X ip nameserver fuel mechanism depth) record


/-! ## Record texts built from tokens -/

/-- A rune that no case of the `switch` in `ParseSPF` treats specially. -/
def plainChar (c : Char) : Prop :=
  c ∉ ['+', '-', '~', '?', ':', '=', ' ', '\n', '\r']

instance (c : Char) : Decidable (plainChar c) :=
  inferInstanceAs (Decidable (c ∉ ['+', '-', '~', '?', ':', '=', ' ', '\n', '\r']))

/-- A rune that is not one of the three whitespace runes of the `switch`. -/
def notSpace (c : Char) : Prop :=
  c ≠ ' ' ∧ c ≠ '\n' ∧ c ≠ '\r'

instance (c : Char) : Decidable (notSpace c) :=
  inferInstanceAs (Decidable (c ≠ ' ' ∧ c ≠ '\n' ∧ c ≠ '\r'))

/-- The four qualifier symbols. -/
def qualifierSymbols : List Char := ['+', '-', '~', '?']

/-- The qualifier that a qualifier symbol stands for: `+` Pass, `-` Fail,
`~` SoftFail, `?` Neutral. -/
def qualifierOfSymbol (c : Char) : Qualifier :=
  if c = '+' then PassQualifier
  else if c = '-' then FailQualifier
  else if c = '~' then SoftFailQualifier
  else NeutralQualifier

/-- The eight mechanism names. -/
def mechanismNames : List String :=
  ["all", "ip4", "ip6", "a", "mx", "ptr", "exists", "include"]

/-- The kind that a mechanism name stands for. -/
def kindOfName (name : String) : Int :=
  if name = "all" then AllMechanism
  else if name = "ip4" then IPv4Mechanism
  else if name = "ip6" then IPv6Mechanism
  else if name = "a" then AMechanism
  else if name = "mx" then MXMechanism
  else if name = "ptr" then PTRMechanism
  else if name = "exists" then ExistsMechanism
  else if name = "include" then IncludeMechanism
  else 0

/-- A mechanism token of a record text: an optional qualifier symbol, a name,
and either `:` with a value or nothing (a bare name). -/
structure Token where
  symbol : Option Char
  name : String
  value : Option String
deriving DecidableEq, Repr

/-- The text of a token. -/
def Token.text (t : Token) : String :=
  (match t.symbol with
    | some c => String.singleton c
    | none => "") ++ t.name ++
  (match t.value with
    | some v => ":" ++ v
    | none => "")

/-- The qualifier written in front of a token, Pass when there is none. -/
def Token.qualifier (t : Token) : Qualifier :=
  match t.symbol with
  | some c => qualifierOfSymbol c
  | none => PassQualifier

/-- The directive a token stands for: its qualifier, its kind and its value
(empty for a bare name). -/
def Token.directive (t : Token) : Mechanism :=
  ⟨t.qualifier, kindOfName t.name, t.value.getD ""⟩

/-- The symbol of a token, when there is one, is a qualifier symbol. -/
def symbolOk : Option Char → Prop
  | none => True
  | some c => c ∈ qualifierSymbols

instance : (o : Option Char) → Decidable (symbolOk o)
  | none => isTrue trivial
  | some c => inferInstanceAs (Decidable (c ∈ qualifierSymbols))

/-- A value is non-empty and contains no space, CR or LF. -/
def valueOk (v : String) : Prop :=
  v ≠ "" ∧ ∀ c ∈ v.data, notSpace c

instance (v : String) : Decidable (valueOk v) :=
  inferInstanceAs (Decidable (v ≠ "" ∧ ∀ c ∈ v.data, notSpace c))

/-- The value of a token, when there is one, is a good value. -/
def optValueOk : Option String → Prop
  | none => True
  | some v => valueOk v

instance : (o : Option String) → Decidable (optValueOk o)
  | none => isTrue trivial
  | some v => inferInstanceAs (Decidable (valueOk v))

/-- A well-formed token: qualifier symbol, one of the eight names, and a
non-empty value without whitespace if it has one. -/
def Token.wellFormed (t : Token) : Prop :=
  symbolOk t.symbol ∧ t.name ∈ mechanismNames ∧ optValueOk t.value

instance (t : Token) : Decidable t.wellFormed :=
  inferInstanceAs (Decidable (symbolOk t.symbol ∧ t.name ∈ mechanismNames ∧ optValueOk t.value))

/-- The runes of the value part of a token text. -/
def valueRunes : Option String → List Char
  | some v => ':' :: v.data
  | none => []

/-- The runes of the qualifier part of a token text. -/
def symbolRunes : Option Char → List Char
  | some c => [c]
  | none => []

/-- The token texts separated by single spaces. -/
def joinTokens : List String → String
  | [] => ""
  | [t] => t
  | t :: t1 :: ts => t ++ " " ++ joinTokens (t1 :: ts)

/-- A token of a record text: a mechanism token or the modifier
`redirect=value`. -/
inductive Piece where
  | directive (t : Token)
  | redirect (v : String)
deriving DecidableEq, Repr

def Piece.text : Piece → String
  | .directive t => t.text
  | .redirect v => "redirect=" ++ v

/-- The directives of a list of pieces, in order. -/
def dirsOf : List Piece → List Mechanism
  | [] => []
  | .directive t :: ps => t.directive :: dirsOf ps
  | .redirect _ :: ps => dirsOf ps

/-- The redirect modifiers of a list of pieces, in order. -/
def modsOf : List Piece → List Mechanism
  | [] => []
  | .directive _ :: ps => modsOf ps
  | .redirect v :: ps => ⟨PassQualifier, RedirectMechanism, v⟩ :: modsOf ps

/-- A piece that carries a good value. -/
def Piece.valued : Piece → Prop
  | .directive t => t.wellFormed ∧ t.value ≠ none
  | .redirect v => valueOk v

instance : (p : Piece) → Decidable p.valued
  | .directive t => inferInstanceAs (Decidable (t.wellFormed ∧ t.value ≠ none))
  | .redirect v => inferInstanceAs (Decidable (valueOk v))

/-- A well-formed piece: a well-formed mechanism token, or a redirect with a
good value. -/
def Piece.wellFormed : Piece → Prop
  | .directive t => t.wellFormed
  | .redirect v => valueOk v

instance : (p : Piece) → Decidable p.wellFormed
  | .directive t => inferInstanceAs (Decidable t.wellFormed)
  | .redirect v => inferInstanceAs (Decidable (valueOk v))

/-- The state of the scan after the text of a piece has been read from a
fresh state. -/
def Piece.mid (r m : List Mechanism) : Piece → ParseState
  | .directive t =>
    ⟨r, m, ⟨t.qualifier, t.name, t.value.getD "", t.value.isNone, false⟩,
      if t.value.isNone then .Mechanism else .Value⟩
  | .redirect v => ⟨r, m, ⟨PassQualifier, "redirect", v, false, true⟩, .Value⟩

/-- The runes of a list of pieces, each followed by one space. -/
def sepRunes : List Piece → List Char
  | [] => []
  | p :: ps => p.text.data ++ ' ' :: sepRunes ps

/-- A qualifier that a directive can assert: Pass, Fail, SoftFail or Neutral. -/
def assertedQualifier (q : Qualifier) : Prop :=
  q = PassQualifier ∨ q = FailQualifier ∨ q = SoftFailQualifier ∨ q = NeutralQualifier

instance (q : Qualifier) : Decidable (assertedQualifier q) :=
  inferInstanceAs (Decidable (q = PassQualifier ∨ q = FailQualifier ∨
    q = SoftFailQualifier ∨ q = NeutralQualifier))

/-- The qualifiers that the scan holds are asserted qualifiers: the one of the
current token and those of the tokens emitted so far. -/
def ParseState.qualifiersAsserted (st : ParseState) : Prop :=
  assertedQualifier st.parseContext.Qualifier ∧
    (∀ m ∈ st.spfRecord, assertedQualifier m.Qualifier) ∧
    ∀ m ∈ st.spfModifiers, assertedQualifier m.Qualifier

/-! ## A resolver given by a table, for concrete evaluations -/

/-- A resolver that publishes one TXT string for each domain of a table and no
other record; `dns.Fqdn` is left out, every CIDR text with a `/` is taken as a
network, and `inNet` tells whether these networks contain the addresses. -/
def tableExtern (table : List (String × String)) (inNet : Bool) : Extern where
  Fqdn := fun s => s
  Exchange := fun name t _ =>
    if t = RRType.TypeTXT then
      match table.lookup name with
      | some txt => .ok [RR.TXT [txt]]
      | none => .ok []
    else .ok []
  parseCIDRSlash := fun _ => .ok ⟨none, []⟩
  Contains := fun _ _ => inNet
  ipString := fun _ => ""
  ipEqual := fun a b => a == b
  unicodeToLower := fun c => c

/-- A chain of three domains for concrete evaluations: `d0` includes `d1`,
`d1` includes `d2`, and `d2` publishes `all`. -/
def chainNames (i : Nat) : String :=
  ["d0", "d1", "d2"].getD i "d2"


/-! ## Further notions for the statements -/

/-- The strings of the TXT records of an answer section, in answer order. -/
def txtStrings : List RR → List String
  | [] => []
  | RR.TXT Txt :: rest => Txt ++ txtStrings rest
  | _ :: rest => txtStrings rest

/-- Two directives that differ at most in the qualifier written in front of an
include (or of a redirect). -/
def sameUpToIncludeQualifier (m1 m2 : Mechanism) : Prop :=
  m1 = m2 ∨
    ((m1.Mechanism = IncludeMechanism ∨ m1.Mechanism = RedirectMechanism) ∧
      m1.Mechanism = m2.Mechanism ∧ m1.Value = m2.Value)

/-- One of the three whitespace runes of the `switch`: space, LF, CR. -/
def spaceChar (c : Char) : Prop :=
  c = ' ' ∨ c = '\n' ∨ c = '\r'

instance (c : Char) : Decidable (spaceChar c) :=
  inferInstanceAs (Decidable (c = ' ' ∨ c = '\n' ∨ c = '\r'))

/-- A rune of the gap between two tokens: whitespace or a qualifier symbol. -/
def gapChar (c : Char) : Prop :=
  spaceChar c ∨ c ∈ qualifierSymbols

instance (c : Char) : Decidable (gapChar c) :=
  inferInstanceAs (Decidable (spaceChar c ∨ c ∈ qualifierSymbols))

/-- The qualifier that the symbols of a gap give: the mapping of the last
qualifier symbol of the gap, and `q0` when the gap has none. -/
def lastSymbolQualifier (q0 : Qualifier) (gap : List Char) : Qualifier :=
  match (gap.filter (fun c => decide (c ∈ qualifierSymbols))).getLast? with
  | some c => qualifierOfSymbol c
  | none => q0

/-- A rune that can stand inside a kind name: no whitespace, no `:`, no `=`. -/
def nameTailChar (c : Char) : Prop :=
  c ≠ ':' ∧ c ≠ '=' ∧ notSpace c

instance (c : Char) : Decidable (nameTailChar c) :=
  inferInstanceAs (Decidable (c ≠ ':' ∧ c ≠ '=' ∧ notSpace c))

/-- The runes of a kind name as a token can carry it: not empty, without
whitespace, `:` and `=`, and not starting with a qualifier symbol. -/
def nameRunesOk : List Char → Prop
  | [] => False
  | c :: cs => plainChar c ∧ ∀ x ∈ cs, nameTailChar x

instance : (cs : List Char) → Decidable (nameRunesOk cs)
  | [] => isFalse (fun h => h)
  | c :: cs => inferInstanceAs (Decidable (plainChar c ∧ ∀ x ∈ cs, nameTailChar x))

/-- What holds of the variables of the scan in every state that is reached
from the start: the pointer `writeValue` agrees with `WritingDescriptor`, the
value is empty and the token is no modifier while the kind name is written,
and the kind name is not empty once it has been left. -/
def ParseState.consistent (st : ParseState) : Prop :=
  (st.writeValue = .Mechanism ↔ st.parseContext.WritingDescriptor = true) ∧
    (st.parseContext.WritingDescriptor = true →
      st.parseContext.Value = "" ∧ st.parseContext.Modifier = false) ∧
    (st.parseContext.WritingDescriptor = false → st.parseContext.Mechanism ≠ "")

/-- The result of `ParseSPF` when the scan of the content starts in the state
`st`: the scan loop followed by the code after it. -/
def parseFrom (U : Char → Char) (content : List Char) (st : ParseState) : Record × Option Error :=
  match parseLoop U content st with
  | .error err => ([], some err)
  | .ok st1 => parseFinish U st1

/-- The scan of the text `u` from the start ends while a kind name is awaited
or being written, or it fails. -/
def writingName (U : Char → Char) (u : String) : Bool :=
  match parseLoop U u.data (ParseState.fresh [] []) with
  | .ok st => st.parseContext.WritingDescriptor
  | .error _ => true

/-! ## The qualifier symbols of a record text, read token by token -/

/-- Where the reading of a record text stands: in the gap before a kind name,
inside a kind name, after the separator and before the first rune of the
value, or inside a value. -/
inductive Stage where
  | gap
  | name
  | separator
  | value
deriving DecidableEq, Repr

/-- The reading of the qualifier symbols of a record text: the stage, the
qualifier of the last symbol of the current gap (Pass when there is none),
whether the current token is a modifier, and the qualifiers of the ordinary
tokens that have ended. -/
structure SymbolScan where
  stage : Stage
  qualifier : Qualifier
  modifier : Bool
  qualifiers : List Qualifier
deriving DecidableEq, Repr

/-- The reading at the version marker. -/
def SymbolScan.start : SymbolScan :=
  ⟨.gap, PassQualifier, false, []⟩

/-- The end of a token: an ordinary token contributes the qualifier of its
gap, and the next gap starts without a symbol. -/
def SymbolScan.endToken (a : SymbolScan) : SymbolScan :=
  ⟨.gap, PassQualifier, false,
    if a.modifier then a.qualifiers else a.qualifiers ++ [a.qualifier]⟩

/-- One rune of the reading. In a gap, whitespace is passed over, a qualifier
symbol is noted, and any other rune starts a kind name (`:` and `=` cannot:
there is no successful parse then). A kind name lasts until `:` or `=`; the
value starts at the first rune after the separator that is no whitespace, and
the first whitespace after that ends the token. -/
def SymbolScan.step (a : SymbolScan) (c : Char) : Option SymbolScan :=
  match a.stage with
  | .gap =>
    if spaceChar c then some a
    else if c ∈ qualifierSymbols then some { a with qualifier := qualifierOfSymbol c }
    else if c = ':' ∨ c = '=' then none
    else some { a with stage := .name }
  | .name =>
    if c = ':' then some { a with stage := .separator }
    else if c = '=' then some { a with stage := .separator, modifier := true }
    else some a
  | .separator =>
    if spaceChar c then some a else some { a with stage := .value }
  | .value =>
    if spaceChar c then some a.endToken else some a

/-- The reading of a text, rune by rune. -/
def SymbolScan.run : List Char → SymbolScan → Option SymbolScan
  | [], a => some a
  | c :: cs, a =>
    match a.step c with
    | none => none
    | some a1 => SymbolScan.run cs a1

/-- The end of the text ends the token that is being read, if there is one. -/
def SymbolScan.finish (a : SymbolScan) : List Qualifier :=
  match a.stage with
  | .gap => a.qualifiers
  | _ => a.endToken.qualifiers

/-- The qualifiers of the ordinary tokens of a record content, each taken
from the symbols of the gap in front of the token. -/
def symbolQualifiers (content : List Char) : Option (List Qualifier) :=
  (SymbolScan.run content SymbolScan.start).map SymbolScan.finish

/-- The state of the scan of `ParseSPF` and the reading of the symbols agree:
on the qualifiers of the directives emitted so far, on the qualifier and the
modifier flag of the current token, and on the stage. -/
def simRel (st : ParseState) (a : SymbolScan) : Prop :=
  st.spfRecord.map (fun x => x.Qualifier) = a.qualifiers ∧
    st.parseContext.Qualifier = a.qualifier ∧
    st.parseContext.Modifier = a.modifier ∧
    (∀ x ∈ st.spfRecord, x.Mechanism ≠ RedirectMechanism) ∧
    (∀ x ∈ st.spfModifiers, x.Mechanism = RedirectMechanism) ∧
    match a.stage with
    | .gap =>
      st.parseContext.WritingDescriptor = true ∧ st.parseContext.Mechanism = "" ∧
        st.parseContext.Value = "" ∧ st.writeValue = .Mechanism ∧ a.modifier = false
    | .name =>
      st.parseContext.WritingDescriptor = true ∧ st.parseContext.Mechanism ≠ "" ∧
        st.parseContext.Value = "" ∧ st.writeValue = .Mechanism ∧ a.modifier = false
    | .separator =>
      st.parseContext.WritingDescriptor = false ∧ st.parseContext.Mechanism ≠ "" ∧
        st.parseContext.Value = "" ∧ st.writeValue = .Value
    | .value =>
      st.parseContext.WritingDescriptor = false ∧ st.parseContext.Mechanism ≠ "" ∧
        st.parseContext.Value ≠ "" ∧ st.writeValue = .Value

/-! ## The nesting of record fetches -/

/-- The loop `includeLoop` with a ghost counter: next to each result stands
the greatest nesting of record fetches that the evaluation has reached; `acc`
is the greatest nesting reached by the directives already walked. -/
def includeLoopN (exec : Mechanism → Option ((Qualifier × Option Error) × Nat)) :
    Nat → List Mechanism → Option ((Qualifier × Option Error) × Nat)
  | acc, [] => some ((NoneQualifier, none), acc)
  | acc, m :: rest =>
    match exec m with
    | none => none
    | some ((_, some err), n) => some ((NoneQualifier, some err), max acc n)
    | some ((result, none), n) =>
      if result ≠ NoneQualifier then
        (if m.Qualifier ≠ PassQualifier then some ((m.Qualifier, none), max acc n)
         else some ((result, none), max acc n))
      else includeLoopN exec (max acc n) rest

/-- The function `ExecuteMechanism` with a ghost counter: next to the result
stands the greatest nesting of the calls of `LookupSPF` made for include and
redirect directives: 0 when no record is fetched, and one more than the
nesting inside the fetched record when one is. The mechanisms that fetch no
record are taken from `ExecuteMechanism` as they are. -/
def ExecuteMechanismN (X : Extern) (ip : IP) (nameserver : String) :
    Nat → Mechanism → Int → Option ((Qualifier × Option Error) × Nat)
  | fuel, mechanism, depth =>
    if mechanism.Mechanism = IncludeMechanism ∨
        mechanism.Mechanism = RedirectMechanism then
      if depth = 0 then some ((NoneQualifier, some Error.ErrOutOfRecursions), 0)
      else
        match LookupSPF X mechanism.Value nameserver with
        | (_, some err) => some ((NoneQualifier, some err), 1)
        | (spf, none) =>
          match ParseSPF X.unicodeToLower spf with
          | (_, some err) => some ((NoneQualifier, some err), 1)
          | (parsedSpf, none) =>
            match fuel with
            | 0 => none
            | fuel1 + 1 =>
              match includeLoopN
                  (fun m => ExecuteMechanismN X ip nameserver fuel1 m (depth - 1)) 0
                  parsedSpf with
              | none => none
              | some (r, n) => some (r, n + 1)
    else (ExecuteMechanism X ip nameserver fuel mechanism depth).map (fun r => (r, 0))

/-! ## Scanning lemmas for `ParseSPF` -/

theorem string_mk_ne_empty {l : List Char} (h : l ≠ []) : String.mk l ≠ "" := by
  intro e
  exact h (congrArg String.data e)

theorem string_ne_empty_data {s : String} (h : s ≠ "") : s.data ≠ [] := by
  intro e
  apply h
  cases s
  simp_all

theorem parseStep_plain (U : Char → Char) (st : ParseState) (c : Char) (h : plainChar c) :
    parseStep U st c = .ok (st.write c) := by
  simp only [plainChar, List.mem_cons, List.mem_singleton, not_or, List.not_mem_nil,
    or_false] at h
  obtain ⟨h1, h2, h3, h4, h5, h6, h7, h8, h9⟩ := h
  simp [parseStep, h1, h2, h3, h4, h5, h6, h7, h8, h9]

theorem parseStep_value (U : Char → Char) (r m : List Mechanism) (q : Qualifier)
    (name val : String) (md : Bool) (c : Char) (hn : name ≠ "") (h : notSpace c) :
    parseStep U ⟨r, m, ⟨q, name, val, false, md⟩, .Value⟩ c
      = .ok ⟨r, m, ⟨q, name, val.push c, false, md⟩, .Value⟩ := by
  obtain ⟨h1, h2, h3⟩ := h
  simp only [parseStep, hn, h1, h2, h3, false_and, if_false, or_self, ParseState.write]
  split_ifs <;> first | rfl | contradiction

theorem parseLoop_cons (U : Char → Char) (c : Char) (rest : List Char) (st : ParseState) :
    parseLoop U (c :: rest) st
      = match parseStep U st c with
        | .error err => .error err
        | .ok st1 => parseLoop U rest st1 := rfl

theorem parseLoop_name (U : Char → Char) (r m : List Mechanism) (q : Qualifier)
    (rest : List Char) :
    ∀ (cs : List Char) (name : String), (∀ c ∈ cs, plainChar c) →
      parseLoop U (cs ++ rest) ⟨r, m, ⟨q, name, "", true, false⟩, .Mechanism⟩
        = parseLoop U rest ⟨r, m, ⟨q, ⟨name.data ++ cs⟩, "", true, false⟩, .Mechanism⟩
  | [], name, _ => by simp
  | c :: cs, name, h => by
    have hc : plainChar c := h c (List.mem_cons_self _ _)
    have ih := parseLoop_name U r m q rest cs (name.push c)
      (fun x hx => h x (List.mem_cons_of_mem _ hx))
    rw [List.cons_append, parseLoop_cons, parseStep_plain U _ c hc]
    simp only [ParseState.write]
    rw [ih]
    simp [String.data_push]

theorem parseLoop_value (U : Char → Char) (r m : List Mechanism) (q : Qualifier)
    (name : String) (md : Bool) (rest : List Char) (hn : name ≠ "") :
    ∀ (cs : List Char) (val : String), (∀ c ∈ cs, notSpace c) →
      parseLoop U (cs ++ rest) ⟨r, m, ⟨q, name, val, false, md⟩, .Value⟩
        = parseLoop U rest ⟨r, m, ⟨q, name, ⟨val.data ++ cs⟩, false, md⟩, .Value⟩
  | [], val, _ => by simp
  | c :: cs, val, h => by
    have hc : notSpace c := h c (List.mem_cons_self _ _)
    have ih := parseLoop_value U r m q name md rest hn cs (val.push c)
      (fun x hx => h x (List.mem_cons_of_mem _ hx))
    rw [List.cons_append, parseLoop_cons, parseStep_value U r m q name val md c hn hc]
    simp only []
    rw [ih]
    simp [String.data_push]


theorem parseStep_space_fresh (U : Char → Char) (r m : List Mechanism) (q : Qualifier)
    (c : Char) (hc : ¬ notSpace c) :
    parseStep U ⟨r, m, ⟨q, "", "", true, false⟩, .Mechanism⟩ c
      = .ok ⟨r, m, ⟨q, "", "", true, false⟩, .Mechanism⟩ := by
  have h : c = ' ' ∨ c = '\n' ∨ c = '\r' := by
    simp only [notSpace] at hc; tauto
  rcases h with rfl | rfl | rfl <;> simp [parseStep]

theorem parseStep_symbol_fresh (U : Char → Char) (r m : List Mechanism) (q : Qualifier)
    (c : Char) (hc : c ∈ qualifierSymbols) :
    parseStep U ⟨r, m, ⟨q, "", "", true, false⟩, .Mechanism⟩ c
      = .ok ⟨r, m, ⟨qualifierOfSymbol c, "", "", true, false⟩, .Mechanism⟩ := by
  simp only [qualifierSymbols, List.mem_cons, List.mem_singleton, List.not_mem_nil,
    or_false] at hc
  rcases hc with rfl | rfl | rfl | rfl <;>
    simp [parseStep, EvaluateQualifier, qualifierOfSymbol]

theorem ToLower_fixed (U : Char → Char) (s : String)
    (h : ∀ c ∈ s.data, c.toNat < 128 ∧ ¬ (65 ≤ c.toNat ∧ c.toNat ≤ 90)) :
    ToLower U s = s := by
  have hm : ∀ l : List Char, (∀ c ∈ l, c.toNat < 128 ∧ ¬ (65 ≤ c.toNat ∧ c.toNat ≤ 90)) →
      l.map (toLowerRune U) = l := by
    intro l
    induction l with
    | nil => intro _; rfl
    | cons c cs ih =>
      intro hl
      have hc := hl c (List.mem_cons_self _ _)
      rw [List.map_cons, ih (fun x hx => hl x (List.mem_cons_of_mem _ hx))]
      congr 1
      simp [toLowerRune, hc.1, hc.2]
  unfold ToLower
  rw [hm _ h]

theorem mechanismNames_facts (U : Char → Char) (name : String) (h : name ∈ mechanismNames) :
    name ≠ "" ∧ (∀ c ∈ name.data, plainChar c) ∧
      ∀ (q : Qualifier) (v : String) (wd md : Bool),
        EvaluateMechanism U ⟨q, name, v, wd, md⟩ = (⟨q, kindOfName name, v⟩, none) := by
  simp only [mechanismNames, List.mem_cons, List.mem_singleton, List.not_mem_nil,
    or_false] at h
  rcases h with rfl | rfl | rfl | rfl | rfl | rfl | rfl | rfl <;>
    refine ⟨by decide, by decide, fun q v wd md => ?_⟩ <;>
    · simp only [EvaluateMechanism]
      rw [ToLower_fixed U _ (by decide)]
      simp [kindOfName]


theorem Token.text_data (t : Token) :
    t.text.data = symbolRunes t.symbol ++ (t.name.data ++ valueRunes t.value) := by
  obtain ⟨s, n, v⟩ := t
  cases s <;> cases v <;>
    simp [Token.text, String.data_append, String.singleton, symbolRunes, valueRunes]

theorem string_mk_empty_append (s : String) : String.mk ("".data ++ s.data) = s := by
  cases s; rfl

theorem parseStep_colon (U : Char → Char) (r m : List Mechanism) (q : Qualifier)
    (name : String) (hn : name ≠ "") :
    parseStep U ⟨r, m, ⟨q, name, "", true, false⟩, .Mechanism⟩ ':'
      = .ok ⟨r, m, ⟨q, name, "", false, false⟩, .Value⟩ := by
  simp [parseStep, hn]

theorem parseStep_equals (U : Char → Char) (r m : List Mechanism) (q : Qualifier)
    (name : String) (hn : name ≠ "") :
    parseStep U ⟨r, m, ⟨q, name, "", true, false⟩, .Mechanism⟩ '='
      = .ok ⟨r, m, ⟨q, name, "", false, true⟩, .Value⟩ := by
  simp [parseStep, hn]

/-- Reading the name of a token, and its value if it has one, from a state in
which only the qualifier has been set. -/
theorem scan_name_value (U : Char → Char) (r m : List Mechanism) (q : Qualifier)
    (name : String) (value : Option String) (rest : List Char)
    (hn : name ∈ mechanismNames) (hv : optValueOk value) :
    parseLoop U (name.data ++ (valueRunes value ++ rest))
        ⟨r, m, ⟨q, "", "", true, false⟩, .Mechanism⟩
      = parseLoop U rest ⟨r, m, ⟨q, name, value.getD "", value.isNone, false⟩,
          if value.isNone then .Mechanism else .Value⟩ := by
  obtain ⟨hne, hplain, -⟩ := mechanismNames_facts U name hn
  rw [parseLoop_name U r m q _ name.data "" hplain, string_mk_empty_append]
  cases value with
  | none => simp [valueRunes]
  | some v =>
    simp only [valueRunes, List.cons_append, Option.getD_some, Option.isNone_some,
      Bool.false_eq_true, if_false]
    rw [parseLoop_cons, parseStep_colon U r m q name hne]
    simp only []
    rw [parseLoop_value U r m q name false rest hne v.data "" hv.2, string_mk_empty_append]

theorem scan_token (U : Char → Char) (r m : List Mechanism) (t : Token) (rest : List Char)
    (ht : t.wellFormed) :
    parseLoop U (t.text.data ++ rest) (ParseState.fresh r m)
      = parseLoop U rest (Piece.mid r m (.directive t)) := by
  obtain ⟨hs, hn, hv⟩ := ht
  rw [Token.text_data]
  simp only [List.append_assoc, ParseState.fresh, Piece.mid, Token.qualifier]
  cases hsym : t.symbol with
  | none =>
    simp only [symbolRunes, List.nil_append]
    exact scan_name_value U r m PassQualifier t.name t.value rest hn hv
  | some c =>
    rw [hsym] at hs
    simp only [symbolRunes, List.singleton_append]
    rw [parseLoop_cons, parseStep_symbol_fresh U r m PassQualifier c hs]
    exact scan_name_value U r m (qualifierOfSymbol c) t.name t.value rest hn hv

theorem scan_redirect (U : Char → Char) (r m : List Mechanism) (v : String) (rest : List Char)
    (hv : valueOk v) :
    parseLoop U (("redirect=" ++ v).data ++ rest) (ParseState.fresh r m)
      = parseLoop U rest (Piece.mid r m (.redirect v)) := by
  have e : ("redirect=" ++ v).data ++ rest = "redirect".data ++ ('=' :: (v.data ++ rest)) := by
    simp [String.data_append]
  have hne : ("redirect" : String) ≠ "" := by decide
  rw [e, ParseState.fresh, parseLoop_name U r m PassQualifier _ "redirect".data "" (by decide),
    string_mk_empty_append, parseLoop_cons, parseStep_equals U r m PassQualifier "redirect" hne]
  simp only []
  rw [parseLoop_value U r m PassQualifier "redirect" true rest hne v.data "" hv.2,
    string_mk_empty_append]
  rfl

theorem scan_piece (U : Char → Char) (r m : List Mechanism) (p : Piece) (rest : List Char)
    (hp : p.valued) :
    parseLoop U (p.text.data ++ rest) (ParseState.fresh r m)
      = parseLoop U rest (Piece.mid r m p) := by
  cases p with
  | directive t => exact scan_token U r m t rest hp.1
  | redirect v => exact scan_redirect U r m v rest hp

/-- The whitespace after a piece with a value emits it and resets the state. -/
theorem sep_piece (U : Char → Char) (r m : List Mechanism) (p : Piece) (hp : p.valued) :
    parseStep U (Piece.mid r m p) ' '
      = .ok (ParseState.fresh (r ++ dirsOf [p]) (m ++ modsOf [p])) := by
  cases p with
  | directive t =>
    obtain ⟨⟨-, hn, hv⟩, hsome⟩ := hp
    obtain ⟨-, -, hev⟩ := mechanismNames_facts U t.name hn
    cases hval : t.value with
    | none => exact absurd hval hsome
    | some v =>
      rw [hval] at hv
      have hv1 : v ≠ "" := hv.1
      simp [Piece.mid, hval, parseStep, ParseState.emit, hev, hv1, dirsOf, modsOf,
        Token.directive, ParseState.fresh]
  | redirect v =>
    have hv1 : v ≠ "" := hp.1
    simp [Piece.mid, parseStep, ParseState.emit, EvaluateModifier, hv1, dirsOf, modsOf,
      ParseState.fresh]

/-- The end of input after a piece emits it. -/
theorem finish_piece (U : Char → Char) (r m : List Mechanism) (p : Piece)
    (hp : p.wellFormed) :
    parseFinish U (Piece.mid r m p) = ((r ++ dirsOf [p]) ++ (m ++ modsOf [p]), none) := by
  cases p with
  | directive t =>
    obtain ⟨-, hn, -⟩ := hp
    obtain ⟨hne, -, hev⟩ := mechanismNames_facts U t.name hn
    simp [Piece.mid, parseFinish, ParseState.emit, hev, hne, dirsOf, modsOf, Token.directive]
  | redirect v =>
    simp [Piece.mid, parseFinish, ParseState.emit, EvaluateModifier, dirsOf, modsOf]


theorem dirsOf_append (ps qs : List Piece) : dirsOf (ps ++ qs) = dirsOf ps ++ dirsOf qs := by
  induction ps with
  | nil => rfl
  | cons p ps ih => cases p <;> simp [dirsOf, ih]

theorem modsOf_append (ps qs : List Piece) : modsOf (ps ++ qs) = modsOf ps ++ modsOf qs := by
  induction ps with
  | nil => rfl
  | cons p ps ih => cases p <;> simp [modsOf, ih]

theorem dirsOf_directives (ts : List Token) :
    dirsOf (ts.map Piece.directive) = ts.map Token.directive ∧
      modsOf (ts.map Piece.directive) = [] := by
  induction ts with
  | nil => exact ⟨rfl, rfl⟩
  | cons t ts ih => simp [dirsOf, modsOf, ih.1, ih.2]

/-- Pieces with values, each followed by a space, are emitted one by one. -/
theorem scan_pieces (U : Char → Char) (rest : List Char) :
    ∀ (ps : List Piece) (r m : List Mechanism), (∀ p ∈ ps, p.valued) →
      parseLoop U (sepRunes ps ++ rest) (ParseState.fresh r m)
        = parseLoop U rest (ParseState.fresh (r ++ dirsOf ps) (m ++ modsOf ps))
  | [], r, m, _ => by simp [sepRunes, dirsOf, modsOf]
  | p :: ps, r, m, h => by
    have hp : p.valued := h p (List.mem_cons_self _ _)
    have ih := scan_pieces U rest ps (r ++ dirsOf [p]) (m ++ modsOf [p])
      (fun x hx => h x (List.mem_cons_of_mem _ hx))
    have e1 : dirsOf (p :: ps) = dirsOf [p] ++ dirsOf ps := dirsOf_append [p] ps
    have e2 : modsOf (p :: ps) = modsOf [p] ++ modsOf ps := modsOf_append [p] ps
    simp only [sepRunes, List.append_assoc, List.cons_append]
    rw [scan_piece U r m p _ hp, parseLoop_cons, sep_piece U r m p hp]
    simp only []
    rw [ih, e1, e2, List.append_assoc, List.append_assoc]

theorem joinTokens_cons_cons (t t1 : String) (ts : List String) :
    joinTokens (t :: t1 :: ts) = t ++ " " ++ joinTokens (t1 :: ts) := rfl

theorem joinTokens_data (last : Piece) :
    ∀ ps : List Piece,
      (joinTokens ((ps ++ [last]).map Piece.text)).data = sepRunes ps ++ last.text.data
  | [] => by simp [joinTokens, sepRunes]
  | p :: ps => by
    have ih := joinTokens_data last ps
    cases ps with
    | nil =>
      simp [joinTokens, sepRunes, String.data_append]
    | cons p1 ps =>
      have e : (p :: p1 :: ps ++ [last]).map Piece.text
          = p.text :: p1.text :: (ps ++ [last]).map Piece.text := rfl
      have ih1 : (joinTokens (p1.text :: (ps ++ [last]).map Piece.text)).data
          = sepRunes (p1 :: ps) ++ last.text.data := ih
      rw [e, joinTokens_cons_cons, String.data_append, String.data_append, ih1]
      simp [sepRunes]

/-- The scan of `ParseSPF` on a text that starts with the version marker. -/
theorem ParseSPF_content (U : Char → Char) (spf : String) (content : List Char)
    (h : spf.data = "v=spf1".data ++ content) :
    ParseSPF U spf
      = match parseLoop U content (ParseState.fresh [] []) with
        | .error err => ([], some err)
        | .ok st => parseFinish U st := by
  have h1 : IsSPF spf = true := by
    rw [IsSPF, h, List.isPrefixOf_iff_prefix]
    exact List.prefix_append _ _
  have h2 : spf.data.drop 6 = content := by
    rw [h]
    exact List.drop_left' rfl
  simp [ParseSPF, h1, h2]

theorem marker_space_data (s : String) :
    ("v=spf1 " ++ s).data = "v=spf1".data ++ (' ' :: s.data) := by
  rw [String.data_append]
  rfl

/-- A record text made of pieces with values, the last of which may be a bare
mechanism name, parses to its directives followed by its redirects. -/
theorem ParseSPF_pieces (U : Char → Char) (ps : List Piece) (last : Piece)
    (hps : ∀ p ∈ ps, p.valued)
    (hlast : last.wellFormed) :
    ParseSPF U ("v=spf1 " ++ joinTokens ((ps ++ [last]).map Piece.text))
      = (dirsOf (ps ++ [last]) ++ modsOf (ps ++ [last]), none) := by
  rw [ParseSPF_content U _ _ (marker_space_data _), parseLoop_cons, joinTokens_data]
  have hfresh : parseStep U (ParseState.fresh [] []) ' ' = .ok (ParseState.fresh [] []) :=
    parseStep_space_fresh U [] [] PassQualifier ' ' (by decide)
  rw [hfresh]
  simp only []
  rw [scan_pieces U _ ps [] [] hps]
  have hscan : parseLoop U last.text.data (ParseState.fresh ([] ++ dirsOf ps) ([] ++ modsOf ps))
      = .ok (Piece.mid ([] ++ dirsOf ps) ([] ++ modsOf ps) last) := by
    cases last with
    | directive t =>
      have h := scan_token U ([] ++ dirsOf ps) ([] ++ modsOf ps) t [] hlast
      rw [List.append_nil] at h
      exact h.trans rfl
    | redirect v =>
      have h := scan_redirect U ([] ++ dirsOf ps) ([] ++ modsOf ps) v [] hlast
      rw [List.append_nil] at h
      exact h.trans rfl
  rw [hscan]
  simp only []
  rw [finish_piece U _ _ last hlast, dirsOf_append, modsOf_append]
  simp


theorem Piece.valued_wellFormed (p : Piece) (h : p.valued) : p.wellFormed := by
  cases p with
  | directive t => exact h.1
  | redirect v => exact h

/-- The same for a non-empty list of pieces given as a whole. -/
theorem ParseSPF_piece_list (U : Char → Char) (ps : List Piece) (hne : ps ≠ [])
    (hps : ∀ p ∈ ps.dropLast, p.valued) (hlast : (ps.getLast hne).wellFormed) :
    ParseSPF U ("v=spf1 " ++ joinTokens (ps.map Piece.text)) = (dirsOf ps ++ modsOf ps, none) := by
  have h := ParseSPF_pieces U ps.dropLast (ps.getLast hne) hps hlast
  rwa [List.dropLast_append_getLast hne] at h


/-! ## The parser on token sequences -/

/-- C2. Parser correctness on token sequences: a record text made of the
version marker and `n ≥ 1` well-formed mechanism tokens separated by single
spaces, of which only the last may be a bare name, parses without error to
exactly the `n` directives of the tokens, in the same order, each with the
qualifier (Pass without symbol), the kind and the value of its token. -/
theorem ParseSPF_token_sequence (U : Char → Char) (ts : List Token) (hne : ts ≠ [])
    (hwf : ∀ t ∈ ts, t.wellFormed) (hval : ∀ t ∈ ts.dropLast, t.value ≠ none) :
    ParseSPF U ("v=spf1 " ++ joinTokens (ts.map Token.text))
      = (ts.map Token.directive, none) := by
  have hne1 : ts.map Piece.directive ≠ [] := by simpa using hne
  have h := ParseSPF_piece_list U (ts.map Piece.directive) hne1
    (by
      intro p hp
      rw [← List.map_dropLast] at hp
      obtain ⟨t, ht, rfl⟩ := List.mem_map.1 hp
      exact ⟨hwf t (List.mem_of_mem_dropLast ht), hval t ht⟩)
    (by
      rw [List.getLast_map]
      exact hwf _ (List.getLast_mem _))
  rw [List.map_map] at h
  rw [(dirsOf_directives ts).1, (dirsOf_directives ts).2, List.append_nil] at h
  exact h

/-- The literal scenario of the specification, as an instance of
`ParseSPF_token_sequence`. -/
theorem ParseSPF_token_sequence_witness :
    ParseSPF id
        "v=spf1 -include:a.example include:b.example a:c.example ip4:127.0.0.1 ip6:::1 ~all"
      = ([⟨FailQualifier, IncludeMechanism, "a.example"⟩,
          ⟨PassQualifier, IncludeMechanism, "b.example"⟩,
          ⟨PassQualifier, AMechanism, "c.example"⟩,
          ⟨PassQualifier, IPv4Mechanism, "127.0.0.1"⟩,
          ⟨PassQualifier, IPv6Mechanism, "::1"⟩,
          ⟨SoftFailQualifier, AllMechanism, ""⟩], none) :=
  ParseSPF_token_sequence id
    [⟨some '-', "include", some "a.example"⟩, ⟨none, "include", some "b.example"⟩,
      ⟨none, "a", some "c.example"⟩, ⟨none, "ip4", some "127.0.0.1"⟩,
      ⟨none, "ip6", some "::1"⟩, ⟨some '~', "all", none⟩]
    (by decide) (by decide) (by decide)

/-- C3. Ordering invariant: whatever the position at which the token
`redirect=v` is inserted among mechanism tokens `D1 .. Dn` that all carry a
value, the record parses to the directives of `D1 .. Dn` in order, followed by
the directive `(Pass, Redirect, v)`. -/
theorem ParseSPF_redirect_position (U : Char → Char) (pre post : List Token) (v : String)
    (hpre : ∀ t ∈ pre, t.wellFormed ∧ t.value ≠ none)
    (hpost : ∀ t ∈ post, t.wellFormed ∧ t.value ≠ none) (hv : valueOk v) :
    ParseSPF U ("v=spf1 " ++
        joinTokens (pre.map Token.text ++ ["redirect=" ++ v] ++ post.map Token.text))
      = ((pre ++ post).map Token.directive ++ [⟨PassQualifier, RedirectMechanism, v⟩],
          none) := by
  have hall : ∀ p ∈ pre.map Piece.directive ++ [Piece.redirect v] ++ post.map Piece.directive,
      p.valued := by
    intro p hp
    simp only [List.mem_append, List.mem_map, List.mem_singleton] at hp
    rcases hp with (⟨t, ht, rfl⟩ | rfl) | ⟨t, ht, rfl⟩
    · exact hpre t ht
    · exact hv
    · exact hpost t ht
  have hne : pre.map Piece.directive ++ [Piece.redirect v] ++ post.map Piece.directive ≠ [] := by
    simp
  have h := ParseSPF_piece_list U _ hne
    (fun p hp => hall p (List.mem_of_mem_dropLast hp))
    (Piece.valued_wellFormed _ (hall _ (List.getLast_mem _)))
  simp only [List.map_append, List.map_map, List.map_cons, List.map_nil, dirsOf_append,
    modsOf_append, (dirsOf_directives pre).1, (dirsOf_directives pre).2,
    (dirsOf_directives post).1, (dirsOf_directives post).2] at h
  simpa [dirsOf, modsOf, Piece.text, Function.comp_def] using h

/-- The redirect test of the repository with the modifier moved between the
mechanisms, as an instance of `ParseSPF_redirect_position`. -/
theorem ParseSPF_redirect_position_witness :
    ParseSPF id "v=spf1 +a:127.0.0.1 redirect=_spf.voulter.com -a:192.168.178.0"
      = ([⟨PassQualifier, AMechanism, "127.0.0.1"⟩,
          ⟨FailQualifier, AMechanism, "192.168.178.0"⟩,
          ⟨PassQualifier, RedirectMechanism, "_spf.voulter.com"⟩], none) :=
  ParseSPF_redirect_position id [⟨some '+', "a", some "127.0.0.1"⟩]
    [⟨some '-', "a", some "192.168.178.0"⟩] "_spf.voulter.com"
    (by decide) (by decide) (by decide)


/-! ## The evaluation engine -/

theorem ExecuteMechanism_all (X : Extern) (ip : IP) (ns : String) (fuel : Nat) (m : Mechanism)
    (depth : Int) (h : m.Mechanism = AllMechanism) :
    ExecuteMechanism X ip ns fuel m depth = some (m.Qualifier, none) := by
  unfold ExecuteMechanism
  simp [h]

theorem ExecuteMechanism_cidr (X : Extern) (ip : IP) (ns : String) (fuel : Nat) (m : Mechanism)
    (depth : Int) (h : m.Mechanism = IPv4Mechanism ∨ m.Mechanism = IPv6Mechanism) :
    ExecuteMechanism X ip ns fuel m depth
      = some (qualifierOfMatch m (MatchIPWithCIDR X ip m.Value)) := by
  unfold ExecuteMechanism
  rcases h with h | h <;> simp [h, AllMechanism, IPv4Mechanism, IPv6Mechanism]

theorem ExecuteMechanism_include_zero (X : Extern) (ip : IP) (ns : String) (fuel : Nat)
    (m : Mechanism) (h : m.Mechanism = IncludeMechanism ∨ m.Mechanism = RedirectMechanism) :
    ExecuteMechanism X ip ns fuel m 0 = some (NoneQualifier, some Error.ErrOutOfRecursions) := by
  unfold ExecuteMechanism
  rcases h with h | h <;>
    simp [h, AllMechanism, IPv4Mechanism, IPv6Mechanism, AMechanism, MXMechanism,
      PTRMechanism, ExistsMechanism, IncludeMechanism, RedirectMechanism]

theorem ExecuteMechanism_include_succ (X : Extern) (ip : IP) (ns : String) (fuel : Nat)
    (m : Mechanism) (depth : Int) (spf : String) (parsedSpf : Record)
    (h : m.Mechanism = IncludeMechanism ∨ m.Mechanism = RedirectMechanism) (hd : depth ≠ 0)
    (hl : LookupSPF X m.Value ns = (spf, none))
    (hp : ParseSPF X.unicodeToLower spf = (parsedSpf, none)) :
    ExecuteMechanism X ip ns (fuel + 1) m depth
      = includeLoop (fun x => ExecuteMechanism X ip ns fuel x (depth - 1)) parsedSpf := by
  rw [ExecuteMechanism]
  rcases h with h | h <;>
    simp [h, hd, hl, hp, AllMechanism, IPv4Mechanism, IPv6Mechanism, AMechanism, MXMechanism,
      PTRMechanism, ExistsMechanism, IncludeMechanism, RedirectMechanism]

theorem qualifierOfMatch_error (m : Mechanism) (r : Bool × Option Error) (q : Qualifier)
    (err : Error) (h : qualifierOfMatch m r = (q, some err)) : q = NoneQualifier := by
  obtain ⟨b, e⟩ := r
  cases e with
  | some e1 =>
    simp only [qualifierOfMatch, Prod.mk.injEq] at h
    exact h.1.symm
  | none =>
    simp only [qualifierOfMatch] at h
    split_ifs at h <;> simp at h

theorem includeLoop_error (exec : Mechanism → Option (Qualifier × Option Error)) :
    ∀ (l : List Mechanism) (q : Qualifier) (err : Error),
      includeLoop exec l = some (q, some err) → q = NoneQualifier
  | [], q, err, h => by simp [includeLoop] at h
  | m :: rest, q, err, h => by
    rw [includeLoop] at h
    split at h
    · simp at h
    · simp only [Option.some.injEq, Prod.mk.injEq] at h
      exact h.1.symm
    · split_ifs at h
      · simp at h
      · simp at h
      · exact includeLoop_error exec rest q err h

/-- Whenever `ExecuteMechanism` returns an error, the qualifier next to it is
`NoneQualifier`. -/
theorem ExecuteMechanism_error (X : Extern) (ip : IP) (ns : String) (fuel : Nat) (m : Mechanism)
    (depth : Int) (q : Qualifier) (err : Error)
    (h : ExecuteMechanism X ip ns fuel m depth = some (q, some err)) : q = NoneQualifier := by
  unfold ExecuteMechanism at h
  split_ifs at h
  · simp at h
  · exact qualifierOfMatch_error _ _ _ _ (Option.some.inj h)
  · exact qualifierOfMatch_error _ _ _ _ (Option.some.inj h)
  · exact qualifierOfMatch_error _ _ _ _ (Option.some.inj h)
  · exact qualifierOfMatch_error _ _ _ _ (Option.some.inj h)
  · simp only at h
    split at h
    · simp only [Option.some.injEq, Prod.mk.injEq] at h
      exact h.1.symm
    · split_ifs at h <;> simp at h
  · simp only [Option.some.injEq, Prod.mk.injEq] at h
    exact h.1.symm
  · split at h
    · simp only [Option.some.injEq, Prod.mk.injEq] at h
      exact h.1.symm
    · split at h
      · simp only [Option.some.injEq, Prod.mk.injEq] at h
        exact h.1.symm
      · split at h
        · simp at h
        · exact includeLoop_error _ _ _ _ h
  · simp at h

/-- The walk of `ValidateIP` passes over directives that do not match. -/
theorem validateLoop_skip (exec : Mechanism → Option (Qualifier × Option Error)) :
    ∀ (pre rest : List Mechanism), (∀ x ∈ pre, exec x = some (NoneQualifier, none)) →
      validateLoop exec (pre ++ rest) = validateLoop exec rest
  | [], rest, _ => rfl
  | x :: pre, rest, h => by
    have hx := h x (List.mem_cons_self _ _)
    rw [List.cons_append, validateLoop, hx]
    simp only [ne_eq, not_true_eq_false, if_false]
    exact validateLoop_skip exec pre rest (fun y hy => h y (List.mem_cons_of_mem _ hy))

/-- The walk over an included record passes over directives that do not match. -/
theorem includeLoop_skip (exec : Mechanism → Option (Qualifier × Option Error)) :
    ∀ (pre rest : List Mechanism), (∀ x ∈ pre, exec x = some (NoneQualifier, none)) →
      includeLoop exec (pre ++ rest) = includeLoop exec rest
  | [], rest, _ => rfl
  | x :: pre, rest, h => by
    have hx := h x (List.mem_cons_self _ _)
    rw [List.cons_append, includeLoop, hx]
    simp only [ne_eq, not_true_eq_false, if_false]
    exact includeLoop_skip exec pre rest (fun y hy => h y (List.mem_cons_of_mem _ hy))

theorem ValidateIP_walk (X : Extern) (fuel : Nat) (ip : IP) (name ns : String) (depth : Int)
    (spf : String) (record : Record) (hl : LookupSPF X name ns = (spf, none))
    (hp : ParseSPF X.unicodeToLower spf = (record, none)) :
    ValidateIP X fuel ip name ns depth
      = validateLoop (fun x => ExecuteMechanism X ip ns fuel x depth) record := by
  simp [ValidateIP, hl, hp]


/-- The walk of `ValidateIP` returns the outcome of the first directive whose
evaluation is not "not matched". -/
theorem ValidateIP_decided (X : Extern) (fuel : Nat) (ip : IP) (name ns : String)
    (depth : Int) (spf : String) (pre post : List Mechanism) (m : Mechanism)
    (out : Qualifier × Option Error)
    (hl : LookupSPF X name ns = (spf, none))
    (hp : ParseSPF X.unicodeToLower spf = (pre ++ m :: post, none))
    (hpre : ∀ x ∈ pre, ExecuteMechanism X ip ns fuel x depth = some (NoneQualifier, none))
    (hm : ExecuteMechanism X ip ns fuel m depth = some out)
    (hout : out ≠ (NoneQualifier, none)) :
    ValidateIP X fuel ip name ns depth = some out := by
  rw [ValidateIP_walk X fuel ip name ns depth spf _ hl hp, validateLoop_skip _ pre _ hpre,
    validateLoop, hm]
  obtain ⟨q, e⟩ := out
  cases e with
  | some err =>
    have hq := ExecuteMechanism_error X ip ns fuel m depth q err hm
    simp [hq]
  | none =>
    have hq : q ≠ NoneQualifier := fun hq => hout (by rw [hq])
    simp [hq]

/-- C4. Left-to-right walk: the outcome of `ValidateIP` on a parsed record is
the outcome (qualifier or error) of the first directive, in record order,
whose evaluation is not "not matched"; nothing is assumed about the directives
after it, so they and the resolver's answers for them have no influence. When
every directive is "not matched" the outcome is `NoneQualifier` without
error. -/
theorem ValidateIP_left_to_right (X : Extern) (fuel : Nat) (ip : IP) (name ns : String)
    (depth : Int) (spf : String) (record : Record)
    (hl : LookupSPF X name ns = (spf, none))
    (hp : ParseSPF X.unicodeToLower spf = (record, none)) :
    (∀ (pre post : List Mechanism) (m : Mechanism) (out : Qualifier × Option Error),
      record = pre ++ m :: post →
      (∀ x ∈ pre, ExecuteMechanism X ip ns fuel x depth = some (NoneQualifier, none)) →
      ExecuteMechanism X ip ns fuel m depth = some out → out ≠ (NoneQualifier, none) →
      ValidateIP X fuel ip name ns depth = some out) ∧
    ((∀ x ∈ record, ExecuteMechanism X ip ns fuel x depth = some (NoneQualifier, none)) →
      ValidateIP X fuel ip name ns depth = some (NoneQualifier, none)) := by
  constructor
  · intro pre post m out hrec hpre hm hout
    subst hrec
    exact ValidateIP_decided X fuel ip name ns depth spf pre post m out hl hp hpre hm hout
  · intro hall
    rw [ValidateIP_walk X fuel ip name ns depth spf record hl hp]
    have h := validateLoop_skip (fun x => ExecuteMechanism X ip ns fuel x depth) record [] hall
    rw [List.append_nil] at h
    rw [h]
    rfl

/-- A record whose first `ip4` directive matches and whose second one is
malformed: the verdict is the one of the first, as an instance of
`ValidateIP_left_to_right`. -/
theorem ValidateIP_left_to_right_witness :
    ValidateIP (tableExtern [("example", "v=spf1 ~ip4:192.0.2.0/24 ip4:not-a-cidr")] true) 0
        (some [192, 0, 2, 1]) "example" "ns" 5 = some (SoftFailQualifier, none) :=
  (ValidateIP_left_to_right
    (tableExtern [("example", "v=spf1 ~ip4:192.0.2.0/24 ip4:not-a-cidr")] true) 0
    (some [192, 0, 2, 1]) "example" "ns" 5 "v=spf1 ~ip4:192.0.2.0/24 ip4:not-a-cidr"
    [⟨SoftFailQualifier, IPv4Mechanism, "192.0.2.0/24"⟩,
      ⟨PassQualifier, IPv4Mechanism, "not-a-cidr"⟩]
    (by decide) (by decide)).1 [] [⟨PassQualifier, IPv4Mechanism, "not-a-cidr"⟩]
    ⟨SoftFailQualifier, IPv4Mechanism, "192.0.2.0/24"⟩ (SoftFailQualifier, none) rfl
    (by intro x hx; cases hx) (by decide) (by decide)

/-- C6, as stated, fails: a record that contains an include directive after an
`ip4` directive that matches the address is decided by the `ip4` directive at
depth 0, without any error. -/
theorem ValidateIP_depth_guard_counterexample :
    (∃ m ∈ (ParseSPF (fun c => c) "v=spf1 ip4:192.0.2.0/24 include:sub.example").1,
        m.Mechanism = IncludeMechanism) ∧
      ValidateIP (tableExtern [("example", "v=spf1 ip4:192.0.2.0/24 include:sub.example")] true)
          0 (some [192, 0, 2, 1]) "example" "ns" 0 = some (PassQualifier, none) ∧
      ValidateIP (tableExtern [("example", "v=spf1 ip4:192.0.2.0/24 include:sub.example")] true)
          0 (some [192, 0, 2, 1]) "example" "ns" 0
        ≠ some (NoneQualifier, some Error.ErrOutOfRecursions) := by
  decide

/-- C6, amended. Depth guard: when the walk of `ValidateIP` with depth 0
reaches an include directive (every directive before it is "not matched"), the
call fails with `ErrOutOfRecursions`; the include directive itself gives this
result at depth 0 for every resolver, address and fuel, so the record of the
included domain is not looked at. -/
theorem ValidateIP_depth_guard (X : Extern) (fuel : Nat) (ip : IP) (name ns : String)
    (spf : String) (pre post : List Mechanism) (m : Mechanism)
    (hl : LookupSPF X name ns = (spf, none))
    (hp : ParseSPF X.unicodeToLower spf = (pre ++ m :: post, none))
    (hm : m.Mechanism = IncludeMechanism)
    (hpre : ∀ x ∈ pre, ExecuteMechanism X ip ns fuel x 0 = some (NoneQualifier, none)) :
    ValidateIP X fuel ip name ns 0 = some (NoneQualifier, some Error.ErrOutOfRecursions) ∧
      ∀ (X1 : Extern) (ip1 : IP) (ns1 : String) (fuel1 : Nat),
        ExecuteMechanism X1 ip1 ns1 fuel1 m 0
          = some (NoneQualifier, some Error.ErrOutOfRecursions) := by
  have hzero : ∀ (X1 : Extern) (ip1 : IP) (ns1 : String) (fuel1 : Nat),
      ExecuteMechanism X1 ip1 ns1 fuel1 m 0
        = some (NoneQualifier, some Error.ErrOutOfRecursions) :=
    fun X1 ip1 ns1 fuel1 => ExecuteMechanism_include_zero X1 ip1 ns1 fuel1 m (Or.inl hm)
  refine ⟨?_, hzero⟩
  exact ValidateIP_decided X fuel ip name ns 0 spf pre post m _ hl hp hpre
    (hzero X ip ns fuel) (by simp)

/-- A record with an include directive after a directive that does not match,
at depth 0, as an instance of `ValidateIP_depth_guard`. -/
theorem ValidateIP_depth_guard_witness :
    ValidateIP (tableExtern [("example", "v=spf1 ip4:192.0.2.0/24 include:sub.example")] false)
        0 none "example" "ns" 0 = some (NoneQualifier, some Error.ErrOutOfRecursions) :=
  (ValidateIP_depth_guard
    (tableExtern [("example", "v=spf1 ip4:192.0.2.0/24 include:sub.example")] false) 0 none
    "example" "ns" "v=spf1 ip4:192.0.2.0/24 include:sub.example"
    [⟨PassQualifier, IPv4Mechanism, "192.0.2.0/24"⟩] []
    ⟨PassQualifier, IncludeMechanism, "sub.example"⟩
    (by decide) (by decide) rfl (by decide)).1

/-- C7. Malformed CIDR is an error, never a non-match: for an `ip4` or `ip6`
directive whose value `net.ParseCIDR` rejects, `ExecuteMechanism` returns that
error for every address, and `ValidateIP` aborts with it when the walk reaches
the directive; every value without a `/` is rejected in this way. -/
theorem ExecuteMechanism_malformed_cidr (X : Extern) (ip : IP) (ns : String) (fuel : Nat)
    (m : Mechanism) (depth : Int)
    (hk : m.Mechanism = IPv4Mechanism ∨ m.Mechanism = IPv6Mechanism) :
    (∀ err : Error, ParseCIDR X m.Value = .error err →
      ExecuteMechanism X ip ns fuel m depth = some (NoneQualifier, some err) ∧
      ∀ (name spf : String) (pre post : List Mechanism),
        LookupSPF X name ns = (spf, none) →
        ParseSPF X.unicodeToLower spf = (pre ++ m :: post, none) →
        (∀ x ∈ pre, ExecuteMechanism X ip ns fuel x depth = some (NoneQualifier, none)) →
        ValidateIP X fuel ip name ns depth = some (NoneQualifier, some err)) ∧
    ('/' ∉ m.Value.data → ParseCIDR X m.Value = .error (Error.ParseError m.Value)) := by
  constructor
  · intro err herr
    have hex : ExecuteMechanism X ip ns fuel m depth = some (NoneQualifier, some err) := by
      rw [ExecuteMechanism_cidr X ip ns fuel m depth hk]
      simp [MatchIPWithCIDR, herr, qualifierOfMatch]
    refine ⟨hex, ?_⟩
    intro name spf pre post hl hp hpre
    exact ValidateIP_decided X fuel ip name ns depth spf pre post m _ hl hp hpre hex (by simp)
  · intro hslash
    simp [ParseCIDR, hslash]

/-- The record `v=spf1 ip4:not-a-cidr` of the specification, as an instance of
`ExecuteMechanism_malformed_cidr`. -/
theorem ExecuteMechanism_malformed_cidr_witness :
    ValidateIP (tableExtern [("example", "v=spf1 ip4:not-a-cidr")] true) 0 none "example" "ns" 3
      = some (NoneQualifier, some (Error.ParseError "not-a-cidr")) :=
  ((ExecuteMechanism_malformed_cidr (tableExtern [("example", "v=spf1 ip4:not-a-cidr")] true)
    none "ns" 0 ⟨PassQualifier, IPv4Mechanism, "not-a-cidr"⟩ 3 (Or.inl rfl)).1
    (Error.ParseError "not-a-cidr") rfl).2 "example" "v=spf1 ip4:not-a-cidr" [] []
    (by decide) (by decide) (by intro x hx; cases hx)


/-! ## Include and redirect -/

theorem ParseSPF_name_value (U : Char → Char) (name v : String) (hn : name ∈ mechanismNames)
    (hv : ∀ c ∈ v.data, notSpace c) :
    ParseSPF U ("v=spf1 " ++ (name ++ ":" ++ v))
      = ([⟨PassQualifier, kindOfName name, v⟩], none) := by
  obtain ⟨hne, hplain, hev⟩ := mechanismNames_facts U name hn
  have hd : ("v=spf1 " ++ (name ++ ":" ++ v)).data
      = "v=spf1".data ++ (' ' :: (name.data ++ (':' :: (v.data ++ [])))) := by
    rw [marker_space_data]
    simp [String.data_append]
  have hfresh : parseStep U (ParseState.fresh [] []) ' ' = .ok (ParseState.fresh [] []) :=
    parseStep_space_fresh U [] [] PassQualifier ' ' (by decide)
  rw [ParseSPF_content U _ _ hd, parseLoop_cons, hfresh]
  simp only [ParseState.fresh]
  rw [parseLoop_name U [] [] PassQualifier _ name.data "" hplain, string_mk_empty_append,
    parseLoop_cons, parseStep_colon U [] [] PassQualifier name hne]
  simp only []
  rw [parseLoop_value U [] [] PassQualifier name false [] hne v.data "" hv,
    string_mk_empty_append]
  simp [parseLoop, parseFinish, ParseState.emit, hev, hne]

theorem ParseSPF_include (U : Char → Char) (v : String) (hv : ∀ c ∈ v.data, notSpace c) :
    ParseSPF U ("v=spf1 include:" ++ v) = ([⟨PassQualifier, IncludeMechanism, v⟩], none) := by
  have h := ParseSPF_name_value U "include" v (by decide) hv
  have e : "v=spf1 include:" ++ v = "v=spf1 " ++ ("include" ++ ":" ++ v) := by
    rw [← String.append_assoc, ← String.append_assoc]
    rfl
  rw [e, h]
  rfl

theorem ParseSPF_all (U : Char → Char) :
    ParseSPF U "v=spf1 all" = ([⟨PassQualifier, AllMechanism, ""⟩], none) :=
  ParseSPF_piece_list U [.directive ⟨none, "all", none⟩] (by simp) (by decide) (by decide)

/-- C8, as stated, fails: in the included record
`v=spf1 ip4:0.0.0.0/0 ip4:not-a-cidr` the second directive is the first (and
only) nested directive that fails, with the error of `ParseCIDR`, but the
include does not return that error: the first directive matches the address,
the walk ends there with Pass, and the second directive is never evaluated. -/
theorem ExecuteMechanism_include_semantics_counterexample :
    LookupSPF (tableExtern [("sub.example", "v=spf1 ip4:0.0.0.0/0 ip4:not-a-cidr")] true)
        "sub.example" "ns" = ("v=spf1 ip4:0.0.0.0/0 ip4:not-a-cidr", none) ∧
      ParseSPF (fun c => c) "v=spf1 ip4:0.0.0.0/0 ip4:not-a-cidr"
        = ([⟨PassQualifier, IPv4Mechanism, "0.0.0.0/0"⟩,
            ⟨PassQualifier, IPv4Mechanism, "not-a-cidr"⟩], none) ∧
      ExecuteMechanism (tableExtern [("sub.example", "v=spf1 ip4:0.0.0.0/0 ip4:not-a-cidr")] true)
          (some [192, 0, 2, 1]) "ns" 0 ⟨PassQualifier, IPv4Mechanism, "0.0.0.0/0"⟩ 0
        = some (PassQualifier, none) ∧
      ExecuteMechanism (tableExtern [("sub.example", "v=spf1 ip4:0.0.0.0/0 ip4:not-a-cidr")] true)
          (some [192, 0, 2, 1]) "ns" 0 ⟨PassQualifier, IPv4Mechanism, "not-a-cidr"⟩ 0
        = some (NoneQualifier, some (Error.ParseError "not-a-cidr")) ∧
      ExecuteMechanism (tableExtern [("sub.example", "v=spf1 ip4:0.0.0.0/0 ip4:not-a-cidr")] true)
          (some [192, 0, 2, 1]) "ns" 1 ⟨PassQualifier, IncludeMechanism, "sub.example"⟩ 1
        = some (PassQualifier, none) ∧
      ExecuteMechanism (tableExtern [("sub.example", "v=spf1 ip4:0.0.0.0/0 ip4:not-a-cidr")] true)
          (some [192, 0, 2, 1]) "ns" 1 ⟨PassQualifier, IncludeMechanism, "sub.example"⟩ 1
        ≠ some (NoneQualifier, some (Error.ParseError "not-a-cidr")) := by
  decide

/-- C8, amended. Include/redirect semantics: with a depth other than 0 and a
target record that is fetched and parsed, `ExecuteMechanism` walks the nested
directives in order with `depth - 1`, and the first nested directive that is
not "not matched" decides, whatever the directives after it would give. If
that directive fails, its error is returned; if it has a result `r` other than
`NoneQualifier`, the qualifier of that directive is returned if it is not Pass
and `r` otherwise; when all nested directives are "not matched" the result is
`NoneQualifier` without error, and the walk of `ValidateIP` goes on with the
next outer directive. -/
theorem ExecuteMechanism_include_semantics (X : Extern) (ip : IP) (ns : String) (fuel : Nat)
    (m : Mechanism) (depth : Int) (spf : String) (parsedSpf : Record)
    (hk : m.Mechanism = IncludeMechanism ∨ m.Mechanism = RedirectMechanism)
    (hd : depth ≠ 0) (hl : LookupSPF X m.Value ns = (spf, none))
    (hp : ParseSPF X.unicodeToLower spf = (parsedSpf, none)) :
    (∀ (pre post : List Mechanism) (x : Mechanism) (q : Qualifier) (err : Error),
      parsedSpf = pre ++ x :: post →
      (∀ y ∈ pre, ExecuteMechanism X ip ns fuel y (depth - 1) = some (NoneQualifier, none)) →
      ExecuteMechanism X ip ns fuel x (depth - 1) = some (q, some err) →
      ExecuteMechanism X ip ns (fuel + 1) m depth = some (NoneQualifier, some err)) ∧
    (∀ (pre post : List Mechanism) (x : Mechanism) (r : Qualifier),
      parsedSpf = pre ++ x :: post →
      (∀ y ∈ pre, ExecuteMechanism X ip ns fuel y (depth - 1) = some (NoneQualifier, none)) →
      ExecuteMechanism X ip ns fuel x (depth - 1) = some (r, none) → r ≠ NoneQualifier →
      ExecuteMechanism X ip ns (fuel + 1) m depth
        = some (if x.Qualifier ≠ PassQualifier then x.Qualifier else r, none)) ∧
    ((∀ y ∈ parsedSpf,
        ExecuteMechanism X ip ns fuel y (depth - 1) = some (NoneQualifier, none)) →
      ExecuteMechanism X ip ns (fuel + 1) m depth = some (NoneQualifier, none) ∧
      ∀ rest : List Mechanism,
        validateLoop (fun y => ExecuteMechanism X ip ns (fuel + 1) y depth) (m :: rest)
          = validateLoop (fun y => ExecuteMechanism X ip ns (fuel + 1) y depth) rest) := by
  rw [ExecuteMechanism_include_succ X ip ns fuel m depth spf parsedSpf hk hd hl hp]
  refine ⟨?_, ?_, ?_⟩
  · intro pre post x q err hrec hpre hx
    rw [hrec, includeLoop_skip _ pre _ hpre, includeLoop, hx]
  · intro pre post x r hrec hpre hx hr
    rw [hrec, includeLoop_skip _ pre _ hpre, includeLoop, hx]
    simp only [ne_eq, hr, not_false_eq_true, if_true]
    split_ifs <;> rfl
  · intro hall
    have h := includeLoop_skip (fun y => ExecuteMechanism X ip ns fuel y (depth - 1))
      parsedSpf [] hall
    rw [List.append_nil] at h
    have hnone : includeLoop (fun y => ExecuteMechanism X ip ns fuel y (depth - 1)) parsedSpf
        = some (NoneQualifier, none) := by rw [h]; rfl
    refine ⟨hnone, fun rest => ?_⟩
    rw [validateLoop, ExecuteMechanism_include_succ X ip ns fuel m depth spf parsedSpf hk hd hl hp,
      hnone]
    simp

/-- An include of a record whose only directive is `~all`: the nested
qualifier SoftFail is the result, as an instance of
`ExecuteMechanism_include_semantics`. -/
theorem ExecuteMechanism_include_semantics_witness :
    ExecuteMechanism (tableExtern [("sub.example", "v=spf1 ~all")] false) none "ns" 1
        ⟨PassQualifier, IncludeMechanism, "sub.example"⟩ 1 = some (SoftFailQualifier, none) :=
  (ExecuteMechanism_include_semantics (tableExtern [("sub.example", "v=spf1 ~all")] false) none
    "ns" 0 ⟨PassQualifier, IncludeMechanism, "sub.example"⟩ 1 "v=spf1 ~all"
    [⟨SoftFailQualifier, AllMechanism, ""⟩] (Or.inl rfl) (by decide) (by decide)
    (by decide)).2.1 [] [] ⟨SoftFailQualifier, AllMechanism, ""⟩ SoftFailQualifier rfl
    (by intro y hy; cases hy) (by decide) (by decide)


/-! ## Nested records -/

/-- C1, the behaviour of the code: for the records of the claim, every address
and every depth other than 0, `ValidateIP` returns `PassQualifier`, not
`FailQualifier`: the walk over the included record tests the qualifier of the
nested `+all`, not the `-` of the include directive. -/
theorem ValidateIP_nested_fail_returns_pass (X : Extern) (fuel : Nat) (ip : IP)
    (name ns : String) (depth : Int) (hd : depth ≠ 0)
    (hl : LookupSPF X name ns = ("v=spf1 -include:sub.example -all", none))
    (hsub : LookupSPF X "sub.example" ns = ("v=spf1 +all", none)) :
    ValidateIP X (fuel + 1) ip name ns depth = some (PassQualifier, none) := by
  have hp : ParseSPF X.unicodeToLower "v=spf1 -include:sub.example -all"
      = ([⟨FailQualifier, IncludeMechanism, "sub.example"⟩] ++
          ⟨FailQualifier, AllMechanism, ""⟩ :: [], none) :=
    ParseSPF_piece_list X.unicodeToLower
      [.directive ⟨some '-', "include", some "sub.example"⟩, .directive ⟨some '-', "all", none⟩]
      (by simp) (by decide) (by decide)
  have hpsub : ParseSPF X.unicodeToLower "v=spf1 +all"
      = ([⟨PassQualifier, AllMechanism, ""⟩], none) :=
    ParseSPF_piece_list X.unicodeToLower [.directive ⟨some '+', "all", none⟩]
      (by simp) (by decide) (by decide)
  have hinc : ExecuteMechanism X ip ns (fuel + 1)
      ⟨FailQualifier, IncludeMechanism, "sub.example"⟩ depth = some (PassQualifier, none) := by
    rw [ExecuteMechanism_include_succ X ip ns fuel _ depth "v=spf1 +all" _ (Or.inl rfl) hd
      hsub hpsub, includeLoop, ExecuteMechanism_all X ip ns fuel _ _ rfl]
    rfl
  rw [ValidateIP_walk X (fuel + 1) ip name ns depth _ _ hl hp, List.singleton_append,
    validateLoop, hinc]
  rfl

/-- The records of the claim at depth 1, as an instance of
`ValidateIP_nested_fail_returns_pass`. -/
theorem ValidateIP_nested_fail_returns_pass_witness :
    ValidateIP (tableExtern [("example", "v=spf1 -include:sub.example -all"),
        ("sub.example", "v=spf1 +all")] false) 1 (some [192, 0, 2, 1]) "example" "ns" 1
      = some (PassQualifier, none) :=
  ValidateIP_nested_fail_returns_pass _ 0 (some [192, 0, 2, 1]) "example" "ns" 1 (by decide)
    (by decide) (by decide)

/-- The include directive for the `i`-th domain of a chain, with `j` further
domains after it, whose last domain publishes `all`. -/
theorem ExecuteMechanism_chain (X : Extern) (ip : IP) (ns : String) (dom : Nat → String)
    (n : Nat) (hdom : ∀ i ≤ n, ∀ c ∈ (dom i).data, notSpace c)
    (hinc : ∀ i < n, LookupSPF X (dom i) ns = ("v=spf1 include:" ++ dom (i + 1), none))
    (hall : LookupSPF X (dom n) ns = ("v=spf1 all", none)) :
    ∀ (j i : Nat) (depth : Int) (fuel : Nat), i + j = n → j + 1 ≤ fuel →
      ((depth < 0 ∨ (j : Int) < depth) →
        ExecuteMechanism X ip ns fuel ⟨PassQualifier, IncludeMechanism, dom i⟩ depth
          = some (PassQualifier, none)) ∧
      ((0 ≤ depth ∧ depth ≤ (j : Int)) →
        ExecuteMechanism X ip ns fuel ⟨PassQualifier, IncludeMechanism, dom i⟩ depth
          = some (NoneQualifier, some Error.ErrOutOfRecursions))
  | 0, i, depth, fuel, hij, hf => by
    have hi : i = n := by omega
    subst hi
    obtain ⟨f, rfl⟩ : ∃ f, fuel = f + 1 := ⟨fuel - 1, by omega⟩
    constructor
    · intro hdep
      have hd : depth ≠ 0 := by omega
      rw [ExecuteMechanism_include_succ X ip ns f _ depth "v=spf1 all" _ (Or.inl rfl) hd hall
        (ParseSPF_all _), includeLoop, ExecuteMechanism_all X ip ns f _ _ rfl]
      rfl
    · intro hdep
      have hd : depth = 0 := by omega
      rw [hd]
      exact ExecuteMechanism_include_zero X ip ns _ _ (Or.inl rfl)
  | j + 1, i, depth, fuel, hij, hf => by
    have hi : i < n := by omega
    obtain ⟨f, rfl⟩ : ∃ f, fuel = f + 1 := ⟨fuel - 1, by omega⟩
    have ih := ExecuteMechanism_chain X ip ns dom n hdom hinc hall j (i + 1) (depth - 1) f
      (by omega) (by omega)
    have hp := ParseSPF_include X.unicodeToLower (dom (i + 1)) (hdom (i + 1) (by omega))
    constructor
    · intro hdep
      have hd : depth ≠ 0 := by omega
      rw [ExecuteMechanism_include_succ X ip ns f _ depth _ _ (Or.inl rfl) hd (hinc i hi) hp,
        includeLoop, ih.1 (by omega)]
      rfl
    · intro hdep
      by_cases hd : depth = 0
      · rw [hd]
        exact ExecuteMechanism_include_zero X ip ns _ _ (Or.inl rfl)
      · rw [ExecuteMechanism_include_succ X ip ns f _ depth _ _ (Or.inl rfl) hd (hinc i hi) hp,
          includeLoop, ih.2 (by omega)]

/-- C5. Depth budget: on a chain of `n ≥ 1` includes (`domain_i` publishes
`v=spf1 include:domain_(i+1)` for `i < n`, `domain_n` publishes `v=spf1 all`),
`ValidateIP` on `domain_0` with depth `d` returns `PassQualifier` when `d < 0`
or `n ≤ d`, and fails with `ErrOutOfRecursions` when `0 ≤ d < n`; fuel `n` is
enough for the result. -/
theorem ValidateIP_depth_budget (X : Extern) (ip : IP) (ns : String) (dom : Nat → String)
    (n : Nat) (d : Int) (fuel : Nat) (hn : 1 ≤ n) (hfuel : n ≤ fuel)
    (hdom : ∀ i ≤ n, ∀ c ∈ (dom i).data, notSpace c)
    (hinc : ∀ i < n, LookupSPF X (dom i) ns = ("v=spf1 include:" ++ dom (i + 1), none))
    (hall : LookupSPF X (dom n) ns = ("v=spf1 all", none)) :
    ((d < 0 ∨ (n : Int) ≤ d) →
      ValidateIP X fuel ip (dom 0) ns d = some (PassQualifier, none)) ∧
    ((0 ≤ d ∧ d < (n : Int)) →
      ValidateIP X fuel ip (dom 0) ns d
        = some (NoneQualifier, some Error.ErrOutOfRecursions)) := by
  have hp := ParseSPF_include X.unicodeToLower (dom (0 + 1)) (hdom (0 + 1) (by omega))
  have hc := ExecuteMechanism_chain X ip ns dom n hdom hinc hall (n - 1) (0 + 1) d fuel
    (by omega) (by omega)
  rw [ValidateIP_walk X fuel ip (dom 0) ns d _ _ (hinc 0 (by omega)) hp, validateLoop]
  constructor
  · intro hdep
    rw [hc.1 (by omega)]
    rfl
  · intro hdep
    rw [hc.2 (by omega)]

/-- A chain of two includes walked with depth `-1`, as an instance of
`ValidateIP_depth_budget`. -/
theorem ValidateIP_depth_budget_witness :
    ValidateIP (tableExtern [("d0", "v=spf1 include:d1"), ("d1", "v=spf1 include:d2"),
        ("d2", "v=spf1 all")] false) 2 none "d0" "ns" (-1) = some (PassQualifier, none) :=
  (ValidateIP_depth_budget (tableExtern [("d0", "v=spf1 include:d1"),
      ("d1", "v=spf1 include:d2"), ("d2", "v=spf1 all")] false) none "ns" chainNames 2 (-1) 2
    (by decide) (by decide) (by decide) (by decide) (by decide)).1 (by decide)


/-! ## Qualifiers of parsed records -/

theorem EvaluateQualifier_asserted (c : Char) (q : Qualifier)
    (h : EvaluateQualifier c = (q, none)) : assertedQualifier q := by
  unfold EvaluateQualifier at h
  split_ifs at h <;> simp only [Prod.mk.injEq, and_true, reduceCtorEq, and_false] at h
  · exact Or.inl h.symm
  · exact Or.inr (Or.inl h.symm)
  · exact Or.inr (Or.inr (Or.inl h.symm))
  · exact Or.inr (Or.inr (Or.inr h.symm))

theorem EvaluateMechanism_qualifier (U : Char → Char) (ctx : MechanismParseContext)
    (m : Mechanism) (h : EvaluateMechanism U ctx = (m, none)) :
    m.Qualifier = ctx.Qualifier := by
  unfold EvaluateMechanism at h
  simp only at h
  split_ifs at h <;> simp only [Prod.mk.injEq, and_true, reduceCtorEq, and_false] at h <;>
    rw [← h]

theorem EvaluateModifier_qualifier (ctx : MechanismParseContext) (m : Mechanism)
    (h : EvaluateModifier ctx = (m, none)) : m.Qualifier = PassQualifier := by
  unfold EvaluateModifier at h
  simp only at h
  split_ifs at h <;> simp only [Prod.mk.injEq, and_true, reduceCtorEq, and_false] at h
  rw [← h]

theorem emit_asserted (U : Char → Char) (st st1 : ParseState) (hst : st.qualifiersAsserted)
    (h : st.emit U = .ok st1) : st1.qualifiersAsserted := by
  obtain ⟨hq, hr, hm⟩ := hst
  unfold ParseState.emit at h
  split_ifs at h
  · split at h
    · cases h
    · rename_i mech hev
      cases h
      refine ⟨hq, hr, ?_⟩
      intro x hx
      rcases List.mem_append.1 hx with hx | hx
      · exact hm x hx
      · rw [List.mem_singleton.1 hx, EvaluateModifier_qualifier _ _ hev]
        exact Or.inl rfl
  · split at h
    · cases h
    · rename_i mech hev
      cases h
      refine ⟨hq, ?_, hm⟩
      intro x hx
      rcases List.mem_append.1 hx with hx | hx
      · exact hr x hx
      · rw [List.mem_singleton.1 hx, EvaluateMechanism_qualifier U _ _ hev]
        exact hq

theorem write_asserted (st : ParseState) (c : Char) (hst : st.qualifiersAsserted) :
    (st.write c).qualifiersAsserted := by
  unfold ParseState.write
  split <;> exact hst

theorem parseStep_asserted (U : Char → Char) (st st1 : ParseState) (c : Char)
    (hst : st.qualifiersAsserted) (h : parseStep U st c = .ok st1) :
    st1.qualifiersAsserted := by
  unfold parseStep at h
  split_ifs at h
  · split at h
    · cases h
    · rename_i q hq
      cases h
      exact ⟨EvaluateQualifier_asserted c q hq, hst.2⟩
  · cases h; exact write_asserted st c hst
  · cases h; exact hst
  · cases h; exact write_asserted st c hst
  · cases h; exact hst
  · cases h; exact write_asserted st c hst
  · cases h; exact hst
  · split at h
    · cases h
    · rename_i st2 hemit
      cases h
      have h2 := emit_asserted U st st2 hst hemit
      exact ⟨Or.inl rfl, h2.2⟩
  · cases h; exact write_asserted st c hst

theorem parseLoop_asserted (U : Char → Char) :
    ∀ (cs : List Char) (st st1 : ParseState), st.qualifiersAsserted →
      parseLoop U cs st = .ok st1 → st1.qualifiersAsserted
  | [], st, st1, hst, h => by
    cases h
    exact hst
  | c :: cs, st, st1, hst, h => by
    rw [parseLoop_cons] at h
    split at h
    · cases h
    · rename_i st2 hstep
      exact parseLoop_asserted U cs st2 st1 (parseStep_asserted U st st2 c hst hstep) h

/-- Every directive of a record returned by `ParseSPF` has an asserted
qualifier. -/
theorem ParseSPF_asserted (U : Char → Char) (spf : String) (record : Record)
    (h : ParseSPF U spf = (record, none)) : ∀ m ∈ record, assertedQualifier m.Qualifier := by
  have hfin : ∀ st : ParseState, st.qualifiersAsserted → parseFinish U st = (record, none) →
      ∀ m ∈ record, assertedQualifier m.Qualifier := by
    intro st hst hf m hm
    have hmem : ∀ st2 : ParseState, st2.qualifiersAsserted →
        st2.spfRecord ++ st2.spfModifiers = record → assertedQualifier m.Qualifier := by
      intro st2 h2 e
      rw [← e] at hm
      rcases List.mem_append.1 hm with hx | hx
      · exact h2.2.1 m hx
      · exact h2.2.2 m hx
    unfold parseFinish at hf
    split_ifs at hf
    · split at hf
      · simp at hf
      · rename_i st2 hemit
        exact hmem st2 (emit_asserted U st st2 hst hemit) (Prod.mk.inj hf).1
    · exact hmem st hst (Prod.mk.inj hf).1
  unfold ParseSPF at h
  split_ifs at h
  · split at h
    · simp at h
    · rename_i st hloop
      refine hfin st (parseLoop_asserted U _ _ st ?_ hloop) h
      exact ⟨Or.inl rfl, by simp [ParseState.fresh], by simp [ParseState.fresh]⟩
  · simp at h

theorem assertedQualifier_ne_none (q : Qualifier) (h : assertedQualifier q) :
    q ≠ NoneQualifier := by
  rcases h with h | h | h | h <;> rw [h] <;> decide

/-- A walk over a record with a directive that decides whenever it is reached
does not end with "nothing matched". -/
theorem validateLoop_decides (exec : Mechanism → Option (Qualifier × Option Error)) :
    ∀ record : List Mechanism,
      (∃ m ∈ record, ∃ q, exec m = some (q, none) ∧ q ≠ NoneQualifier) →
      validateLoop exec record ≠ some (NoneQualifier, none)
  | [], h => by
    obtain ⟨m, hm, -⟩ := h
    cases hm
  | x :: rest, h => by
    obtain ⟨m, hm, q, hq, hne⟩ := h
    rw [validateLoop]
    split
    · simp
    · simp
    · rename_i q1 hx
      split_ifs with h1
      · simpa using h1
      · apply validateLoop_decides exec rest
        rcases List.mem_cons.1 hm with rfl | hm1
        · rw [hx] at hq
          simp only [Option.some.injEq, Prod.mk.injEq, and_true] at hq
          exact absurd (hq ▸ (not_not.1 h1)) hne
        · exact ⟨m, hm1, q, hq, hne⟩

/-- C9. `all` always decides: every directive of a record returned by
`ParseSPF` has a qualifier among Pass, Fail, SoftFail and Neutral;
`ExecuteMechanism` on such a directive of kind All returns its qualifier
without error for every address, resolver and depth; and `ValidateIP` never
returns `NoneQualifier` without error for a domain whose parsed record contains
an All directive. -/
theorem all_always_decides (X : Extern) (spf : String) (record : Record)
    (hp : ParseSPF X.unicodeToLower spf = (record, none)) :
    (∀ m ∈ record, assertedQualifier m.Qualifier ∧ m.Qualifier ≠ NoneQualifier) ∧
    (∀ m ∈ record, m.Mechanism = AllMechanism →
      ∀ (X1 : Extern) (ip : IP) (ns : String) (fuel : Nat) (depth : Int),
        ExecuteMechanism X1 ip ns fuel m depth = some (m.Qualifier, none)) ∧
    ((∃ m ∈ record, m.Mechanism = AllMechanism) →
      ∀ (name ns : String) (ip : IP) (fuel : Nat) (depth : Int),
        LookupSPF X name ns = (spf, none) →
        ValidateIP X fuel ip name ns depth ≠ some (NoneQualifier, none)) := by
  have hq := ParseSPF_asserted X.unicodeToLower spf record hp
  refine ⟨fun m hm => ⟨hq m hm, assertedQualifier_ne_none _ (hq m hm)⟩, ?_, ?_⟩
  · intro m _ hk X1 ip ns fuel depth
    exact ExecuteMechanism_all X1 ip ns fuel m depth hk
  · intro hall name ns ip fuel depth hl
    obtain ⟨m, hm, hk⟩ := hall
    rw [ValidateIP_walk X fuel ip name ns depth spf record hl hp]
    exact validateLoop_decides _ record
      ⟨m, hm, m.Qualifier, ExecuteMechanism_all X ip ns fuel m depth hk,
        assertedQualifier_ne_none _ (hq m hm)⟩

/-- A record that ends with `-all` after an `ip4` directive that does not
match, as an instance of `all_always_decides`. -/
theorem all_always_decides_witness :
    ValidateIP (tableExtern [("example", "v=spf1 ip4:192.0.2.0/24 -all")] false) 0 none
        "example" "ns" 0 ≠ some (NoneQualifier, none) :=
  (all_always_decides (tableExtern [("example", "v=spf1 ip4:192.0.2.0/24 -all")] false)
    "v=spf1 ip4:192.0.2.0/24 -all"
    [⟨PassQualifier, IPv4Mechanism, "192.0.2.0/24"⟩, ⟨FailQualifier, AllMechanism, ""⟩]
    (by decide)).2.2 (by decide) "example" "ns" none 0 0 (by decide)


/-! ## Bare names before the end of the record -/

theorem EvaluateMechanism_invalid (U : Char → Char) (ctx : MechanismParseContext)
    (hfix : ∀ c ∈ ctx.Mechanism.data, c.toNat < 128 ∧ ¬ (65 ≤ c.toNat ∧ c.toNat ≤ 90))
    (hnot : ctx.Mechanism ∉ mechanismNames) :
    EvaluateMechanism U ctx = (⟨0, 0, ""⟩, some Error.ErrInvalidMechanism) := by
  simp only [mechanismNames, List.mem_cons, List.mem_singleton, List.not_mem_nil, or_false,
    not_or] at hnot
  obtain ⟨h1, h2, h3, h4, h5, h6, h7, h8⟩ := hnot
  simp only [EvaluateMechanism]
  rw [ToLower_fixed U _ hfix]
  simp [h1, h2, h3, h4, h5, h6, h7, h8]

set_option maxRecDepth 100000 in
/-- Two mechanism names with at most a qualifier symbol between them never
form a mechanism name. -/
theorem joined_names_table :
    ∀ n1 ∈ mechanismNames, ∀ s ∈ [none, some '+', some '-', some '~', some '?'],
      ∀ n2 ∈ mechanismNames,
        (∀ c ∈ n1.data ++ symbolRunes s ++ n2.data,
          c.toNat < 128 ∧ ¬ (65 ≤ c.toNat ∧ c.toNat ≤ 90)) ∧
        String.mk (n1.data ++ symbolRunes s ++ n2.data) ∉ mechanismNames := by
  decide

theorem symbolOk_cases (s : Option Char) (h : symbolOk s) :
    s ∈ [none, some '+', some '-', some '~', some '?'] := by
  cases s with
  | none => simp
  | some c =>
    simp only [symbolOk, qualifierSymbols, List.mem_cons, List.mem_singleton,
      List.not_mem_nil, or_false] at h
    rcases h with rfl | rfl | rfl | rfl <;> simp

theorem parseStep_symbol_name (U : Char → Char) (r m : List Mechanism) (q : Qualifier)
    (name : String) (c : Char) (hn : name ≠ "") (hc : c ∈ qualifierSymbols) :
    parseStep U ⟨r, m, ⟨q, name, "", true, false⟩, .Mechanism⟩ c
      = .ok ⟨r, m, ⟨q, name.push c, "", true, false⟩, .Mechanism⟩ := by
  simp only [qualifierSymbols, List.mem_cons, List.mem_singleton, List.not_mem_nil,
    or_false] at hc
  rcases hc with rfl | rfl | rfl | rfl <;> simp [parseStep, hn, ParseState.write]

/-- Reading a second token right after a bare name: its qualifier symbol and
its name are appended to the name that is being written. -/
theorem scan_after_bare (U : Char → Char) (q : Qualifier) (name1 : String) (t2 : Token)
    (h1 : name1 ∈ mechanismNames) (h2 : t2.wellFormed) :
    ∃ st, parseLoop U t2.text.data ⟨[], [], ⟨q, name1, "", true, false⟩, .Mechanism⟩ = .ok st ∧
      st.parseContext.Mechanism = ⟨name1.data ++ symbolRunes t2.symbol ++ t2.name.data⟩ ∧
      st.parseContext.Modifier = false := by
  obtain ⟨hs, hn, hv⟩ := h2
  obtain ⟨hne1, -, -⟩ := mechanismNames_facts U name1 h1
  obtain ⟨-, hplain2, -⟩ := mechanismNames_facts U t2.name hn
  have hname : ∀ (nm : String) (rest : List Char), nm ≠ "" →
      ∃ st, parseLoop U (t2.name.data ++ (valueRunes t2.value ++ rest))
          ⟨[], [], ⟨q, nm, "", true, false⟩, .Mechanism⟩ = parseLoop U rest st ∧
        st.parseContext.Mechanism = ⟨nm.data ++ t2.name.data⟩ ∧
        st.parseContext.Modifier = false := by
    intro nm rest hnm
    rw [parseLoop_name U [] [] q _ t2.name.data nm hplain2]
    have hne : String.mk (nm.data ++ t2.name.data) ≠ "" :=
      string_mk_ne_empty (by simp [string_ne_empty_data hnm])
    cases hval : t2.value with
    | none => exact ⟨_, rfl, rfl, rfl⟩
    | some v =>
      rw [hval] at hv
      simp only [valueRunes, List.cons_append]
      rw [parseLoop_cons, parseStep_colon U [] [] q _ hne]
      simp only []
      rw [parseLoop_value U [] [] q _ false rest hne v.data "" hv.2]
      exact ⟨_, rfl, rfl, rfl⟩
  rw [Token.text_data]
  cases hsym : t2.symbol with
  | none =>
    obtain ⟨st, hst, hm, hmd⟩ := hname name1 [] hne1
    rw [List.append_nil] at hst
    refine ⟨st, ?_, ?_, hmd⟩
    · simpa [symbolRunes] using hst
    · simpa [symbolRunes] using hm
  | some c =>
    rw [hsym] at hs
    have hpush : name1.push c ≠ "" := by
      intro e
      have := congrArg String.data e
      simp [String.data_push] at this
    obtain ⟨st, hst, hm, hmd⟩ := hname (name1.push c) [] hpush
    rw [List.append_nil] at hst
    refine ⟨st, ?_, ?_, hmd⟩
    · simp only [symbolRunes, List.singleton_append]
      rw [parseLoop_cons, parseStep_symbol_name U [] [] q name1 c hne1 hs]
      simpa using hst
    · simpa [symbolRunes, String.data_push] using hm

/-- C10, as stated, fails: `v=spf1 a mx` is rejected with
`ErrInvalidMechanism`; it does not parse to the two directives `a` and `mx`. -/
theorem ParseSPF_bare_name_counterexample :
    ParseSPF (fun c => c) "v=spf1 a mx" = ([], some Error.ErrInvalidMechanism) ∧
      ParseSPF (fun c => c) "v=spf1 a mx"
        ≠ ([⟨PassQualifier, AMechanism, ""⟩, ⟨PassQualifier, MXMechanism, ""⟩], none) := by
  decide

/-- C10, amended. A value-less directive is valid as the last token of the
record: a bare mechanism name alone parses to its directive with an empty
value. Before another well-formed token it is not: the whitespace after a bare
name is ignored, the name runs together with the next token, and `ParseSPF`
fails with `ErrInvalidMechanism`. -/
theorem ParseSPF_bare_name (U : Char → Char) (t1 t2 : Token) (h1 : t1.wellFormed)
    (hb : t1.value = none) (h2 : t2.wellFormed) :
    ParseSPF U ("v=spf1 " ++ t1.text) = ([t1.directive], none) ∧
      ParseSPF U ("v=spf1 " ++ (t1.text ++ " " ++ t2.text))
        = ([], some Error.ErrInvalidMechanism) := by
  constructor
  · exact ParseSPF_piece_list U [.directive t1] (by simp) (by simp [List.dropLast]) h1
  · have hd : ("v=spf1 " ++ (t1.text ++ " " ++ t2.text)).data
        = "v=spf1".data ++ (' ' :: (t1.text.data ++ (' ' :: t2.text.data))) := by
      rw [marker_space_data]
      simp [String.data_append]
    have hfresh : parseStep U (ParseState.fresh [] []) ' ' = .ok (ParseState.fresh [] []) :=
      parseStep_space_fresh U [] [] PassQualifier ' ' (by decide)
    have hmid : Piece.mid [] [] (.directive t1)
        = ⟨[], [], ⟨t1.qualifier, t1.name, "", true, false⟩, .Mechanism⟩ := by
      simp [Piece.mid, hb]
    have hspace : parseStep U ⟨[], [], ⟨t1.qualifier, t1.name, "", true, false⟩, .Mechanism⟩ ' '
        = .ok ⟨[], [], ⟨t1.qualifier, t1.name, "", true, false⟩, .Mechanism⟩ := by
      simp [parseStep]
    obtain ⟨st, hst, hm, hmd⟩ := scan_after_bare U t1.qualifier t1.name t2 h1.2.1 h2
    have htab := joined_names_table t1.name h1.2.1 t2.symbol (symbolOk_cases _ h2.1)
      t2.name h2.2.1
    rw [ParseSPF_content U _ _ hd, parseLoop_cons, hfresh]
    simp only []
    rw [scan_token U [] [] t1 _ h1, hmid, parseLoop_cons, hspace]
    simp only []
    rw [hst]
    simp only []
    have hne : st.parseContext.Mechanism ≠ "" := by
      rw [hm]
      exact string_mk_ne_empty
        (by simp [string_ne_empty_data (mechanismNames_facts U t1.name h1.2.1).1])
    have hev := EvaluateMechanism_invalid U st.parseContext (by rw [hm]; exact htab.1)
      (by rw [hm]; exact htab.2)
    simp [parseFinish, hne, ParseState.emit, hmd, hev]

/-- The tokens `a` and `mx`, as an instance of `ParseSPF_bare_name`. -/
theorem ParseSPF_bare_name_witness :
    ParseSPF (fun c => c) "v=spf1 a" = ([⟨PassQualifier, AMechanism, ""⟩], none) ∧
      ParseSPF (fun c => c) "v=spf1 a mx" = ([], some Error.ErrInvalidMechanism) :=
  ParseSPF_bare_name (fun c => c) ⟨none, "a", none⟩ ⟨none, "mx", none⟩ (by decide) rfl
    (by decide)

/-! ## Values, policy selection and verdicts -/

/-- C12. Value text is preserved verbatim: for each of the eight mechanism
names `k` and every non-empty value `v` without space, CR or LF, whatever
other runes it contains or starts with (qualifier symbols, `:` and `=`
included), `"v=spf1 " ++ k ++ ":" ++ v` parses to the single directive
`(Pass, kind of k, v)`. -/
theorem ParseSPF_value_verbatim (U : Char → Char) (k v : String) (hk : k ∈ mechanismNames)
    (hv : valueOk v) :
    ParseSPF U ("v=spf1 " ++ k ++ ":" ++ v) = ([⟨PassQualifier, kindOfName k, v⟩], none) := by
  have e : "v=spf1 " ++ k ++ ":" ++ v = "v=spf1 " ++ (k ++ ":" ++ v) := by
    simp [String.append_assoc]
  rw [e]
  exact ParseSPF_name_value U k v hk hv.2

/-- A domain name with a hyphen, and a value that starts with a hyphen and
contains `:` and `=`, as instances of `ParseSPF_value_verbatim`. -/
theorem ParseSPF_value_verbatim_witness :
    ParseSPF (fun c => c) "v=spf1 include:spf-test.voulter.com"
        = ([⟨PassQualifier, IncludeMechanism, "spf-test.voulter.com"⟩], none) ∧
      ParseSPF (fun c => c) "v=spf1 exists:-a:b=c?d"
        = ([⟨PassQualifier, ExistsMechanism, "-a:b=c?d"⟩], none) :=
  ⟨ParseSPF_value_verbatim (fun c => c) "include" "spf-test.voulter.com" (by decide) (by decide),
    ParseSPF_value_verbatim (fun c => c) "exists" "-a:b=c?d" (by decide) (by decide)⟩

theorem firstSPF_find (answer : List RR) :
    firstSPF answer
      = match (txtStrings answer).find? IsSPF with
        | some record => (record, none)
        | none => ("", some Error.ErrNotFound) := by
  induction answer with
  | nil => rfl
  | cons rr rest ih =>
    cases rr with
    | TXT Txt =>
      simp only [firstSPF, txtStrings, List.find?_append]
      cases h : Txt.find? IsSPF with
      | some record => simp
      | none => simpa using ih
    | A a => simpa [firstSPF, txtStrings] using ih
    | MX mx => simpa [firstSPF, txtStrings] using ih
    | PTR p => simpa [firstSPF, txtStrings] using ih
    | other => simpa [firstSPF, txtStrings] using ih

/-- The scan of `ParseSPF` fails only with `ErrSyntax`, `ErrInvalidMechanism`
or `ErrInvalidModifier`. -/
theorem emit_error (U : Char → Char) (st : ParseState) (err : Error)
    (h : st.emit U = .error err) :
    err = Error.ErrInvalidMechanism ∨ err = Error.ErrInvalidModifier := by
  unfold ParseState.emit at h
  split_ifs at h
  · right
    unfold EvaluateModifier at h
    simp only at h
    split_ifs at h
    simp at h
    exact h.symm
  · left
    unfold EvaluateMechanism at h
    simp only at h
    split_ifs at h
    simp at h
    exact h.symm

theorem parseStep_error (U : Char → Char) (st : ParseState) (c : Char) (err : Error)
    (h : parseStep U st c = .error err) :
    err = Error.ErrSyntax ∨ err = Error.ErrInvalidMechanism ∨
      err = Error.ErrInvalidModifier := by
  unfold parseStep at h
  split_ifs at h with h1
  all_goals try (cases h; first | done | exact Or.inl rfl)
  · unfold EvaluateQualifier at h
    rcases h1 with rfl | rfl | rfl | rfl <;> simp at h
  · split at h
    · rename_i e he
      cases h
      exact Or.inr (emit_error U st _ he)
    · cases h

theorem parseLoop_error (U : Char → Char) :
    ∀ (cs : List Char) (st : ParseState) (err : Error), parseLoop U cs st = .error err →
      err = Error.ErrSyntax ∨ err = Error.ErrInvalidMechanism ∨
        err = Error.ErrInvalidModifier
  | [], st, err, h => by cases h
  | c :: cs, st, err, h => by
    rw [parseLoop_cons] at h
    split at h
    · rename_i e he
      cases h
      exact parseStep_error U st c _ he
    · exact parseLoop_error U cs _ err h

theorem parseFinish_error (U : Char → Char) (st : ParseState) (record : Record) (err : Error)
    (h : parseFinish U st = (record, some err)) :
    err = Error.ErrInvalidMechanism ∨ err = Error.ErrInvalidModifier := by
  unfold parseFinish at h
  split_ifs at h
  · split at h
    · rename_i e he
      simp only [Prod.mk.injEq, Option.some.injEq] at h
      rw [← h.2]
      exact emit_error U st _ he
    · simp at h
  · simp at h

/-- On a text that starts with the version marker, `ParseSPF` fails only with
`ErrSyntax`, `ErrInvalidMechanism` or `ErrInvalidModifier`. -/
theorem ParseSPF_error_of_marker (U : Char → Char) (spf : String) (record : Record)
    (err : Error) (hspf : IsSPF spf = true) (h : ParseSPF U spf = (record, some err)) :
    err = Error.ErrSyntax ∨ err = Error.ErrInvalidMechanism ∨
      err = Error.ErrInvalidModifier := by
  unfold ParseSPF at h
  simp only [hspf, not_true_eq_false, if_false] at h
  split at h
  · rename_i e he
    simp only [Prod.mk.injEq, Option.some.injEq] at h
    rw [← h.2]
    exact parseLoop_error U _ _ _ he
  · exact Or.inr (parseFinish_error U _ record err h)

theorem firstSPF_isSPF (answer : List RR) (record : String)
    (h : firstSPF answer = (record, none)) : IsSPF record = true := by
  rw [firstSPF_find] at h
  split at h
  · rename_i r hr
    simp only [Prod.mk.injEq, and_true] at h
    rw [← h]
    exact List.find?_some hr
  · simp at h

/-- C18. Policy selection: `LookupSPF` returns the first string of the TXT
records of the answer, in answer order, that begins with `v=spf1`, and fails
with `ErrNotFound` when there is none; every record it returns satisfies
`IsSPF`, and `ParseSPF` never fails on it with the `nospf` error. -/
theorem LookupSPF_selection (X : Extern) (domain nameserver : String) :
    (∀ answer : List RR,
      X.Exchange (X.Fqdn domain) RRType.TypeTXT nameserver = .ok answer →
      LookupSPF X domain nameserver
        = match (txtStrings answer).find? IsSPF with
          | some record => (record, none)
          | none => ("", some Error.ErrNotFound)) ∧
    (∀ record : String, LookupSPF X domain nameserver = (record, none) →
      IsSPF record = true ∧ ∀ U : Char → Char, (ParseSPF U record).2 ≠ some Error.nospf) := by
  constructor
  · intro answer hx
    rw [LookupSPF, hx]
    exact firstSPF_find answer
  · intro record h
    have hspf : IsSPF record = true := by
      unfold LookupSPF at h
      split at h
      · simp at h
      · exact firstSPF_isSPF _ record h
    refine ⟨hspf, fun U hn => ?_⟩
    have := ParseSPF_error_of_marker U record (ParseSPF U record).1 Error.nospf hspf
      (Prod.ext rfl hn)
    simp at this

/-- A domain whose only TXT string is its policy, as an instance of
`LookupSPF_selection`. -/
theorem LookupSPF_selection_witness :
    LookupSPF (tableExtern [("example", "v=spf1 -all")] false) "example" "ns"
        = ("v=spf1 -all", none) ∧
      IsSPF "v=spf1 -all" = true ∧
      ∀ U : Char → Char, (ParseSPF U "v=spf1 -all").2 ≠ some Error.nospf :=
  ⟨(LookupSPF_selection (tableExtern [("example", "v=spf1 -all")] false) "example" "ns").1
      [RR.TXT ["v=spf1 -all"]] rfl,
    (LookupSPF_selection (tableExtern [("example", "v=spf1 -all")] false) "example" "ns").2
      "v=spf1 -all" (by decide)⟩

/-- C19, the behaviour of the code: when the fetch of the policy fails,
`ValidateIP` returns the error together with the qualifier value `0`, which is
`PassQualifier`, not `NoneQualifier`. -/
theorem ValidateIP_lookup_error (X : Extern) (fuel : Nat) (ip : IP) (name ns : String)
    (depth : Int) (spf : String) (err : Error) (hl : LookupSPF X name ns = (spf, some err)) :
    ValidateIP X fuel ip name ns depth = some (PassQualifier, some err) ∧
      ValidateIP X fuel ip name ns depth ≠ some (NoneQualifier, some err) := by
  have h : ValidateIP X fuel ip name ns depth = some (PassQualifier, some err) := by
    simp [ValidateIP, hl]
  rw [h]
  exact ⟨rfl, by simp⟩

/-- A domain without an SPF record, as an instance of
`ValidateIP_lookup_error`. -/
theorem ValidateIP_lookup_error_witness :
    ValidateIP (tableExtern [] false) 0 none "example" "ns" 5
      = some (PassQualifier, some Error.ErrNotFound) :=
  (ValidateIP_lookup_error (tableExtern [] false) 0 none "example" "ns" 5 "" Error.ErrNotFound
    (by decide)).1

/-! ## The qualifier in front of an include -/

theorem ExecuteMechanism_include_qualifier (X : Extern) (ip : IP) (ns : String) (fuel : Nat)
    (m1 m2 : Mechanism) (depth : Int) (h : sameUpToIncludeQualifier m1 m2) :
    ExecuteMechanism X ip ns fuel m1 depth = ExecuteMechanism X ip ns fuel m2 depth := by
  rcases h with rfl | ⟨hk, hkind, hval⟩
  · rfl
  · have hk2 : m2.Mechanism = IncludeMechanism ∨ m2.Mechanism = RedirectMechanism := by
      rw [← hkind]; exact hk
    unfold ExecuteMechanism
    rcases hk with hk | hk <;>
      · have hk2' : m2.Mechanism = m1.Mechanism := hkind.symm
        simp [hk, hk2', hval, AllMechanism, IPv4Mechanism, IPv6Mechanism, AMechanism,
          MXMechanism, PTRMechanism, ExistsMechanism, IncludeMechanism, RedirectMechanism]

theorem validateLoop_congr (exec : Mechanism → Option (Qualifier × Option Error))
    (record1 record2 : List Mechanism)
    (h : List.Forall₂ (fun m1 m2 => exec m1 = exec m2) record1 record2) :
    validateLoop exec record1 = validateLoop exec record2 := by
  induction h with
  | nil => rfl
  | cons hm _ ih => rw [validateLoop, validateLoop, hm, ih]

/-- C20. The qualifier of an include or redirect directive has no influence
on its evaluation: two include directives (or two redirect directives) with
the same value give the same result of `ExecuteMechanism`, whatever their
qualifiers; hence the verdict of `ValidateIP` is the same for two domains whose
records differ only in the qualifiers in front of includes. -/
theorem include_qualifier_ignored (X : Extern) (ip : IP) (ns : String) (fuel : Nat)
    (depth : Int) :
    (∀ (q1 q2 : Qualifier) (v : String),
      ExecuteMechanism X ip ns fuel ⟨q1, IncludeMechanism, v⟩ depth
        = ExecuteMechanism X ip ns fuel ⟨q2, IncludeMechanism, v⟩ depth ∧
      ExecuteMechanism X ip ns fuel ⟨q1, RedirectMechanism, v⟩ depth
        = ExecuteMechanism X ip ns fuel ⟨q2, RedirectMechanism, v⟩ depth) ∧
    (∀ (name1 name2 spf1 spf2 : String) (record1 record2 : Record),
      LookupSPF X name1 ns = (spf1, none) → LookupSPF X name2 ns = (spf2, none) →
      ParseSPF X.unicodeToLower spf1 = (record1, none) →
      ParseSPF X.unicodeToLower spf2 = (record2, none) →
      List.Forall₂ sameUpToIncludeQualifier record1 record2 →
      ValidateIP X fuel ip name1 ns depth = ValidateIP X fuel ip name2 ns depth) := by
  constructor
  · intro q1 q2 v
    exact ⟨ExecuteMechanism_include_qualifier X ip ns fuel _ _ depth
        (Or.inr ⟨Or.inl rfl, rfl, rfl⟩),
      ExecuteMechanism_include_qualifier X ip ns fuel _ _ depth
        (Or.inr ⟨Or.inr rfl, rfl, rfl⟩)⟩
  · intro name1 name2 spf1 spf2 record1 record2 hl1 hl2 hp1 hp2 hrel
    rw [ValidateIP_walk X fuel ip name1 ns depth spf1 record1 hl1 hp1,
      ValidateIP_walk X fuel ip name2 ns depth spf2 record2 hl2 hp2]
    apply validateLoop_congr
    exact hrel.imp (fun m1 m2 h => ExecuteMechanism_include_qualifier X ip ns fuel m1 m2 depth h)

/-- Two domains whose records are `-include:sub.example -all` and
`+include:sub.example -all`: the verdicts agree, as an instance of
`include_qualifier_ignored`. -/
theorem include_qualifier_ignored_witness :
    ValidateIP (tableExtern [("minus.example", "v=spf1 -include:sub.example -all"),
        ("plus.example", "v=spf1 +include:sub.example -all"),
        ("sub.example", "v=spf1 +all")] false) 1 none "minus.example" "ns" 1
      = ValidateIP (tableExtern [("minus.example", "v=spf1 -include:sub.example -all"),
        ("plus.example", "v=spf1 +include:sub.example -all"),
        ("sub.example", "v=spf1 +all")] false) 1 none "plus.example" "ns" 1 :=
  (include_qualifier_ignored (tableExtern [("minus.example", "v=spf1 -include:sub.example -all"),
      ("plus.example", "v=spf1 +include:sub.example -all"),
      ("sub.example", "v=spf1 +all")] false) none "ns" 1 1).2 "minus.example" "plus.example"
    "v=spf1 -include:sub.example -all" "v=spf1 +include:sub.example -all"
    [⟨FailQualifier, IncludeMechanism, "sub.example"⟩, ⟨FailQualifier, AllMechanism, ""⟩]
    [⟨PassQualifier, IncludeMechanism, "sub.example"⟩, ⟨FailQualifier, AllMechanism, ""⟩]
    (by decide) (by decide) (by decide) (by decide)
    (List.Forall₂.cons (Or.inr ⟨Or.inl rfl, rfl, rfl⟩)
      (List.Forall₂.cons (Or.inl rfl) List.Forall₂.nil))

/-! ## Gaps and names in general -/

theorem parseStep_space_gap (U : Char → Char) (r m : List Mechanism) (q : Qualifier)
    (c : Char) (hc : spaceChar c) :
    parseStep U ⟨r, m, ⟨q, "", "", true, false⟩, .Mechanism⟩ c
      = .ok ⟨r, m, ⟨q, "", "", true, false⟩, .Mechanism⟩ := by
  rcases hc with rfl | rfl | rfl <;> simp [parseStep]

theorem lastSymbolQualifier_cons_symbol (q0 : Qualifier) (c : Char) (gap : List Char)
    (hc : c ∈ qualifierSymbols) :
    lastSymbolQualifier q0 (c :: gap) = lastSymbolQualifier (qualifierOfSymbol c) gap := by
  simp only [lastSymbolQualifier, List.filter_cons, hc, decide_True, if_true,
    List.getLast?_cons]
  cases (List.filter (fun c => decide (c ∈ qualifierSymbols)) gap).getLast? <;> rfl

theorem lastSymbolQualifier_cons_other (q0 : Qualifier) (c : Char) (gap : List Char)
    (hc : c ∉ qualifierSymbols) :
    lastSymbolQualifier q0 (c :: gap) = lastSymbolQualifier q0 gap := by
  simp [lastSymbolQualifier, List.filter_cons, hc]

theorem spaceChar_not_symbol (c : Char) (hc : spaceChar c) : c ∉ qualifierSymbols := by
  rcases hc with rfl | rfl | rfl <;> decide

/-- Reading a gap: only the qualifier changes, to the one of the last symbol. -/
theorem parseLoop_gap (U : Char → Char) (r m : List Mechanism) (rest : List Char) :
    ∀ (gap : List Char) (q : Qualifier), (∀ c ∈ gap, gapChar c) →
      parseLoop U (gap ++ rest) ⟨r, m, ⟨q, "", "", true, false⟩, .Mechanism⟩
        = parseLoop U rest
            ⟨r, m, ⟨lastSymbolQualifier q gap, "", "", true, false⟩, .Mechanism⟩
  | [], q, _ => rfl
  | c :: gap, q, h => by
    have hgap : ∀ x ∈ gap, gapChar x := fun x hx => h x (List.mem_cons_of_mem _ hx)
    rw [List.cons_append, parseLoop_cons]
    rcases h c (List.mem_cons_self _ _) with hc | hc
    · rw [parseStep_space_gap U r m q c hc,
        lastSymbolQualifier_cons_other q c gap (spaceChar_not_symbol c hc)]
      exact parseLoop_gap U r m rest gap q hgap
    · rw [parseStep_symbol_fresh U r m q c hc, lastSymbolQualifier_cons_symbol q c gap hc]
      exact parseLoop_gap U r m rest gap (qualifierOfSymbol c) hgap

theorem parseStep_nameTail (U : Char → Char) (r m : List Mechanism) (q : Qualifier)
    (name : String) (c : Char) (hn : name ≠ "") (hc : nameTailChar c) :
    parseStep U ⟨r, m, ⟨q, name, "", true, false⟩, .Mechanism⟩ c
      = .ok ⟨r, m, ⟨q, name.push c, "", true, false⟩, .Mechanism⟩ := by
  obtain ⟨h1, h2, h3, h4, h5⟩ := hc
  simp only [parseStep, hn, h1, h2, h3, h4, h5, false_and, if_false, or_self, ParseState.write]
  split_ifs <;> rfl

theorem push_ne_empty (s : String) (c : Char) : s.push c ≠ "" := by
  intro e
  have := congrArg String.data e
  simp [String.data_push] at this

theorem parseLoop_nameTail (U : Char → Char) (r m : List Mechanism) (q : Qualifier)
    (rest : List Char) :
    ∀ (cs : List Char) (name : String), name ≠ "" → (∀ c ∈ cs, nameTailChar c) →
      parseLoop U (cs ++ rest) ⟨r, m, ⟨q, name, "", true, false⟩, .Mechanism⟩
        = parseLoop U rest ⟨r, m, ⟨q, ⟨name.data ++ cs⟩, "", true, false⟩, .Mechanism⟩
  | [], name, _, _ => by simp
  | c :: cs, name, hn, h => by
    have hc : nameTailChar c := h c (List.mem_cons_self _ _)
    have ih := parseLoop_nameTail U r m q rest cs (name.push c) (push_ne_empty name c)
      (fun x hx => h x (List.mem_cons_of_mem _ hx))
    rw [List.cons_append, parseLoop_cons, parseStep_nameTail U r m q name c hn hc]
    simp only []
    rw [ih]
    simp [String.data_push]

/-- Reading a kind name from a state with empty buffers. -/
theorem parseLoop_nameRunes (U : Char → Char) (r m : List Mechanism) (q : Qualifier)
    (rest : List Char) (name : String) (hn : nameRunesOk name.data) :
    parseLoop U (name.data ++ rest) ⟨r, m, ⟨q, "", "", true, false⟩, .Mechanism⟩
      = parseLoop U rest ⟨r, m, ⟨q, name, "", true, false⟩, .Mechanism⟩ := by
  obtain ⟨l⟩ := name
  cases l with
  | nil => exact absurd hn (fun h => h)
  | cons c cs =>
    obtain ⟨hc, hcs⟩ := hn
    have h1 := parseLoop_name U r m q (cs ++ rest) [c] "" (by simpa using hc)
    have h2 := parseLoop_nameTail U r m q rest cs ⟨[c]⟩ (string_mk_ne_empty (by simp)) hcs
    simp only [List.singleton_append] at h1
    rw [List.cons_append, h1]
    exact h2

theorem nameRunesOk_ne_empty (name : String) (hn : nameRunesOk name.data) : name ≠ "" := by
  intro e
  rw [e] at hn
  exact hn

/-- The scan of a record text that consists of the version marker, a space and
one token text: the state in which the end of input is reached. -/
theorem ParseSPF_single (U : Char → Char) (name : String) (tail : List Char) (st : ParseState)
    (spf : String) (hspf : spf.data = "v=spf1".data ++ (' ' :: (name.data ++ tail)))
    (hn : nameRunesOk name.data)
    (htail : parseLoop U tail ⟨[], [], ⟨PassQualifier, name, "", true, false⟩, .Mechanism⟩
      = .ok st) :
    ParseSPF U spf = parseFinish U st := by
  have hfresh : parseStep U (ParseState.fresh [] []) ' ' = .ok (ParseState.fresh [] []) :=
    parseStep_space_fresh U [] [] PassQualifier ' ' (by decide)
  rw [ParseSPF_content U _ _ hspf, parseLoop_cons, hfresh]
  simp only [ParseState.fresh]
  rw [parseLoop_nameRunes U [] [] PassQualifier tail name hn, htail]

/-- A single token `name:value`: the result is the classification of the name
as a mechanism. -/
theorem ParseSPF_single_colon (U : Char → Char) (name v : String) (hn : nameRunesOk name.data)
    (hv : ∀ c ∈ v.data, notSpace c) :
    ParseSPF U ("v=spf1 " ++ name ++ ":" ++ v)
      = match EvaluateMechanism U ⟨PassQualifier, name, v, false, false⟩ with
        | (_, some err) => ([], some err)
        | (mechanism, none) => ([mechanism], none) := by
  have hne := nameRunesOk_ne_empty name hn
  have hd : ("v=spf1 " ++ name ++ ":" ++ v).data
      = "v=spf1".data ++ (' ' :: (name.data ++ (':' :: (v.data ++ [])))) := by
    simp only [String.append_assoc, marker_space_data]
    simp [String.data_append]
  rw [ParseSPF_single U name _ ⟨[], [], ⟨PassQualifier, name, v, false, false⟩, .Value⟩ _ hd hn]
  · simp only [parseFinish, hne, ne_eq, not_false_eq_true, if_true, ParseState.emit,
      Bool.false_eq_true, if_false]
    generalize EvaluateMechanism U ⟨PassQualifier, name, v, false, false⟩ = res
    obtain ⟨mm, _ | e⟩ := res <;> simp
  · rw [parseLoop_cons, parseStep_colon U [] [] PassQualifier name hne]
    simp only []
    rw [parseLoop_value U [] [] PassQualifier name false [] hne v.data "" hv,
      string_mk_empty_append]
    rfl

/-- A single bare token: the result is the classification of the name as a
mechanism, with an empty value. -/
theorem ParseSPF_single_bare (U : Char → Char) (name : String) (hn : nameRunesOk name.data) :
    ParseSPF U ("v=spf1 " ++ name)
      = match EvaluateMechanism U ⟨PassQualifier, name, "", true, false⟩ with
        | (_, some err) => ([], some err)
        | (mechanism, none) => ([mechanism], none) := by
  have hne := nameRunesOk_ne_empty name hn
  have hd : ("v=spf1 " ++ name).data = "v=spf1".data ++ (' ' :: (name.data ++ [])) := by
    simp only [marker_space_data]
    simp
  rw [ParseSPF_single U name _ ⟨[], [], ⟨PassQualifier, name, "", true, false⟩, .Mechanism⟩ _
    hd hn rfl]
  simp only [parseFinish, hne, ne_eq, not_false_eq_true, if_true, ParseState.emit,
    Bool.false_eq_true, if_false]
  generalize EvaluateMechanism U ⟨PassQualifier, name, "", true, false⟩ = res
  obtain ⟨mm, _ | e⟩ := res <;> simp

/-- A single token `name=value`: the result is the classification of the name
as a modifier. -/
theorem ParseSPF_single_equals (U : Char → Char) (name v : String)
    (hn : nameRunesOk name.data) (hv : ∀ c ∈ v.data, notSpace c) :
    ParseSPF U ("v=spf1 " ++ name ++ "=" ++ v)
      = match EvaluateModifier ⟨PassQualifier, name, v, false, true⟩ with
        | (_, some err) => ([], some err)
        | (mechanism, none) => ([mechanism], none) := by
  have hne := nameRunesOk_ne_empty name hn
  have hd : ("v=spf1 " ++ name ++ "=" ++ v).data
      = "v=spf1".data ++ (' ' :: (name.data ++ ('=' :: (v.data ++ [])))) := by
    simp only [String.append_assoc, marker_space_data]
    simp [String.data_append]
  rw [ParseSPF_single U name _ ⟨[], [], ⟨PassQualifier, name, v, false, true⟩, .Value⟩ _ hd hn]
  · simp only [parseFinish, hne, ne_eq, not_false_eq_true, if_true, ParseState.emit]
    generalize EvaluateModifier ⟨PassQualifier, name, v, false, true⟩ = res
    obtain ⟨mm, _ | e⟩ := res <;> simp
  · rw [parseLoop_cons, parseStep_equals U [] [] PassQualifier name hne]
    simp only []
    rw [parseLoop_value U [] [] PassQualifier name true [] hne v.data "" hv,
      string_mk_empty_append]
    rfl

/-! ## Rejected tokens -/

/-- C16. Empty kind name is a syntax error: after the version marker and any
run `p` of whitespace and qualifier symbols, a `:` or a `=` makes `ParseSPF`
fail with `ErrSyntax`, whatever follows. -/
theorem ParseSPF_empty_name (U : Char → Char) (p r : String) (hp : ∀ c ∈ p.data, gapChar c) :
    ParseSPF U ("v=spf1" ++ p ++ ":" ++ r) = ([], some Error.ErrSyntax) ∧
      ParseSPF U ("v=spf1" ++ p ++ "=" ++ r) = ([], some Error.ErrSyntax) := by
  have h1 : ("v=spf1" ++ p ++ ":" ++ r).data = "v=spf1".data ++ (p.data ++ (':' :: r.data)) := by
    simp [String.data_append]
  have h2 : ("v=spf1" ++ p ++ "=" ++ r).data = "v=spf1".data ++ (p.data ++ ('=' :: r.data)) := by
    simp [String.data_append]
  constructor
  · rw [ParseSPF_content U _ _ h1, ParseState.fresh, parseLoop_gap U [] [] _ p.data _ hp,
      parseLoop_cons]
    simp [parseStep]
  · rw [ParseSPF_content U _ _ h2, ParseState.fresh, parseLoop_gap U [] [] _ p.data _ hp,
      parseLoop_cons]
    simp [parseStep]

/-- The syntax test of the repository, and a gap with qualifier symbols before
`=`, as instances of `ParseSPF_empty_name`. -/
theorem ParseSPF_empty_name_witness :
    ParseSPF (fun c => c) "v=spf1  : helloworld" = ([], some Error.ErrSyntax) ∧
      ParseSPF (fun c => c) "v=spf1 - +=x" = ([], some Error.ErrSyntax) :=
  ⟨(ParseSPF_empty_name (fun c => c) "  " " helloworld" (by decide)).1,
    (ParseSPF_empty_name (fun c => c) " - +" "x" (by decide)).2⟩

theorem EvaluateMechanism_unknown (U : Char → Char) (ctx : MechanismParseContext)
    (hnot : ToLower U ctx.Mechanism ∉ mechanismNames) :
    EvaluateMechanism U ctx = (⟨0, 0, ""⟩, some Error.ErrInvalidMechanism) := by
  simp only [mechanismNames, List.mem_cons, List.mem_singleton, List.not_mem_nil, or_false,
    not_or] at hnot
  obtain ⟨h1, h2, h3, h4, h5, h6, h7, h8⟩ := hnot
  simp [EvaluateMechanism, h1, h2, h3, h4, h5, h6, h7, h8]

theorem EvaluateModifier_unknown (ctx : MechanismParseContext)
    (hnot : ctx.Mechanism ≠ "redirect") :
    EvaluateModifier ctx = (⟨0, 0, ""⟩, some Error.ErrInvalidModifier) := by
  simp [EvaluateModifier, hnot]

/-- C17. Unknown names are rejected with the error of their token class: for
a single-token record whose name is non-empty, has no whitespace, `:` or `=`
and does not start with a qualifier symbol, and whose value has no whitespace,
`name:value` and the bare `name` fail with `ErrInvalidMechanism` when the
lower-cased name is not one of the eight mechanism names, and `name=value`
fails with `ErrInvalidModifier` when the name is not `redirect`. -/
theorem ParseSPF_unknown_name (U : Char → Char) (name v : String)
    (hn : nameRunesOk name.data) (hv : ∀ c ∈ v.data, notSpace c) :
    (ToLower U name ∉ mechanismNames →
      ParseSPF U ("v=spf1 " ++ name ++ ":" ++ v) = ([], some Error.ErrInvalidMechanism) ∧
      ParseSPF U ("v=spf1 " ++ name) = ([], some Error.ErrInvalidMechanism)) ∧
    (name ≠ "redirect" →
      ParseSPF U ("v=spf1 " ++ name ++ "=" ++ v) = ([], some Error.ErrInvalidModifier)) := by
  constructor
  · intro hnot
    rw [ParseSPF_single_colon U name v hn hv, ParseSPF_single_bare U name hn,
      EvaluateMechanism_unknown U _ hnot, EvaluateMechanism_unknown U _ hnot]
    exact ⟨rfl, rfl⟩
  · intro hnot
    rw [ParseSPF_single_equals U name v hn hv, EvaluateModifier_unknown _ hnot]

/-- The records `redirect:x` and `a=x`, as instances of
`ParseSPF_unknown_name`. -/
theorem ParseSPF_unknown_name_witness :
    ParseSPF (fun c => c) "v=spf1 redirect:x" = ([], some Error.ErrInvalidMechanism) ∧
      ParseSPF (fun c => c) "v=spf1 a=x" = ([], some Error.ErrInvalidModifier) :=
  ⟨((ParseSPF_unknown_name (fun c => c) "redirect" "x" (by decide) (by decide)).1
      (by decide)).1,
    (ParseSPF_unknown_name (fun c => c) "a" "x" (by decide) (by decide)).2 (by decide)⟩

theorem toLowerRune_fixed (U : Char → Char) (c : Char)
    (hc : c.toNat < 128 ∧ ¬ (65 ≤ c.toNat ∧ c.toNat ≤ 90)) : toLowerRune U c = c := by
  simp [toLowerRune, hc.1, hc.2]

theorem toLowerRune_special (U : Char → Char) (c : Char) (hc : ¬ plainChar c) :
    toLowerRune U c = c := by
  simp only [plainChar, not_not, List.mem_cons, List.mem_singleton, List.not_mem_nil,
    or_false] at hc
  rcases hc with rfl | rfl | rfl | rfl | rfl | rfl | rfl | rfl | rfl <;>
    exact toLowerRune_fixed U _ (by decide)

/-- A name that is `redirect` after lower-casing is made of plain runes. -/
theorem nameRunesOk_of_lower_redirect (U : Char → Char) (n : String)
    (hlow : ToLower U n = "redirect") : nameRunesOk n.data := by
  have hmap : n.data.map (toLowerRune U) = "redirect".data := congrArg String.data hlow
  have hplain : ∀ c ∈ n.data, plainChar c := by
    intro c hc
    by_contra hnp
    have hmem : toLowerRune U c ∈ "redirect".data := by
      rw [← hmap]
      exact List.mem_map_of_mem _ hc
    rw [toLowerRune_special U c hnp] at hmem
    have hall : ∀ x ∈ "redirect".data, plainChar x := by decide
    exact hnp (hall c hmem)
  obtain ⟨l⟩ := n
  cases l with
  | nil => simp at hmap
  | cons c cs =>
    refine ⟨hplain c (List.mem_cons_self _ _), fun x hx => ?_⟩
    have hx1 := hplain x (List.mem_cons_of_mem _ hx)
    simp only [plainChar, List.mem_cons, List.mem_singleton, List.not_mem_nil, or_false,
      not_or] at hx1
    exact ⟨hx1.2.2.2.2.1, hx1.2.2.2.2.2.1, hx1.2.2.2.2.2.2.1, hx1.2.2.2.2.2.2.2.1,
      hx1.2.2.2.2.2.2.2.2⟩

/-- C14, the behaviour of the code: the modifier name is compared with
`redirect` as it is written. A name `n` that is `redirect` only after
lower-casing (`Redirect`, `REDIRECT`) makes `ParseSPF` fail with
`ErrInvalidModifier`, while the lower-case name gives the redirect
directive. -/
theorem ParseSPF_redirect_case (U : Char → Char) (n v : String)
    (hlow : ToLower U n = "redirect") (hne : n ≠ "redirect")
    (hv : ∀ c ∈ v.data, notSpace c) :
    ParseSPF U ("v=spf1 " ++ n ++ "=" ++ v) = ([], some Error.ErrInvalidModifier) ∧
      ParseSPF U ("v=spf1 " ++ "redirect" ++ "=" ++ v)
        = ([⟨PassQualifier, RedirectMechanism, v⟩], none) := by
  constructor
  · rw [ParseSPF_single_equals U n v (nameRunesOk_of_lower_redirect U n hlow) hv,
      EvaluateModifier_unknown _ hne]
  · rw [ParseSPF_single_equals U "redirect" v (by decide) hv]
    rfl

/-- The name `Redirect`, as an instance of `ParseSPF_redirect_case`. -/
theorem ParseSPF_redirect_case_witness :
    ParseSPF (fun c => c) "v=spf1 Redirect=_spf.voulter.com"
        = ([], some Error.ErrInvalidModifier) ∧
      ParseSPF (fun c => c) "v=spf1 redirect=_spf.voulter.com"
        = ([⟨PassQualifier, RedirectMechanism, "_spf.voulter.com"⟩], none) :=
  ParseSPF_redirect_case (fun c => c) "Redirect" "_spf.voulter.com" (by decide) (by decide)
    (by decide)

/-! ## Whitespace -/

theorem parseLoop_append (U : Char → Char) :
    ∀ (cs rest : List Char) (st : ParseState),
      parseLoop U (cs ++ rest) st
        = match parseLoop U cs st with
          | .error err => .error err
          | .ok st1 => parseLoop U rest st1
  | [], rest, st => rfl
  | c :: cs, rest, st => by
    rw [List.cons_append, parseLoop_cons, parseLoop_cons]
    cases parseStep U st c with
    | error err => rfl
    | ok st1 => exact parseLoop_append U cs rest st1

theorem parseFrom_append (U : Char → Char) (cs rest : List Char) (st : ParseState) :
    parseFrom U (cs ++ rest) st
      = match parseLoop U cs st with
        | .error err => ([], some err)
        | .ok st1 => parseFrom U rest st1 := by
  unfold parseFrom
  rw [parseLoop_append]
  cases parseLoop U cs st <;> rfl

theorem parseFrom_cons (U : Char → Char) (c : Char) (rest : List Char) (st : ParseState) :
    parseFrom U (c :: rest) st
      = match parseStep U st c with
        | .error err => ([], some err)
        | .ok st1 => parseFrom U rest st1 := by
  unfold parseFrom
  rw [parseLoop_cons]
  cases parseStep U st c <;> rfl

theorem ParseSPF_parseFrom (U : Char → Char) (spf : String) (content : List Char)
    (h : spf.data = "v=spf1".data ++ content) :
    ParseSPF U spf = parseFrom U content (ParseState.fresh [] []) :=
  ParseSPF_content U spf content h

theorem fresh_consistent (r m : List Mechanism) : (ParseState.fresh r m).consistent := by
  simp [ParseState.consistent, ParseState.fresh]

theorem write_consistent (st : ParseState) (c : Char) (h : st.consistent) :
    (st.write c).consistent := by
  obtain ⟨h1, h2, h3⟩ := h
  unfold ParseState.write
  split
  · rename_i hw
    have hwd := h1.1 hw
    refine ⟨by simpa using h1, by simpa using h2, ?_⟩
    simp [hwd]
  · rename_i hw
    have hwd : st.parseContext.WritingDescriptor = false := by
      cases hb : st.parseContext.WritingDescriptor with
      | false => rfl
      | true => rw [h1.2 hb] at hw; cases hw
    refine ⟨by simpa using h1, ?_, by simpa using h3⟩
    simp [hwd]

theorem parseStep_consistent (U : Char → Char) (st st1 : ParseState) (c : Char)
    (hst : st.consistent) (h : parseStep U st c = .ok st1) : st1.consistent := by
  unfold parseStep at h
  split_ifs at h
  all_goals try (cases h; first | exact write_consistent st c hst | exact hst)
  · split at h
    · cases h
    · cases h
      exact ⟨hst.1, by simpa using hst.2.1, by simpa using hst.2.2⟩
  · cases h
    simpa [ParseState.consistent] using ‹¬st.parseContext.Mechanism = ""›
  · cases h
    simpa [ParseState.consistent] using ‹¬st.parseContext.Mechanism = ""›
  · split at h
    · cases h
    · cases h
      exact fresh_consistent _ _

theorem parseLoop_consistent (U : Char → Char) :
    ∀ (cs : List Char) (st st1 : ParseState), st.consistent →
      parseLoop U cs st = .ok st1 → st1.consistent
  | [], st, st1, hst, h => by
    cases h
    exact hst
  | c :: cs, st, st1, hst, h => by
    rw [parseLoop_cons] at h
    split at h
    · cases h
    · rename_i st2 hstep
      exact parseLoop_consistent U cs st2 st1 (parseStep_consistent U st st2 c hst hstep) h

/-- What a whitespace rune does to a state; the same for space, LF and CR. -/
theorem parseStep_space (U : Char → Char) (st : ParseState) (c : Char) (hc : spaceChar c) :
    parseStep U st c = parseStep U st ' ' := by
  rcases hc with rfl | rfl | rfl <;> simp [parseStep]

/-- After one whitespace rune, further whitespace changes nothing. -/
theorem parseStep_space_stable (U : Char → Char) (st st1 : ParseState)
    (h : parseStep U st ' ' = .ok st1) : parseStep U st1 ' ' = .ok st1 := by
  simp only [parseStep, Char.reduceEq, or_self, if_false, true_or, if_true] at h ⊢
  split_ifs at h with h1
  · cases h
    simp [h1]
  · split at h
    · cases h
    · cases h
      simp [ParseState.fresh]

/-- A non-empty run of whitespace acts like a single space. -/
theorem parseLoop_spaces (U : Char → Char) (rest : List Char) :
    ∀ (s : List Char) (st : ParseState), s ≠ [] → (∀ c ∈ s, spaceChar c) →
      parseLoop U (s ++ rest) st = parseLoop U (' ' :: rest) st
  | [], _, hne, _ => absurd rfl hne
  | [c], st, _, h => by
    rw [List.singleton_append, parseLoop_cons, parseLoop_cons,
      parseStep_space U st c (h c (List.mem_cons_self _ _))]
  | c :: c1 :: s, st, _, h => by
    have ih := parseLoop_spaces U rest (c1 :: s)
    rw [List.cons_append, parseLoop_cons, parseLoop_cons,
      parseStep_space U st c (h c (List.mem_cons_self _ _))]
    cases hstep : parseStep U st ' ' with
    | error err => rfl
    | ok st1 =>
      simp only []
      rw [ih st1 (by simp) (fun x hx => h x (List.mem_cons_of_mem _ hx)), parseLoop_cons,
        parseStep_space_stable U st st1 hstep]

/-- Whitespace that the scan meets when a space changes nothing is skipped. -/
theorem parseLoop_spaces_skip (U : Char → Char) (rest : List Char) (st : ParseState)
    (hst : parseStep U st ' ' = .ok st) :
    ∀ s : List Char, (∀ c ∈ s, spaceChar c) → parseLoop U (s ++ rest) st = parseLoop U rest st
  | [], _ => rfl
  | c :: s, h => by
    rw [List.cons_append, parseLoop_cons, parseStep_space U st c (h c (List.mem_cons_self _ _)),
      hst]
    exact parseLoop_spaces_skip U rest st hst s (fun x hx => h x (List.mem_cons_of_mem _ hx))

/-- A space at the end of the text does not change the result. -/
theorem parseFinish_space (U : Char → Char) (st : ParseState) (hst : st.consistent) :
    parseFrom U [' '] st = parseFinish U st := by
  rw [parseFrom_cons]
  simp only [parseStep, Char.reduceEq, or_self, if_false, true_or, if_true]
  split_ifs with h1
  · rfl
  · have hwd : st.parseContext.WritingDescriptor = false := by
      cases hb : st.parseContext.WritingDescriptor with
      | false => rfl
      | true => exact absurd (Or.inl hb) h1
    have hm := hst.2.2 hwd
    simp only [parseFinish, hm, ne_eq, not_false_eq_true, if_true]
    cases st.emit U with
    | error err => rfl
    | ok st2 => simp [parseFrom, parseLoop, parseFinish, ParseState.fresh]

theorem parseFrom_spaces (U : Char → Char) (rest : List Char) (s : List Char) (st : ParseState)
    (hne : s ≠ []) (hs : ∀ c ∈ s, spaceChar c) :
    parseFrom U (s ++ rest) st = parseFrom U (' ' :: rest) st := by
  unfold parseFrom
  rw [parseLoop_spaces U rest s st hne hs]

theorem parseStep_space_empty_value (U : Char → Char) (st : ParseState)
    (h : st.parseContext.Value = "") : parseStep U st ' ' = .ok st := by
  simp [parseStep, h]

theorem parseStep_separator_value (U : Char → Char) (st st1 : ParseState) (c : Char)
    (hst : st.consistent) (hwd : st.parseContext.WritingDescriptor = true)
    (hc : c = ':' ∨ c = '=') (h : parseStep U st c = .ok st1) :
    st1.parseContext.Value = "" := by
  have hv := (hst.2.1 hwd).1
  rcases hc with rfl | rfl
  · simp only [parseStep, Char.reduceEq, or_self, if_false, if_true, hwd] at h
    split_ifs at h
    cases h
    exact hv
  · simp only [parseStep, Char.reduceEq, or_self, if_false, if_true, hwd] at h
    split_ifs at h
    cases h
    exact hv

theorem writingName_ok (U : Char → Char) (u : String) (st : ParseState)
    (hw : writingName U u = true)
    (h : parseLoop U u.data (ParseState.fresh [] []) = .ok st) :
    st.parseContext.WritingDescriptor = true := by
  unfold writingName at hw
  rw [h] at hw
  exact hw

/-- C15. Whitespace insensitivity: `ParseSPF` returns the same result (record
or error) when a non-empty run of whitespace (space, CR, LF) in the text after
the version marker is replaced by another non-empty run, and when whitespace
is inserted at the start of the content, directly after the `:` or `=` that
the scan meets while it writes a kind name, or at the end of the text. -/
theorem ParseSPF_whitespace (U : Char → Char) :
    (∀ u s1 s2 w : String, s1 ≠ "" → s2 ≠ "" → (∀ c ∈ s1.data, spaceChar c) →
      (∀ c ∈ s2.data, spaceChar c) →
      ParseSPF U ("v=spf1" ++ u ++ s1 ++ w) = ParseSPF U ("v=spf1" ++ u ++ s2 ++ w)) ∧
    (∀ s w : String, (∀ c ∈ s.data, spaceChar c) →
      ParseSPF U ("v=spf1" ++ s ++ w) = ParseSPF U ("v=spf1" ++ w)) ∧
    (∀ u sep s w : String, sep = ":" ∨ sep = "=" → writingName U u = true →
      (∀ c ∈ s.data, spaceChar c) →
      ParseSPF U ("v=spf1" ++ u ++ sep ++ s ++ w) = ParseSPF U ("v=spf1" ++ u ++ sep ++ w)) ∧
    (∀ u s : String, (∀ c ∈ s.data, spaceChar c) →
      ParseSPF U ("v=spf1" ++ u ++ s) = ParseSPF U ("v=spf1" ++ u)) := by
  refine ⟨?_, ?_, ?_, ?_⟩
  · intro u s1 s2 w h1 h2 hs1 hs2
    have d1 : ("v=spf1" ++ u ++ s1 ++ w).data = "v=spf1".data ++ (u.data ++ (s1.data ++ w.data)) := by
      simp [String.data_append]
    have d2 : ("v=spf1" ++ u ++ s2 ++ w).data = "v=spf1".data ++ (u.data ++ (s2.data ++ w.data)) := by
      simp [String.data_append]
    rw [ParseSPF_parseFrom U _ _ d1, ParseSPF_parseFrom U _ _ d2, parseFrom_append,
      parseFrom_append]
    cases parseLoop U u.data (ParseState.fresh [] []) with
    | error err => rfl
    | ok st =>
      simp only []
      rw [parseFrom_spaces U _ _ st (string_ne_empty_data h1) hs1,
        parseFrom_spaces U _ _ st (string_ne_empty_data h2) hs2]
  · intro s w hs
    have d1 : ("v=spf1" ++ s ++ w).data = "v=spf1".data ++ (s.data ++ w.data) := by
      simp [String.data_append]
    have d2 : ("v=spf1" ++ w).data = "v=spf1".data ++ w.data := by
      simp [String.data_append]
    rw [ParseSPF_parseFrom U _ _ d1, ParseSPF_parseFrom U _ _ d2]
    unfold parseFrom
    rw [parseLoop_spaces_skip U w.data _ (parseStep_space_empty_value U _ rfl) s.data hs]
  · intro u sep s w hsep hw hs
    obtain ⟨c, hc, rfl⟩ : ∃ c : Char, (c = ':' ∨ c = '=') ∧ sep = String.singleton c := by
      rcases hsep with rfl | rfl
      · exact ⟨':', Or.inl rfl, rfl⟩
      · exact ⟨'=', Or.inr rfl, rfl⟩
    have d1 : ("v=spf1" ++ u ++ String.singleton c ++ s ++ w).data
        = "v=spf1".data ++ (u.data ++ (c :: (s.data ++ w.data))) := by
      simp [String.data_append, String.singleton]
    have d2 : ("v=spf1" ++ u ++ String.singleton c ++ w).data
        = "v=spf1".data ++ (u.data ++ (c :: w.data)) := by
      simp [String.data_append, String.singleton]
    rw [ParseSPF_parseFrom U _ _ d1, ParseSPF_parseFrom U _ _ d2, parseFrom_append,
      parseFrom_append]
    cases hu : parseLoop U u.data (ParseState.fresh [] []) with
    | error err => rfl
    | ok st =>
      simp only []
      have hcons := parseLoop_consistent U _ _ st (fresh_consistent [] []) hu
      have hwd := writingName_ok U u st hw hu
      rw [parseFrom_cons, parseFrom_cons]
      cases hstep : parseStep U st c with
      | error err => rfl
      | ok st1 =>
        simp only []
        have hv := parseStep_separator_value U st st1 c hcons hwd hc hstep
        unfold parseFrom
        rw [parseLoop_spaces_skip U w.data st1 (parseStep_space_empty_value U st1 hv) s.data hs]
  · intro u s hs
    have d1 : ("v=spf1" ++ u ++ s).data = "v=spf1".data ++ (u.data ++ s.data) := by
      simp [String.data_append]
    have d2 : ("v=spf1" ++ u).data = "v=spf1".data ++ (u.data ++ []) := by
      simp [String.data_append]
    rw [ParseSPF_parseFrom U _ _ d1, ParseSPF_parseFrom U _ _ d2, parseFrom_append,
      parseFrom_append]
    cases hu : parseLoop U u.data (ParseState.fresh [] []) with
    | error err => rfl
    | ok st =>
      simp only []
      have hcons := parseLoop_consistent U _ _ st (fresh_consistent [] []) hu
      by_cases hne : s.data = []
      · rw [hne]
      · have h := parseFrom_spaces U [] s.data st hne hs
        rw [List.append_nil] at h
        rw [h, parseFinish_space U st hcons]
        rfl

/-- The unformatted record of the repository's tests against its compact
form, by the insertion after the separator, the replacement of a run and the
insertion at the end, as instances of `ParseSPF_whitespace`. -/
theorem ParseSPF_whitespace_witness :
    ParseSPF (fun c => c) "v=spf1                  InCluDe:      spf.voulter.com     "
      = ParseSPF (fun c => c) "v=spf1 InCluDe:spf.voulter.com" :=
  (((ParseSPF_whitespace (fun c => c)).2.2.2 "                  InCluDe:      spf.voulter.com"
      "     " (by decide)).trans
    ((ParseSPF_whitespace (fun c => c)).2.2.1 "                  InCluDe" ":" "      "
      "spf.voulter.com" (Or.inl rfl) (by decide) (by decide))).trans
    ((ParseSPF_whitespace (fun c => c)).1 "" "                  " " " "InCluDe:spf.voulter.com"
      (by decide) (by decide) (by decide) (by decide))

/-! ## Letter case of kind names -/

theorem ToLower_push (U : Char → Char) (s : String) (c : Char) :
    ToLower U (s.push c) = (ToLower U s).push (toLowerRune U c) := by
  simp [ToLower, String.push]

theorem push_eq_empty_iff (s t : String) (c : Char) : s.push c = "" ↔ t.push c = "" :=
  ⟨fun h => absurd h (push_ne_empty s c), fun h => absurd h (push_ne_empty t c)⟩

theorem EvaluateMechanism_lower (U : Char → Char) (q : Qualifier) (n1 n2 v : String)
    (wd md : Bool) (hlow : ToLower U n1 = ToLower U n2) :
    EvaluateMechanism U ⟨q, n1, v, wd, md⟩ = EvaluateMechanism U ⟨q, n2, v, wd, md⟩ := by
  simp only [EvaluateMechanism, hlow]

/-- One step of the scan on two states that differ at most in the letter case
of the kind name of a token that is no modifier: the same error, the same new
state, or two states that differ in the same way. -/
theorem parseStep_case (U : Char → Char) (r m : List Mechanism) (q : Qualifier)
    (n1 n2 v : String) (wd : Bool) (wv : WriteTarget) (c : Char)
    (hlow : ToLower U n1 = ToLower U n2) (hemp : n1 = "" ↔ n2 = "")
    (hc : c = '=' → wd = false) :
    (∃ err, parseStep U ⟨r, m, ⟨q, n1, v, wd, false⟩, wv⟩ c = .error err ∧
        parseStep U ⟨r, m, ⟨q, n2, v, wd, false⟩, wv⟩ c = .error err) ∨
    (∃ st, parseStep U ⟨r, m, ⟨q, n1, v, wd, false⟩, wv⟩ c = .ok st ∧
        parseStep U ⟨r, m, ⟨q, n2, v, wd, false⟩, wv⟩ c = .ok st) ∨
    (∃ (q1 : Qualifier) (k1 k2 v1 : String) (wd1 : Bool) (wv1 : WriteTarget),
        parseStep U ⟨r, m, ⟨q, n1, v, wd, false⟩, wv⟩ c = .ok ⟨r, m, ⟨q1, k1, v1, wd1, false⟩, wv1⟩ ∧
        parseStep U ⟨r, m, ⟨q, n2, v, wd, false⟩, wv⟩ c = .ok ⟨r, m, ⟨q1, k2, v1, wd1, false⟩, wv1⟩ ∧
        ToLower U k1 = ToLower U k2 ∧ (k1 = "" ↔ k2 = "") ∧
        ((wd = false ∨ c = ':') → wd1 = false)) := by
  have hwrite : ∀ x : Char, (c = ':' → wd = false) →
      (∃ (q1 : Qualifier) (k1 k2 v1 : String) (wd1 : Bool) (wv1 : WriteTarget),
        Except.ok ((⟨r, m, ⟨q, n1, v, wd, false⟩, wv⟩ : ParseState).write x)
          = (.ok ⟨r, m, ⟨q1, k1, v1, wd1, false⟩, wv1⟩ : Except Error ParseState) ∧
        Except.ok ((⟨r, m, ⟨q, n2, v, wd, false⟩, wv⟩ : ParseState).write x)
          = (.ok ⟨r, m, ⟨q1, k2, v1, wd1, false⟩, wv1⟩ : Except Error ParseState) ∧
        ToLower U k1 = ToLower U k2 ∧ (k1 = "" ↔ k2 = "") ∧
        ((wd = false ∨ c = ':') → wd1 = false)) := by
    intro x hx
    have hlast : (wd = false ∨ c = ':') → wd = false := fun h => h.elim id hx
    cases wv with
    | Mechanism =>
      refine ⟨q, n1.push x, n2.push x, v, wd, .Mechanism, rfl, rfl, ?_,
        push_eq_empty_iff _ _ _, hlast⟩
      rw [ToLower_push, ToLower_push, hlow]
    | Value =>
      exact ⟨q, n1, n2, v.push x, wd, .Value, rfl, rfl, hlow, hemp, hlast⟩
  have hiff : (n1 = "" ∧ v = "") ↔ (n2 = "" ∧ v = "") := by rw [hemp]
  by_cases hsym : c ∈ qualifierSymbols
  · have hnc : c ≠ ':' := by rintro rfl; exact absurd hsym (by decide)
    have hsym1 : c = '+' ∨ c = '-' ∨ c = '~' ∨ c = '?' := by
      simpa [qualifierSymbols] using hsym
    by_cases he : n1 = "" ∧ v = ""
    · obtain ⟨hn1, hv⟩ := he
      have hn2 := hemp.1 hn1
      subst hn1 hn2 hv
      right; right
      refine ⟨qualifierOfSymbol c, "", "", "", wd, wv,
        ?_, ?_, rfl, Iff.rfl, fun h => h.elim id (fun h => absurd h hnc)⟩
      · rcases hsym1 with rfl | rfl | rfl | rfl <;>
          simp [parseStep, EvaluateQualifier, qualifierOfSymbol]
      · rcases hsym1 with rfl | rfl | rfl | rfl <;>
          simp [parseStep, EvaluateQualifier, qualifierOfSymbol]
    · have he2 : ¬ (n2 = "" ∧ v = "") := fun h => he (hiff.2 h)
      right; right
      have e1 : parseStep U ⟨r, m, ⟨q, n1, v, wd, false⟩, wv⟩ c
          = .ok ((⟨r, m, ⟨q, n1, v, wd, false⟩, wv⟩ : ParseState).write c) := by
        simp only [parseStep, hsym1, if_true, he, if_false]
      have e2 : parseStep U ⟨r, m, ⟨q, n2, v, wd, false⟩, wv⟩ c
          = .ok ((⟨r, m, ⟨q, n2, v, wd, false⟩, wv⟩ : ParseState).write c) := by
        simp only [parseStep, hsym1, if_true, he2, if_false]
      rw [e1, e2]
      exact hwrite c (fun h => absurd h hnc)
  · have hsym1 : ¬ (c = '+' ∨ c = '-' ∨ c = '~' ∨ c = '?') := by
      simpa [qualifierSymbols] using hsym
    by_cases hcol : c = ':'
    · subst hcol
      by_cases hn1 : n1 = ""
      · have hn2 := hemp.1 hn1
        left
        exact ⟨Error.ErrSyntax, by simp [parseStep, hn1], by simp [parseStep, hn2]⟩
      · have hn2 : n2 ≠ "" := fun h => hn1 (hemp.2 h)
        right; right
        cases wd with
        | true =>
          exact ⟨q, n1, n2, v, false, .Value, by simp [parseStep, hn1],
            by simp [parseStep, hn2], hlow, hemp, fun _ => rfl⟩
        | false =>
          have e1 : parseStep U ⟨r, m, ⟨q, n1, v, false, false⟩, wv⟩ ':'
              = .ok ((⟨r, m, ⟨q, n1, v, false, false⟩, wv⟩ : ParseState).write ':') := by
            simp [parseStep, hn1]
          have e2 : parseStep U ⟨r, m, ⟨q, n2, v, false, false⟩, wv⟩ ':'
              = .ok ((⟨r, m, ⟨q, n2, v, false, false⟩, wv⟩ : ParseState).write ':') := by
            simp [parseStep, hn2]
          rw [e1, e2]
          obtain ⟨q1, k1, k2, v1, wd1, wv1, h1, h2, h3, h4, h5⟩ := hwrite ':' (fun _ => rfl)
          exact ⟨q1, k1, k2, v1, wd1, wv1, h1, h2, h3, h4, fun _ => h5 (Or.inl rfl)⟩
    · by_cases heq : c = '='
      · subst heq
        have hwd : wd = false := hc rfl
        subst hwd
        by_cases hn1 : n1 = ""
        · have hn2 := hemp.1 hn1
          left
          exact ⟨Error.ErrSyntax, by simp [parseStep, hn1], by simp [parseStep, hn2]⟩
        · have hn2 : n2 ≠ "" := fun h => hn1 (hemp.2 h)
          right; right
          have e1 : parseStep U ⟨r, m, ⟨q, n1, v, false, false⟩, wv⟩ '='
              = .ok ((⟨r, m, ⟨q, n1, v, false, false⟩, wv⟩ : ParseState).write '=') := by
            simp [parseStep, hn1]
          have e2 : parseStep U ⟨r, m, ⟨q, n2, v, false, false⟩, wv⟩ '='
              = .ok ((⟨r, m, ⟨q, n2, v, false, false⟩, wv⟩ : ParseState).write '=') := by
            simp [parseStep, hn2]
          rw [e1, e2]
          exact hwrite '=' (fun h => absurd h (by decide))
      · by_cases hsp : spaceChar c
        · rw [parseStep_space U _ c hsp, parseStep_space U _ c hsp]
          by_cases hskip : wd = true ∨ v = ""
          · right; right
            exact ⟨q, n1, n2, v, wd, wv, by simp [parseStep, hskip], by simp [parseStep, hskip],
              hlow, hemp, fun h => h.elim id (fun h => absurd h hcol)⟩
          · have hev := EvaluateMechanism_lower U q n1 n2 v wd false hlow
            have e1 : parseStep U ⟨r, m, ⟨q, n1, v, wd, false⟩, wv⟩ ' '
                = match EvaluateMechanism U ⟨q, n1, v, wd, false⟩ with
                  | (_, some err) => .error err
                  | (mechanism, none) => .ok (ParseState.fresh (r ++ [mechanism]) m) := by
              simp only [parseStep, Char.reduceEq, or_self, if_false, true_or, if_true, hskip,
                ParseState.emit, Bool.false_eq_true]
              generalize EvaluateMechanism U ⟨q, n1, v, wd, false⟩ = res
              obtain ⟨mm, _ | e⟩ := res <;> rfl
            have e2 : parseStep U ⟨r, m, ⟨q, n2, v, wd, false⟩, wv⟩ ' '
                = match EvaluateMechanism U ⟨q, n2, v, wd, false⟩ with
                  | (_, some err) => .error err
                  | (mechanism, none) => .ok (ParseState.fresh (r ++ [mechanism]) m) := by
              simp only [parseStep, Char.reduceEq, or_self, if_false, true_or, if_true, hskip,
                ParseState.emit, Bool.false_eq_true]
              generalize EvaluateMechanism U ⟨q, n2, v, wd, false⟩ = res
              obtain ⟨mm, _ | e⟩ := res <;> rfl
            rw [e1, e2, hev]
            generalize EvaluateMechanism U ⟨q, n2, v, wd, false⟩ = res
            obtain ⟨mm, _ | e⟩ := res
            · right; left
              exact ⟨_, rfl, rfl⟩
            · left
              exact ⟨e, rfl, rfl⟩
        · have hplain : plainChar c := by
            simp only [spaceChar, not_or] at hsp
            simp only [plainChar, List.mem_cons, List.mem_singleton, List.not_mem_nil,
              or_false, not_or]
            simp only [not_or] at hsym1
            exact ⟨hsym1.1, hsym1.2.1, hsym1.2.2.1, hsym1.2.2.2, hcol, heq, hsp.1, hsp.2.1,
              hsp.2.2⟩
          right; right
          rw [parseStep_plain U _ c hplain, parseStep_plain U _ c hplain]
          exact hwrite c (fun h => absurd h hcol)

theorem parseFinish_case (U : Char → Char) (r m : List Mechanism) (q : Qualifier)
    (n1 n2 v : String) (wd : Bool) (wv : WriteTarget)
    (hlow : ToLower U n1 = ToLower U n2) (hemp : n1 = "" ↔ n2 = "") :
    parseFinish U ⟨r, m, ⟨q, n1, v, wd, false⟩, wv⟩
      = parseFinish U ⟨r, m, ⟨q, n2, v, wd, false⟩, wv⟩ := by
  by_cases hn1 : n1 = ""
  · have hn2 := hemp.1 hn1
    simp [parseFinish, hn1, hn2]
  · have hn2 : n2 ≠ "" := fun h => hn1 (hemp.2 h)
    simp only [parseFinish, hn1, hn2, ne_eq, not_false_eq_true, if_true, ParseState.emit,
      Bool.false_eq_true, if_false, EvaluateMechanism_lower U q n1 n2 v wd false hlow]
    generalize EvaluateMechanism U ⟨q, n2, v, wd, false⟩ = res
    obtain ⟨mm, _ | e⟩ := res <;> rfl

/-- After the separator of an ordinary token, two scans that differ in the
letter case of its kind name give the same result on every text. -/
theorem parseFrom_case_value (U : Char → Char) (r m : List Mechanism) :
    ∀ (w : List Char) (q : Qualifier) (n1 n2 v : String) (wv : WriteTarget),
      ToLower U n1 = ToLower U n2 → (n1 = "" ↔ n2 = "") →
      parseFrom U w ⟨r, m, ⟨q, n1, v, false, false⟩, wv⟩
        = parseFrom U w ⟨r, m, ⟨q, n2, v, false, false⟩, wv⟩
  | [], q, n1, n2, v, wv, hlow, hemp => parseFinish_case U r m q n1 n2 v false wv hlow hemp
  | c :: w, q, n1, n2, v, wv, hlow, hemp => by
    rw [parseFrom_cons, parseFrom_cons]
    rcases parseStep_case U r m q n1 n2 v false wv c hlow hemp (fun _ => rfl) with
      ⟨err, h1, h2⟩ | ⟨st, h1, h2⟩ | ⟨q1, k1, k2, v1, wd1, wv1, h1, h2, hl, he, hwd⟩
    · rw [h1, h2]
    · rw [h1, h2]
    · rw [h1, h2]
      have hf : wd1 = false := hwd (Or.inl rfl)
      subst hf
      exact parseFrom_case_value U r m w q1 k1 k2 v1 wv1 hl he

/-- While the kind name of an ordinary token is written, two scans that
differ in its letter case give the same result, provided that the separator
that ends the name is `:` (or the text ends first). -/
theorem parseFrom_case_name (U : Char → Char) (r m : List Mechanism) (w2 : List Char)
    (hw2 : w2 = [] ∨ ∃ w3, w2 = ':' :: w3) :
    ∀ (w1 : List Char) (q : Qualifier) (n1 n2 v : String) (wd : Bool) (wv : WriteTarget),
      (∀ c ∈ w1, c ≠ ':' ∧ c ≠ '=') → ToLower U n1 = ToLower U n2 → (n1 = "" ↔ n2 = "") →
      parseFrom U (w1 ++ w2) ⟨r, m, ⟨q, n1, v, wd, false⟩, wv⟩
        = parseFrom U (w1 ++ w2) ⟨r, m, ⟨q, n2, v, wd, false⟩, wv⟩
  | [], q, n1, n2, v, wd, wv, _, hlow, hemp => by
    rcases hw2 with rfl | ⟨w3, rfl⟩
    · exact parseFinish_case U r m q n1 n2 v wd wv hlow hemp
    · rw [List.nil_append, parseFrom_cons, parseFrom_cons]
      rcases parseStep_case U r m q n1 n2 v wd wv ':' hlow hemp
          (fun h => absurd h (by decide)) with
        ⟨err, h1, h2⟩ | ⟨st, h1, h2⟩ | ⟨q1, k1, k2, v1, wd1, wv1, h1, h2, hl, he, hwd⟩
      · rw [h1, h2]
      · rw [h1, h2]
      · rw [h1, h2]
        have hf : wd1 = false := hwd (Or.inr rfl)
        subst hf
        exact parseFrom_case_value U r m w3 q1 k1 k2 v1 wv1 hl he
  | c :: w1, q, n1, n2, v, wd, wv, hw1, hlow, hemp => by
    have hc := hw1 c (List.mem_cons_self _ _)
    rw [List.cons_append, parseFrom_cons, parseFrom_cons]
    rcases parseStep_case U r m q n1 n2 v wd wv c hlow hemp (fun h => absurd h hc.2) with
      ⟨err, h1, h2⟩ | ⟨st, h1, h2⟩ | ⟨q1, k1, k2, v1, wd1, wv1, h1, h2, hl, he, _⟩
    · rw [h1, h2]
    · rw [h1, h2]
    · rw [h1, h2]
      exact parseFrom_case_name U r m w2 hw2 w1 q1 k1 k2 v1 wd1 wv1
        (fun x hx => hw1 x (List.mem_cons_of_mem _ hx)) hl he

/-- Plain runes are appended to the kind name whenever the scan writes it. -/
theorem parseLoop_plain (U : Char → Char) (r m : List Mechanism) (q : Qualifier) (v : String)
    (wd md : Bool) (rest : List Char) :
    ∀ (cs : List Char) (name : String), (∀ c ∈ cs, plainChar c) →
      parseLoop U (cs ++ rest) ⟨r, m, ⟨q, name, v, wd, md⟩, .Mechanism⟩
        = parseLoop U rest ⟨r, m, ⟨q, ⟨name.data ++ cs⟩, v, wd, md⟩, .Mechanism⟩
  | [], name, _ => by simp
  | c :: cs, name, h => by
    have hc : plainChar c := h c (List.mem_cons_self _ _)
    have ih := parseLoop_plain U r m q v wd md rest cs (name.push c)
      (fun x hx => h x (List.mem_cons_of_mem _ hx))
    rw [List.cons_append, parseLoop_cons, parseStep_plain U _ c hc]
    simp only [ParseState.write]
    rw [ih]
    simp [String.data_push]

/-- C13. Mechanism names are case-insensitive: `EvaluateMechanism` gives the
same result for two kind names that are equal after lower-casing, with the same
qualifier and value; hence `ParseSPF` gives the same result for two record
texts that differ only in the letter case of a stretch of the kind name of an
ordinary token: a stretch of plain runes that the scan meets while it writes a
kind name, in a token whose separator, if it has one, is `:`. -/
theorem mechanism_name_case_insensitive (U : Char → Char) :
    (∀ (n1 n2 : String) (q : Qualifier) (v : String) (wd md : Bool),
      ToLower U n1 = ToLower U n2 →
      EvaluateMechanism U ⟨q, n1, v, wd, md⟩ = EvaluateMechanism U ⟨q, n2, v, wd, md⟩) ∧
    (∀ u n1 n2 w1 w2 : String, writingName U u = true →
      (∀ c ∈ n1.data, plainChar c) → (∀ c ∈ n2.data, plainChar c) →
      ToLower U n1 = ToLower U n2 →
      (∀ c ∈ w1.data, c ≠ ':' ∧ c ≠ '=') → (w2 = "" ∨ w2.data.head? = some ':') →
      ParseSPF U ("v=spf1" ++ u ++ n1 ++ w1 ++ w2)
        = ParseSPF U ("v=spf1" ++ u ++ n2 ++ w1 ++ w2)) := by
  constructor
  · intro n1 n2 q v wd md hlow
    exact EvaluateMechanism_lower U q n1 n2 v wd md hlow
  · intro u n1 n2 w1 w2 hw hp1 hp2 hlow hw1 hw2
    have d1 : ("v=spf1" ++ u ++ n1 ++ w1 ++ w2).data
        = "v=spf1".data ++ (u.data ++ (n1.data ++ (w1.data ++ w2.data))) := by
      simp [String.data_append]
    have d2 : ("v=spf1" ++ u ++ n2 ++ w1 ++ w2).data
        = "v=spf1".data ++ (u.data ++ (n2.data ++ (w1.data ++ w2.data))) := by
      simp [String.data_append]
    have hw2' : w2.data = [] ∨ ∃ w3, w2.data = ':' :: w3 := by
      rcases hw2 with rfl | h
      · exact Or.inl rfl
      · right
        cases hd : w2.data with
        | nil => rw [hd] at h; cases h
        | cons c w3 =>
          rw [hd] at h
          simp only [List.head?_cons, Option.some.injEq] at h
          exact ⟨w3, by rw [h]⟩
    have hmap : n1.data.map (toLowerRune U) = n2.data.map (toLowerRune U) :=
      congrArg String.data hlow
    rw [ParseSPF_parseFrom U _ _ d1, ParseSPF_parseFrom U _ _ d2, parseFrom_append,
      parseFrom_append]
    cases hu : parseLoop U u.data (ParseState.fresh [] []) with
    | error err => rfl
    | ok st =>
      simp only []
      have hcons := parseLoop_consistent U _ _ st (fresh_consistent [] []) hu
      have hwd := writingName_ok U u st hw hu
      obtain ⟨r, m, ⟨q, name, v, wd, md⟩, wv⟩ := st
      simp only at hwd
      subst hwd
      have hwv : wv = .Mechanism := hcons.1.2 rfl
      have hmd : md = false := (hcons.2.1 rfl).2
      subst hwv hmd
      unfold parseFrom
      rw [parseLoop_plain U r m q v true false _ n1.data name hp1,
        parseLoop_plain U r m q v true false _ n2.data name hp2]
      have hrel := parseFrom_case_name U r m w2.data hw2' w1.data q
        ⟨name.data ++ n1.data⟩ ⟨name.data ++ n2.data⟩ v true .Mechanism hw1
        (by simp [ToLower, hmap])
        (by
          have hlen : n1.data.length = n2.data.length := by
            have := congrArg List.length hmap
            simpa using this
          constructor
          · intro h
            have h1 : name.data ++ n1.data = [] := congrArg String.data h
            have h2 : name.data = [] ∧ n1.data = [] := by simpa using h1
            have h3 : n2.data = [] := by
              apply List.eq_nil_of_length_eq_zero
              rw [← hlen, h2.2]; rfl
            show String.mk (name.data ++ n2.data) = ""
            rw [h2.1, h3]; rfl
          · intro h
            have h1 : name.data ++ n2.data = [] := congrArg String.data h
            have h2 : name.data = [] ∧ n2.data = [] := by simpa using h1
            have h3 : n1.data = [] := by
              apply List.eq_nil_of_length_eq_zero
              rw [hlen, h2.2]; rfl
            show String.mk (name.data ++ n1.data) = ""
            rw [h2.1, h3]; rfl)
      unfold parseFrom at hrel
      exact hrel

/-- The mixed-case name of the repository's tests against the lower-case
name, as an instance of `mechanism_name_case_insensitive`. -/
theorem mechanism_name_case_insensitive_witness :
    ParseSPF (fun c => c) "v=spf1 InCluDe:spf.voulter.com"
      = ParseSPF (fun c => c) "v=spf1 include:spf.voulter.com" :=
  (mechanism_name_case_insensitive (fun c => c)).2 " " "InCluDe" "include" ""
    ":spf.voulter.com" (by decide) (by decide) (by decide) (by decide) (by decide)
    (Or.inr (by decide))

/-! ## The qualifier of a directive -/

theorem char_classes (c : Char) :
    spaceChar c ∨ c ∈ qualifierSymbols ∨ c = ':' ∨ c = '=' ∨ plainChar c := by
  by_cases h1 : spaceChar c
  · exact Or.inl h1
  by_cases h2 : c ∈ qualifierSymbols
  · exact Or.inr (Or.inl h2)
  by_cases h3 : c = ':'
  · exact Or.inr (Or.inr (Or.inl h3))
  by_cases h4 : c = '='
  · exact Or.inr (Or.inr (Or.inr (Or.inl h4)))
  refine Or.inr (Or.inr (Or.inr (Or.inr ?_)))
  simp only [spaceChar, not_or] at h1
  simp only [qualifierSymbols, List.mem_cons, List.mem_singleton, List.not_mem_nil, or_false,
    not_or] at h2
  simp only [plainChar, List.mem_cons, List.mem_singleton, List.not_mem_nil, or_false, not_or]
  exact ⟨h2.1, h2.2.1, h2.2.2.1, h2.2.2.2, h3, h4, h1.1, h1.2.1, h1.2.2⟩

theorem notSpace_of_not_spaceChar (c : Char) (h : ¬ spaceChar c) : notSpace c := by
  simp only [spaceChar, not_or] at h
  exact h

theorem plainChar_facts (c : Char) (h : plainChar c) :
    ¬ spaceChar c ∧ c ∉ qualifierSymbols ∧ c ≠ ':' ∧ c ≠ '=' := by
  simp only [plainChar, List.mem_cons, List.mem_singleton, List.not_mem_nil, or_false,
    not_or] at h
  obtain ⟨h1, h2, h3, h4, h5, h6, h7, h8, h9⟩ := h
  refine ⟨?_, ?_, h5, h6⟩
  · simp [spaceChar, h7, h8, h9]
  · simp [qualifierSymbols, h1, h2, h3, h4]

theorem symbol_facts (c : Char) (h : c ∈ qualifierSymbols) :
    ¬ spaceChar c ∧ c ≠ ':' ∧ c ≠ '=' := by
  simp only [qualifierSymbols, List.mem_cons, List.mem_singleton, List.not_mem_nil,
    or_false] at h
  rcases h with rfl | rfl | rfl | rfl <;> decide

theorem EvaluateMechanism_kind (U : Char → Char) (ctx : MechanismParseContext)
    (mm : Mechanism) (h : EvaluateMechanism U ctx = (mm, none)) :
    mm.Mechanism ≠ RedirectMechanism := by
  unfold EvaluateMechanism at h
  simp only at h
  split_ifs at h <;> simp only [Prod.mk.injEq, and_true, reduceCtorEq, and_false] at h <;>
    rw [← h] <;> simp [AllMechanism, IPv4Mechanism, IPv6Mechanism, AMechanism, MXMechanism,
      PTRMechanism, ExistsMechanism, IncludeMechanism, RedirectMechanism]

theorem EvaluateModifier_kind (ctx : MechanismParseContext) (mm : Mechanism)
    (h : EvaluateModifier ctx = (mm, none)) : mm.Mechanism = RedirectMechanism := by
  unfold EvaluateModifier at h
  simp only at h
  split_ifs at h <;> simp only [Prod.mk.injEq, and_true, reduceCtorEq, and_false] at h
  rw [← h]

/-- The emission of a token, seen from the reading of the symbols. -/
theorem emit_simRel (U : Char → Char) (r m : List Mechanism) (q : Qualifier) (M V : String)
    (wd md : Bool) (wv : WriteTarget) (st1 : ParseState) (qs : List Qualifier)
    (hq : r.map (fun x => x.Qualifier) = qs)
    (hr : ∀ x ∈ r, x.Mechanism ≠ RedirectMechanism)
    (hm : ∀ x ∈ m, x.Mechanism = RedirectMechanism)
    (h : ParseState.emit U ⟨r, m, ⟨q, M, V, wd, md⟩, wv⟩ = .ok st1) :
    st1.spfRecord.map (fun x => x.Qualifier) = (if md then qs else qs ++ [q]) ∧
      (∀ x ∈ st1.spfRecord, x.Mechanism ≠ RedirectMechanism) ∧
      (∀ x ∈ st1.spfModifiers, x.Mechanism = RedirectMechanism) := by
  unfold ParseState.emit at h
  cases md with
  | true =>
    simp only [if_true] at h
    split at h
    · cases h
    · rename_i mm hev
      cases h
      refine ⟨by simpa using hq, hr, ?_⟩
      intro x hx
      rcases List.mem_append.1 hx with hx | hx
      · exact hm x hx
      · rw [List.mem_singleton.1 hx]
        exact EvaluateModifier_kind _ mm hev
  | false =>
    simp only [Bool.false_eq_true, if_false] at h
    split at h
    · cases h
    · rename_i mm hev
      cases h
      refine ⟨?_, ?_, hm⟩
      · have := EvaluateMechanism_qualifier U _ mm hev
        simp only at this
        simp [hq, this]
      · intro x hx
        rcases List.mem_append.1 hx with hx | hx
        · exact hr x hx
        · rw [List.mem_singleton.1 hx]
          exact EvaluateMechanism_kind U _ mm hev

/-- One step of the scan of `ParseSPF`, seen from the reading of the symbols. -/
theorem parseStep_simRel (U : Char → Char) (st st1 : ParseState) (a : SymbolScan) (c : Char)
    (hrel : simRel st a) (h : parseStep U st c = .ok st1) :
    ∃ a1, a.step c = some a1 ∧ simRel st1 a1 := by
  obtain ⟨r, m, ⟨q, M, V, wd, md⟩, wv⟩ := st
  obtain ⟨stage, aq, amd, qs⟩ := a
  obtain ⟨hq, hqual, hmod, hr, hm, hstage⟩ := hrel
  simp only at hq hqual hmod hr hm hstage
  subst hqual hmod
  cases stage with
  | gap =>
    obtain ⟨rfl, rfl, rfl, rfl, rfl⟩ := hstage
    rcases char_classes c with hc | hc | hc | hc | hc
    · rw [parseStep_space_gap U r m q c hc] at h
      cases h
      exact ⟨⟨.gap, q, false, qs⟩, by simp [SymbolScan.step, hc],
        hq, rfl, rfl, hr, hm, rfl, rfl, rfl, rfl, rfl⟩
    · rw [parseStep_symbol_fresh U r m q c hc] at h
      cases h
      exact ⟨⟨.gap, qualifierOfSymbol c, false, qs⟩,
        by simp [SymbolScan.step, hc, (symbol_facts c hc).1],
        hq, rfl, rfl, hr, hm, rfl, rfl, rfl, rfl, rfl⟩
    · subst hc
      simp [parseStep] at h
    · subst hc
      simp [parseStep] at h
    · rw [parseStep_plain U _ c hc] at h
      cases h
      obtain ⟨h1, h2, h3, h4⟩ := plainChar_facts c hc
      exact ⟨⟨.name, q, false, qs⟩, by simp [SymbolScan.step, h1, h2, h3, h4],
        hq, rfl, rfl, hr, hm, rfl, push_ne_empty _ _, rfl, rfl, rfl⟩
  | name =>
    obtain ⟨rfl, hM, rfl, rfl, rfl⟩ := hstage
    by_cases h1 : c = ':'
    · subst h1
      rw [parseStep_colon U r m q M hM] at h
      cases h
      exact ⟨⟨.separator, q, false, qs⟩, by simp [SymbolScan.step],
        hq, rfl, rfl, hr, hm, rfl, hM, rfl, rfl⟩
    by_cases h2 : c = '='
    · subst h2
      rw [parseStep_equals U r m q M hM] at h
      cases h
      exact ⟨⟨.separator, q, true, qs⟩, by simp [SymbolScan.step],
        hq, rfl, rfl, hr, hm, rfl, hM, rfl, rfl⟩
    by_cases h3 : spaceChar c
    · rw [parseStep_space U _ c h3] at h
      simp only [parseStep, Char.reduceEq, or_self, if_false, true_or, if_true] at h
      cases h
      exact ⟨⟨.name, q, false, qs⟩, by simp [SymbolScan.step, h1, h2],
        hq, rfl, rfl, hr, hm, rfl, hM, rfl, rfl, rfl⟩
    · rw [parseStep_nameTail U r m q M c hM ⟨h1, h2, notSpace_of_not_spaceChar c h3⟩] at h
      cases h
      exact ⟨⟨.name, q, false, qs⟩, by simp [SymbolScan.step, h1, h2],
        hq, rfl, rfl, hr, hm, rfl, push_ne_empty _ _, rfl, rfl, rfl⟩
  | separator =>
    obtain ⟨rfl, hM, rfl, rfl⟩ := hstage
    by_cases h3 : spaceChar c
    · rw [parseStep_space U _ c h3, parseStep_space_empty_value U _ rfl] at h
      cases h
      exact ⟨⟨.separator, q, md, qs⟩, by simp [SymbolScan.step, h3],
        hq, rfl, rfl, hr, hm, rfl, hM, rfl, rfl⟩
    · rw [parseStep_value U r m q M "" md c hM (notSpace_of_not_spaceChar c h3)] at h
      cases h
      exact ⟨⟨.value, q, md, qs⟩, by simp [SymbolScan.step, h3],
        hq, rfl, rfl, hr, hm, rfl, hM, push_ne_empty _ _, rfl⟩
  | value =>
    obtain ⟨rfl, hM, hV, rfl⟩ := hstage
    by_cases h3 : spaceChar c
    · rw [parseStep_space U _ c h3] at h
      simp only [parseStep, Char.reduceEq, or_self, if_false, true_or, if_true,
        Bool.false_eq_true, hV, false_or] at h
      split at h
      · cases h
      · rename_i st2 hemit
        cases h
        obtain ⟨e1, e2, e3⟩ := emit_simRel U r m q M V false md .Value st2 qs hq hr hm hemit
        refine ⟨(⟨.value, q, md, qs⟩ : SymbolScan).endToken, by simp [SymbolScan.step, h3], ?_⟩
        exact ⟨e1, rfl, rfl, e2, e3, rfl, rfl, rfl, rfl, rfl⟩
    · rw [parseStep_value U r m q M V md c hM (notSpace_of_not_spaceChar c h3)] at h
      cases h
      exact ⟨⟨.value, q, md, qs⟩, by simp [SymbolScan.step, h3],
        hq, rfl, rfl, hr, hm, rfl, hM, push_ne_empty _ _, rfl⟩

theorem parseLoop_simRel (U : Char → Char) :
    ∀ (cs : List Char) (st st1 : ParseState) (a : SymbolScan), simRel st a →
      parseLoop U cs st = .ok st1 → ∃ a1, SymbolScan.run cs a = some a1 ∧ simRel st1 a1
  | [], st, st1, a, hrel, h => by
    cases h
    exact ⟨a, rfl, hrel⟩
  | c :: cs, st, st1, a, hrel, h => by
    rw [parseLoop_cons] at h
    split at h
    · cases h
    · rename_i st2 hstep
      obtain ⟨a2, ha2, hrel2⟩ := parseStep_simRel U st st2 a c hrel hstep
      obtain ⟨a1, ha1, hrel1⟩ := parseLoop_simRel U cs st2 st1 a2 hrel2 h
      exact ⟨a1, by rw [SymbolScan.run, ha2]; exact ha1, hrel1⟩

theorem filter_ordinary (r m : List Mechanism)
    (hr : ∀ x ∈ r, x.Mechanism ≠ RedirectMechanism)
    (hm : ∀ x ∈ m, x.Mechanism = RedirectMechanism) :
    (r ++ m).filter (fun x => decide (x.Mechanism ≠ RedirectMechanism)) = r := by
  rw [List.filter_append]
  have h1 : r.filter (fun x => decide (x.Mechanism ≠ RedirectMechanism)) = r :=
    List.filter_eq_self.2 (fun x hx => by simpa using hr x hx)
  have h2 : m.filter (fun x => decide (x.Mechanism ≠ RedirectMechanism)) = [] :=
    List.filter_eq_nil_iff.2 (fun x hx => by simpa using hm x hx)
  rw [h1, h2, List.append_nil]

/-- The end of input, seen from the reading of the symbols. -/
theorem parseFinish_simRel (U : Char → Char) (st : ParseState) (a : SymbolScan)
    (record : Record) (hrel : simRel st a) (h : parseFinish U st = (record, none)) :
    (record.filter (fun x => decide (x.Mechanism ≠ RedirectMechanism))).map
        (fun x => x.Qualifier) = a.finish := by
  obtain ⟨r, m, ⟨q, M, V, wd, md⟩, wv⟩ := st
  obtain ⟨stage, aq, amd, qs⟩ := a
  obtain ⟨hq, hqual, hmod, hr, hm, hstage⟩ := hrel
  simp only at hq hqual hmod hr hm hstage
  subst hqual hmod
  have hemitted : M ≠ "" →
      (record.filter (fun x => decide (x.Mechanism ≠ RedirectMechanism))).map
        (fun x => x.Qualifier) = (if md then qs else qs ++ [q]) := by
    intro hM
    simp only [parseFinish, hM, ne_eq, not_false_eq_true, if_true] at h
    split at h
    · simp at h
    · rename_i st2 hemit
      simp only [Prod.mk.injEq, and_true] at h
      obtain ⟨e1, e2, e3⟩ := emit_simRel U r m q M V wd md wv st2 qs hq hr hm hemit
      rw [← h, filter_ordinary _ _ e2 e3, e1]
  cases stage with
  | gap =>
    obtain ⟨rfl, rfl, rfl, rfl, rfl⟩ := hstage
    simp only [parseFinish, ne_eq, not_true_eq_false, if_false, Prod.mk.injEq, and_true] at h
    rw [← h, filter_ordinary r m hr hm, hq]
    rfl
  | name =>
    obtain ⟨rfl, hM, rfl, rfl, rfl⟩ := hstage
    exact hemitted hM
  | separator =>
    obtain ⟨rfl, hM, rfl, rfl⟩ := hstage
    exact hemitted hM
  | value =>
    obtain ⟨rfl, hM, hV, rfl⟩ := hstage
    exact hemitted hM

theorem SymbolScan_run_gap (stage_q : List Qualifier) (md : Bool) :
    ∀ (gap : List Char) (q : Qualifier), (∀ c ∈ gap, gapChar c) →
      SymbolScan.run gap ⟨.gap, q, md, stage_q⟩
        = some ⟨.gap, lastSymbolQualifier q gap, md, stage_q⟩
  | [], q, _ => rfl
  | c :: gap, q, h => by
    have hgap : ∀ x ∈ gap, gapChar x := fun x hx => h x (List.mem_cons_of_mem _ hx)
    rcases h c (List.mem_cons_self _ _) with hc | hc
    · rw [SymbolScan.run, lastSymbolQualifier_cons_other q c gap (spaceChar_not_symbol c hc)]
      simp only [SymbolScan.step, hc, if_true]
      exact SymbolScan_run_gap stage_q md gap q hgap
    · rw [SymbolScan.run, lastSymbolQualifier_cons_symbol q c gap hc]
      simp only [SymbolScan.step, (symbol_facts c hc).1, if_false, hc, if_true]
      exact SymbolScan_run_gap stage_q md gap (qualifierOfSymbol c) hgap

/-- C11. Qualifier of a directive: in every successful parse, the qualifiers
of the ordinary directives of the record, in order, are the ones that the
reading of the symbols finds token by token: for each ordinary token the
mapping of the last qualifier symbol of the gap between the end of the previous
token (or the version marker) and the first rune of its kind name, and Pass
when the gap has no symbol, since every gap starts anew with Pass. -/
theorem directive_qualifier_from_gap (U : Char → Char) (spf : String) (record : Record)
    (h : ParseSPF U spf = (record, none)) :
    symbolQualifiers (spf.data.drop 6)
        = some ((record.filter (fun x => decide (x.Mechanism ≠ RedirectMechanism))).map
            (fun x => x.Qualifier)) ∧
      (∀ (a : SymbolScan), a.endToken.stage = .gap ∧ a.endToken.qualifier = PassQualifier) ∧
      ∀ (gap : List Char) (q : Qualifier) (md : Bool) (qs : List Qualifier),
        (∀ c ∈ gap, gapChar c) →
        SymbolScan.run gap ⟨.gap, q, md, qs⟩
          = some ⟨.gap, lastSymbolQualifier q gap, md, qs⟩ := by
  refine ⟨?_, fun a => ⟨rfl, rfl⟩, fun gap q md qs hgap => SymbolScan_run_gap qs md gap q hgap⟩
  unfold ParseSPF at h
  split_ifs at h
  · split at h
    · simp at h
    · rename_i st hloop
      have hstart : simRel (ParseState.fresh [] []) SymbolScan.start := by
        simp [simRel, ParseState.fresh, SymbolScan.start]
      obtain ⟨a1, ha1, hrel1⟩ := parseLoop_simRel U _ _ st _ hstart hloop
      rw [symbolQualifiers, ha1, Option.map_some', parseFinish_simRel U st a1 record hrel1 h]
  · simp at h

/-- The qualifier test of the repository, as an instance of
`directive_qualifier_from_gap`. -/
theorem directive_qualifier_from_gap_witness :
    symbolQualifiers
        " + ip4:127.0.0.1 - ip4:192.168.178.0 ~ip4:1.1.1.1 ?ip4:8.8.8.8 redirect=x".data
      = some [PassQualifier, FailQualifier, SoftFailQualifier, NeutralQualifier] :=
  (directive_qualifier_from_gap (fun c => c)
    "v=spf1 + ip4:127.0.0.1 - ip4:192.168.178.0 ~ip4:1.1.1.1 ?ip4:8.8.8.8 redirect=x"
    [⟨PassQualifier, IPv4Mechanism, "127.0.0.1"⟩, ⟨FailQualifier, IPv4Mechanism, "192.168.178.0"⟩,
      ⟨SoftFailQualifier, IPv4Mechanism, "1.1.1.1"⟩, ⟨NeutralQualifier, IPv4Mechanism, "8.8.8.8"⟩,
      ⟨PassQualifier, RedirectMechanism, "x"⟩]
    (by decide)).1

/-! ## Errors of the parser -/

/-- C23. `ParseSPF` never fails with `ErrInvalidQualifier`: on each of the
four runes with which the scan calls it, `EvaluateQualifier` returns a
qualifier and no error, and the only errors that `ParseSPF` returns are
`nospf`, `ErrSyntax`, `ErrInvalidMechanism` and `ErrInvalidModifier`. -/
theorem ParseSPF_errors (U : Char → Char) :
    (∀ c ∈ qualifierSymbols, EvaluateQualifier c = (qualifierOfSymbol c, none)) ∧
    (∀ (st : ParseState) (c : Char) (err : Error), parseStep U st c = .error err →
      err ≠ Error.ErrInvalidQualifier) ∧
    (∀ (spf : String) (record : Record) (err : Error), ParseSPF U spf = (record, some err) →
      (err = Error.nospf ∨ err = Error.ErrSyntax ∨ err = Error.ErrInvalidMechanism ∨
        err = Error.ErrInvalidModifier) ∧ err ≠ Error.ErrInvalidQualifier) := by
  refine ⟨?_, ?_, ?_⟩
  · intro c hc
    simp only [qualifierSymbols, List.mem_cons, List.mem_singleton, List.not_mem_nil,
      or_false] at hc
    rcases hc with rfl | rfl | rfl | rfl <;> rfl
  · intro st c err h
    rcases parseStep_error U st c err h with rfl | rfl | rfl <;> simp
  · intro spf record err h
    have hcases : err = Error.nospf ∨ err = Error.ErrSyntax ∨
        err = Error.ErrInvalidMechanism ∨ err = Error.ErrInvalidModifier := by
      by_cases hspf : IsSPF spf = true
      · exact Or.inr (ParseSPF_error_of_marker U spf record err hspf h)
      · left
        have hf : IsSPF spf = false := by simpa using hspf
        simp only [ParseSPF, hf, Bool.false_eq_true, not_false_eq_true, if_true, Prod.mk.injEq,
          Option.some.injEq] at h
        exact h.2.symm
    refine ⟨hcases, ?_⟩
    rcases hcases with rfl | rfl | rfl | rfl <;> simp

/-- A text without the version marker, an empty kind name, an unknown
mechanism and an unknown modifier: the four errors, as instances of
`ParseSPF_errors`. -/
theorem ParseSPF_errors_witness :
    (ParseSPF (fun c => c) "spf" = ([], some Error.nospf) ∧
        ParseSPF (fun c => c) "v=spf1 -:x" = ([], some Error.ErrSyntax) ∧
        ParseSPF (fun c => c) "v=spf1 bogus:x" = ([], some Error.ErrInvalidMechanism) ∧
        ParseSPF (fun c => c) "v=spf1 bogus=x" = ([], some Error.ErrInvalidModifier)) ∧
      Error.ErrSyntax ≠ Error.ErrInvalidQualifier :=
  ⟨by decide,
    ((ParseSPF_errors (fun c => c)).2.2 "v=spf1 -:x" [] Error.ErrSyntax (by decide)).2⟩

/-! ## Empty values -/

theorem EvaluateMechanism_value (U : Char → Char) (ctx : MechanismParseContext)
    (mm : Mechanism) (h : EvaluateMechanism U ctx = (mm, none)) : mm.Value = ctx.Value := by
  unfold EvaluateMechanism at h
  simp only at h
  split_ifs at h <;> simp only [Prod.mk.injEq, and_true, reduceCtorEq, and_false] at h <;>
    rw [← h]

theorem EvaluateModifier_value (ctx : MechanismParseContext) (mm : Mechanism)
    (h : EvaluateModifier ctx = (mm, none)) : mm.Value = ctx.Value := by
  unfold EvaluateModifier at h
  simp only at h
  split_ifs at h <;> simp only [Prod.mk.injEq, and_true, reduceCtorEq, and_false] at h
  rw [← h]

/-- What an emission adds: one directive with the current value, at the end
of the directives or at the end of the modifiers. -/
theorem emit_shape (U : Char → Char) (st st1 : ParseState) (h : st.emit U = .ok st1) :
    ∃ mm : Mechanism, mm.Value = st.parseContext.Value ∧
      ((st1.spfRecord = st.spfRecord ++ [mm] ∧ st1.spfModifiers = st.spfModifiers ∧
          mm.Mechanism ≠ RedirectMechanism) ∨
        (st1.spfRecord = st.spfRecord ∧ st1.spfModifiers = st.spfModifiers ++ [mm] ∧
          mm.Mechanism = RedirectMechanism)) := by
  unfold ParseState.emit at h
  split_ifs at h
  · split at h
    · cases h
    · rename_i mm hev
      cases h
      exact ⟨mm, EvaluateModifier_value _ mm hev,
        Or.inr ⟨rfl, rfl, EvaluateModifier_kind _ mm hev⟩⟩
  · split at h
    · cases h
    · rename_i mm hev
      cases h
      exact ⟨mm, EvaluateMechanism_value U _ mm hev,
        Or.inl ⟨rfl, rfl, EvaluateMechanism_kind U _ mm hev⟩⟩

/-- The directives emitted so far are sorted into ordinary ones and redirects,
and all of them have a value. -/
theorem parseStep_valued (U : Char → Char) (st st1 : ParseState) (c : Char)
    (hst : (∀ x ∈ st.spfRecord, x.Mechanism ≠ RedirectMechanism ∧ x.Value ≠ "") ∧
      ∀ x ∈ st.spfModifiers, x.Mechanism = RedirectMechanism ∧ x.Value ≠ "")
    (h : parseStep U st c = .ok st1) :
    (∀ x ∈ st1.spfRecord, x.Mechanism ≠ RedirectMechanism ∧ x.Value ≠ "") ∧
      ∀ x ∈ st1.spfModifiers, x.Mechanism = RedirectMechanism ∧ x.Value ≠ "" := by
  have hwrite : ∀ x : Char, (st.write x).spfRecord = st.spfRecord ∧
      (st.write x).spfModifiers = st.spfModifiers := by
    intro x
    unfold ParseState.write
    split <;> exact ⟨rfl, rfl⟩
  unfold parseStep at h
  split_ifs at h with h1 h2 h3 h4 h5 h6 h7 h8 h9
  all_goals try (cases h; first | (rw [(hwrite c).1, (hwrite c).2]; exact hst) | exact hst)
  · split at h
    · cases h
    · cases h
      exact hst
  · split at h
    · cases h
    · rename_i st2 hemit
      cases h
      obtain ⟨mm, hmv, hcase⟩ := emit_shape U st st2 hemit
      have hval : mm.Value ≠ "" := by
        rw [hmv]
        intro hv
        apply ‹¬(st.parseContext.WritingDescriptor = true ∨ st.parseContext.Value = "")›
        exact Or.inr hv
      simp only [ParseState.fresh]
      rcases hcase with ⟨e1, e2, hk⟩ | ⟨e1, e2, hk⟩
      · rw [e1, e2]
        refine ⟨fun x hx => ?_, hst.2⟩
        rcases List.mem_append.1 hx with hx | hx
        · exact hst.1 x hx
        · rw [List.mem_singleton.1 hx]
          exact ⟨hk, hval⟩
      · rw [e1, e2]
        refine ⟨hst.1, fun x hx => ?_⟩
        rcases List.mem_append.1 hx with hx | hx
        · exact hst.2 x hx
        · rw [List.mem_singleton.1 hx]
          exact ⟨hk, hval⟩

theorem parseLoop_valued (U : Char → Char) :
    ∀ (cs : List Char) (st st1 : ParseState),
      ((∀ x ∈ st.spfRecord, x.Mechanism ≠ RedirectMechanism ∧ x.Value ≠ "") ∧
        ∀ x ∈ st.spfModifiers, x.Mechanism = RedirectMechanism ∧ x.Value ≠ "") →
      parseLoop U cs st = .ok st1 →
      (∀ x ∈ st1.spfRecord, x.Mechanism ≠ RedirectMechanism ∧ x.Value ≠ "") ∧
        ∀ x ∈ st1.spfModifiers, x.Mechanism = RedirectMechanism ∧ x.Value ≠ ""
  | [], st, st1, hst, h => by
    cases h
    exact hst
  | c :: cs, st, st1, hst, h => by
    rw [parseLoop_cons] at h
    split at h
    · cases h
    · rename_i st2 hstep
      exact parseLoop_valued U cs st2 st1 (parseStep_valued U st st2 c hst hstep) h

theorem filter_length_le_one {α : Type} (p : α → Bool) (l : List α)
    (h : ∀ x ∈ l.dropLast, p x = false) : (l.filter p).length ≤ 1 := by
  by_cases hl : l = []
  · simp [hl]
  · rw [← List.dropLast_append_getLast hl, List.filter_append,
      List.filter_eq_nil_iff.2 (fun x hx => by simp [h x hx]), List.nil_append]
    exact (List.length_filter_le _ _).trans (by simp)

/-- C21. At most one directive of a record returned by `ParseSPF` has an
empty value. The record is the ordinary directives followed by the redirects,
and a directive with an empty value is the last ordinary directive or the last
redirect, the one that is emitted at the end of input: whatever the scan loop
has emitted before the end of input has a non-empty value. -/
theorem ParseSPF_empty_value (U : Char → Char) :
    (∀ (content : List Char) (st : ParseState),
      parseLoop U content (ParseState.fresh [] []) = .ok st →
      ∀ x ∈ st.spfRecord ++ st.spfModifiers, x.Value ≠ "") ∧
    (∀ (spf : String) (record : Record), ParseSPF U spf = (record, none) →
      (record.filter (fun x => decide (x.Value = ""))).length ≤ 1 ∧
      ∃ ds ms : List Mechanism, record = ds ++ ms ∧
        (∀ x ∈ ds, x.Mechanism ≠ RedirectMechanism) ∧
        (∀ x ∈ ms, x.Mechanism = RedirectMechanism) ∧
        (((∀ x ∈ ds, x.Value ≠ "") ∧ ∀ x ∈ ms.dropLast, x.Value ≠ "") ∨
          ((∀ x ∈ ds.dropLast, x.Value ≠ "") ∧ ∀ x ∈ ms, x.Value ≠ ""))) := by
  have hloop : ∀ (content : List Char) (st : ParseState),
      parseLoop U content (ParseState.fresh [] []) = .ok st →
      (∀ x ∈ st.spfRecord, x.Mechanism ≠ RedirectMechanism ∧ x.Value ≠ "") ∧
        ∀ x ∈ st.spfModifiers, x.Mechanism = RedirectMechanism ∧ x.Value ≠ "" := by
    intro content st h
    exact parseLoop_valued U content _ st
      ⟨by simp [ParseState.fresh], by simp [ParseState.fresh]⟩ h
  constructor
  · intro content st h x hx
    rcases List.mem_append.1 hx with hx | hx
    · exact ((hloop content st h).1 x hx).2
    · exact ((hloop content st h).2 x hx).2
  · intro spf record h
    have hsplit : ∃ ds ms : List Mechanism, record = ds ++ ms ∧
        (∀ x ∈ ds, x.Mechanism ≠ RedirectMechanism) ∧
        (∀ x ∈ ms, x.Mechanism = RedirectMechanism) ∧
        (((∀ x ∈ ds, x.Value ≠ "") ∧ ∀ x ∈ ms.dropLast, x.Value ≠ "") ∨
          ((∀ x ∈ ds.dropLast, x.Value ≠ "") ∧ ∀ x ∈ ms, x.Value ≠ "")) := by
      unfold ParseSPF at h
      split_ifs at h
      · split at h
        · simp at h
        · rename_i st hl
          obtain ⟨hr, hm⟩ := hloop _ st hl
          unfold parseFinish at h
          split_ifs at h
          · split at h
            · simp at h
            · rename_i st2 hemit
              simp only [Prod.mk.injEq, and_true] at h
              obtain ⟨mm, -, hcase⟩ := emit_shape U st st2 hemit
              rcases hcase with ⟨e1, e2, hk⟩ | ⟨e1, e2, hk⟩
              · refine ⟨st2.spfRecord, st2.spfModifiers, h.symm, ?_, ?_, Or.inr ⟨?_, ?_⟩⟩
                · rw [e1]
                  intro x hx
                  rcases List.mem_append.1 hx with hx | hx
                  · exact (hr x hx).1
                  · rw [List.mem_singleton.1 hx]; exact hk
                · rw [e2]; exact fun x hx => (hm x hx).1
                · rw [e1, List.dropLast_concat]; exact fun x hx => (hr x hx).2
                · rw [e2]; exact fun x hx => (hm x hx).2
              · refine ⟨st2.spfRecord, st2.spfModifiers, h.symm, ?_, ?_, Or.inl ⟨?_, ?_⟩⟩
                · rw [e1]; exact fun x hx => (hr x hx).1
                · rw [e2]
                  intro x hx
                  rcases List.mem_append.1 hx with hx | hx
                  · exact (hm x hx).1
                  · rw [List.mem_singleton.1 hx]; exact hk
                · rw [e1]; exact fun x hx => (hr x hx).2
                · rw [e2, List.dropLast_concat]; exact fun x hx => (hm x hx).2
          · simp only [Prod.mk.injEq, and_true] at h
            exact ⟨st.spfRecord, st.spfModifiers, h.symm, fun x hx => (hr x hx).1,
              fun x hx => (hm x hx).1,
              Or.inl ⟨fun x hx => (hr x hx).2, fun x hx => (hm x (List.mem_of_mem_dropLast hx)).2⟩⟩
      · simp at h
    refine ⟨?_, hsplit⟩
    obtain ⟨ds, ms, rfl, -, -, hv⟩ := hsplit
    rw [List.filter_append, List.length_append]
    rcases hv with ⟨h1, h2⟩ | ⟨h1, h2⟩
    · have hds : ds.filter (fun x => decide (x.Value = "")) = [] :=
        List.filter_eq_nil_iff.2 (fun x hx => by simpa using h1 x hx)
      rw [hds]
      simpa using filter_length_le_one (fun x => decide (x.Value = "")) ms
        (fun x hx => by simpa using h2 x hx)
    · have hms : ms.filter (fun x => decide (x.Value = "")) = [] :=
        List.filter_eq_nil_iff.2 (fun x hx => by simpa using h2 x hx)
      rw [hms]
      simpa using filter_length_le_one (fun x => decide (x.Value = "")) ds
        (fun x hx => by simpa using h1 x hx)

/-- A record with a value-less `all` at its end, and a record whose last
token is a redirect without value: at most one empty value each, as instances
of `ParseSPF_empty_value`. -/
theorem ParseSPF_empty_value_witness :
    (((ParseSPF (fun c => c) "v=spf1 a:x -all").1.filter
        (fun x => decide (x.Value = ""))).length ≤ 1) ∧
      (((ParseSPF (fun c => c) "v=spf1 a:x redirect=").1.filter
        (fun x => decide (x.Value = ""))).length ≤ 1) :=
  ⟨((ParseSPF_empty_value (fun c => c)).2 "v=spf1 a:x -all"
      (ParseSPF (fun c => c) "v=spf1 a:x -all").1 (by decide)).1,
    ((ParseSPF_empty_value (fun c => c)).2 "v=spf1 a:x redirect="
      (ParseSPF (fun c => c) "v=spf1 a:x redirect=").1 (by decide)).1⟩

/-! ## Termination under a non-negative budget -/

theorem includeLoop_total (exec : Mechanism → Option (Qualifier × Option Error)) :
    ∀ l : List Mechanism, (∀ x ∈ l, ∃ r, exec x = some r) → ∃ r, includeLoop exec l = some r
  | [], _ => ⟨_, rfl⟩
  | m :: rest, h => by
    obtain ⟨⟨q, e⟩, hr⟩ := h m (List.mem_cons_self _ _)
    rw [includeLoop, hr]
    cases e with
    | some err => exact ⟨_, rfl⟩
    | none =>
      simp only
      split_ifs
      · exact ⟨_, rfl⟩
      · exact ⟨_, rfl⟩
      · exact includeLoop_total exec rest (fun x hx => h x (List.mem_cons_of_mem _ hx))

theorem validateLoop_total (exec : Mechanism → Option (Qualifier × Option Error)) :
    ∀ l : List Mechanism, (∀ x ∈ l, ∃ r, exec x = some r) → ∃ r, validateLoop exec l = some r
  | [], _ => ⟨_, rfl⟩
  | m :: rest, h => by
    obtain ⟨⟨q, e⟩, hr⟩ := h m (List.mem_cons_self _ _)
    rw [validateLoop, hr]
    cases e with
    | some err => exact ⟨_, rfl⟩
    | none =>
      simp only
      split_ifs
      · exact ⟨_, rfl⟩
      · exact validateLoop_total exec rest (fun x hx => h x (List.mem_cons_of_mem _ hx))

theorem includeLoop_mono (exec1 exec2 : Mechanism → Option (Qualifier × Option Error))
    (h : ∀ x r, exec1 x = some r → exec2 x = some r) :
    ∀ (l : List Mechanism) (r : Qualifier × Option Error),
      includeLoop exec1 l = some r → includeLoop exec2 l = some r
  | [], r, hr => hr
  | m :: rest, r, hr => by
    rw [includeLoop] at hr ⊢
    cases h1 : exec1 m with
    | none => rw [h1] at hr; cases hr
    | some r1 =>
      rw [h1] at hr
      rw [h m r1 h1]
      obtain ⟨q, e⟩ := r1
      cases e with
      | some err => exact hr
      | none =>
        simp only at hr ⊢
        split_ifs at hr ⊢
        · exact hr
        · exact hr
        · exact includeLoop_mono exec1 exec2 h rest r hr

theorem validateLoop_mono (exec1 exec2 : Mechanism → Option (Qualifier × Option Error))
    (h : ∀ x r, exec1 x = some r → exec2 x = some r) :
    ∀ (l : List Mechanism) (r : Qualifier × Option Error),
      validateLoop exec1 l = some r → validateLoop exec2 l = some r
  | [], r, hr => hr
  | m :: rest, r, hr => by
    rw [validateLoop] at hr ⊢
    cases h1 : exec1 m with
    | none => rw [h1] at hr; cases hr
    | some r1 =>
      rw [h1] at hr
      rw [h m r1 h1]
      obtain ⟨q, e⟩ := r1
      cases e with
      | some err => exact hr
      | none =>
        simp only at hr ⊢
        split_ifs at hr ⊢
        · exact hr
        · exact validateLoop_mono exec1 exec2 h rest r hr

/-- The mechanisms that fetch no record do not look at the fuel. -/
theorem ExecuteMechanism_other (X : Extern) (ip : IP) (ns : String) (fuel1 fuel2 : Nat)
    (m : Mechanism) (depth : Int)
    (hk : ¬ (m.Mechanism = IncludeMechanism ∨ m.Mechanism = RedirectMechanism)) :
    ExecuteMechanism X ip ns fuel1 m depth = ExecuteMechanism X ip ns fuel2 m depth ∧
      ∃ r, ExecuteMechanism X ip ns fuel1 m depth = some r := by
  refine ⟨?_, ?_⟩
  · unfold ExecuteMechanism
    simp only [hk, if_false]
  · unfold ExecuteMechanism
    simp only [hk, if_false]
    split_ifs <;>
      first
      | exact ⟨_, rfl⟩
      | (split <;> first | exact ⟨_, rfl⟩ | (split_ifs <;> exact ⟨_, rfl⟩))

/-- With more fuel the result stays the same. -/
theorem ExecuteMechanism_fuel_succ (X : Extern) (ip : IP) (ns : String) :
    ∀ (fuel : Nat) (m : Mechanism) (depth : Int) (r : Qualifier × Option Error),
      ExecuteMechanism X ip ns fuel m depth = some r →
      ExecuteMechanism X ip ns (fuel + 1) m depth = some r
  | fuel, m, depth, r, h => by
    by_cases hk : m.Mechanism = IncludeMechanism ∨ m.Mechanism = RedirectMechanism
    · by_cases hd : depth = 0
      · subst hd
        rw [ExecuteMechanism_include_zero X ip ns _ m hk] at h ⊢
        exact h
      · rcases hl : LookupSPF X m.Value ns with ⟨spf, _ | err⟩
        · rcases hp : ParseSPF X.unicodeToLower spf with ⟨parsedSpf, _ | err⟩
          · cases fuel with
            | zero =>
              exfalso
              unfold ExecuteMechanism at h
              rcases hk with hk | hk <;>
                simp [hk, hd, hl, hp, AllMechanism, IPv4Mechanism, IPv6Mechanism, AMechanism,
                  MXMechanism, PTRMechanism, ExistsMechanism, IncludeMechanism,
                  RedirectMechanism] at h
            | succ f =>
              rw [ExecuteMechanism_include_succ X ip ns f m depth spf parsedSpf hk hd hl hp] at h
              rw [ExecuteMechanism_include_succ X ip ns (f + 1) m depth spf parsedSpf hk hd hl hp]
              exact includeLoop_mono _ _
                (fun x r1 hx => ExecuteMechanism_fuel_succ X ip ns f x (depth - 1) r1 hx)
                parsedSpf r h
          · unfold ExecuteMechanism at h ⊢
            rcases hk with hk | hk <;>
              · simp only [hk, hd, hl, hp, AllMechanism, IPv4Mechanism, IPv6Mechanism,
                  AMechanism, MXMechanism, PTRMechanism, ExistsMechanism, IncludeMechanism,
                  RedirectMechanism] at h ⊢
                simpa using h
        · unfold ExecuteMechanism at h ⊢
          rcases hk with hk | hk <;>
            · simp only [hk, hd, hl, AllMechanism, IPv4Mechanism, IPv6Mechanism,
                AMechanism, MXMechanism, PTRMechanism, ExistsMechanism, IncludeMechanism,
                RedirectMechanism] at h ⊢
              simpa using h
    · rw [← (ExecuteMechanism_other X ip ns fuel (fuel + 1) m depth hk).1]
      exact h

theorem ExecuteMechanism_fuel_le (X : Extern) (ip : IP) (ns : String) (m : Mechanism)
    (depth : Int) (r : Qualifier × Option Error) (fuel1 : Nat)
    (h : ExecuteMechanism X ip ns fuel1 m depth = some r) :
    ∀ fuel2 : Nat, fuel1 ≤ fuel2 → ExecuteMechanism X ip ns fuel2 m depth = some r := by
  intro fuel2 hle
  induction hle with
  | refl => exact h
  | step _ ih => exact ExecuteMechanism_fuel_succ X ip ns _ m depth r ih

/-- With a depth `n ≥ 0`, fuel `n` is enough for a result. -/
theorem ExecuteMechanism_total (X : Extern) (ip : IP) (ns : String) :
    ∀ (n fuel : Nat) (m : Mechanism), n ≤ fuel →
      ∃ r, ExecuteMechanism X ip ns fuel m (n : Int) = some r
  | n, fuel, m, hle => by
    by_cases hk : m.Mechanism = IncludeMechanism ∨ m.Mechanism = RedirectMechanism
    · cases n with
      | zero => exact ⟨_, ExecuteMechanism_include_zero X ip ns fuel m hk⟩
      | succ k =>
        have hd : ((k + 1 : Nat) : Int) ≠ 0 := by omega
        obtain ⟨f, rfl⟩ : ∃ f, fuel = f + 1 := ⟨fuel - 1, by omega⟩
        rcases hl : LookupSPF X m.Value ns with ⟨spf, _ | err⟩
        · rcases hp : ParseSPF X.unicodeToLower spf with ⟨parsedSpf, _ | err⟩
          · rw [ExecuteMechanism_include_succ X ip ns f m _ spf parsedSpf hk hd hl hp]
            apply includeLoop_total
            intro x _
            have hcast : ((k + 1 : Nat) : Int) - 1 = (k : Int) := by omega
            rw [hcast]
            exact ExecuteMechanism_total X ip ns k f x (by omega)
          · unfold ExecuteMechanism
            rcases hk with hk | hk <;>
              · simp only [hk, hd, hl, hp, AllMechanism, IPv4Mechanism, IPv6Mechanism,
                  AMechanism, MXMechanism, PTRMechanism, ExistsMechanism, IncludeMechanism,
                  RedirectMechanism]
                simp
        · unfold ExecuteMechanism
          rcases hk with hk | hk <;>
            · simp only [hk, hd, hl, AllMechanism, IPv4Mechanism, IPv6Mechanism,
                AMechanism, MXMechanism, PTRMechanism, ExistsMechanism, IncludeMechanism,
                RedirectMechanism]
              simp
    · exact (ExecuteMechanism_other X ip ns fuel fuel m n hk).2

theorem includeLoopN_erase (execN : Mechanism → Option ((Qualifier × Option Error) × Nat))
    (exec : Mechanism → Option (Qualifier × Option Error))
    (h : ∀ x, (execN x).map Prod.fst = exec x) :
    ∀ (l : List Mechanism) (acc : Nat),
      (includeLoopN execN acc l).map Prod.fst = includeLoop exec l
  | [], _ => rfl
  | m :: rest, acc => by
    rw [includeLoopN, includeLoop, ← h m]
    cases execN m with
    | none => rfl
    | some rn =>
      obtain ⟨⟨q, e⟩, n⟩ := rn
      cases e with
      | some err => rfl
      | none =>
        simp only [Option.map_some']
        split_ifs
        · rfl
        · rfl
        · exact includeLoopN_erase execN exec h rest (max acc n)

/-- Without its ghost counter, `ExecuteMechanismN` is `ExecuteMechanism`. -/
theorem ExecuteMechanismN_erase (X : Extern) (ip : IP) (ns : String) :
    ∀ (fuel : Nat) (m : Mechanism) (depth : Int),
      (ExecuteMechanismN X ip ns fuel m depth).map Prod.fst
        = ExecuteMechanism X ip ns fuel m depth
  | fuel, m, depth => by
    by_cases hk : m.Mechanism = IncludeMechanism ∨ m.Mechanism = RedirectMechanism
    · by_cases hd : depth = 0
      · subst hd
        rw [ExecuteMechanism_include_zero X ip ns _ m hk]
        unfold ExecuteMechanismN
        simp [hk]
      · rcases hl : LookupSPF X m.Value ns with ⟨spf, _ | err⟩
        · rcases hp : ParseSPF X.unicodeToLower spf with ⟨parsedSpf, _ | err⟩
          · cases fuel with
            | zero =>
              unfold ExecuteMechanismN ExecuteMechanism
              rcases hk with hk | hk <;>
                simp [hk, hd, hl, hp, AllMechanism, IPv4Mechanism, IPv6Mechanism, AMechanism,
                  MXMechanism, PTRMechanism, ExistsMechanism, IncludeMechanism,
                  RedirectMechanism]
            | succ f =>
              rw [ExecuteMechanism_include_succ X ip ns f m depth spf parsedSpf hk hd hl hp,
                ← includeLoopN_erase _ _
                  (fun x => ExecuteMechanismN_erase X ip ns f x (depth - 1)) parsedSpf 0]
              rw [ExecuteMechanismN]
              simp only [hk, if_true, hd, if_false, hl, hp]
              cases includeLoopN (fun x => ExecuteMechanismN X ip ns f x (depth - 1)) 0
                parsedSpf with
              | none => rfl
              | some rn => rfl
          · unfold ExecuteMechanismN ExecuteMechanism
            rcases hk with hk | hk <;>
              simp [hk, hd, hl, hp, AllMechanism, IPv4Mechanism, IPv6Mechanism, AMechanism,
                MXMechanism, PTRMechanism, ExistsMechanism, IncludeMechanism,
                RedirectMechanism]
        · unfold ExecuteMechanismN ExecuteMechanism
          rcases hk with hk | hk <;>
            simp [hk, hd, hl, AllMechanism, IPv4Mechanism, IPv6Mechanism, AMechanism,
              MXMechanism, PTRMechanism, ExistsMechanism, IncludeMechanism,
              RedirectMechanism]
    · unfold ExecuteMechanismN
      simp only [hk, if_false, Option.map_map]
      cases ExecuteMechanism X ip ns fuel m depth <;> rfl

theorem includeLoopN_bound (execN : Mechanism → Option ((Qualifier × Option Error) × Nat))
    (B : Nat) (h : ∀ x r k, execN x = some (r, k) → k ≤ B) :
    ∀ (l : List Mechanism) (acc : Nat) (r : Qualifier × Option Error) (k : Nat), acc ≤ B →
      includeLoopN execN acc l = some (r, k) → k ≤ B
  | [], acc, r, k, hacc, hr => by
    simp only [includeLoopN, Option.some.injEq, Prod.mk.injEq] at hr
    rw [← hr.2]
    exact hacc
  | m :: rest, acc, r, k, hacc, hr => by
    rw [includeLoopN] at hr
    cases h1 : execN m with
    | none => rw [h1] at hr; cases hr
    | some rn =>
      rw [h1] at hr
      obtain ⟨⟨q, e⟩, n⟩ := rn
      have hn : n ≤ B := h m _ n h1
      have hmax : max acc n ≤ B := max_le hacc hn
      cases e with
      | some err =>
        simp only [Option.some.injEq, Prod.mk.injEq] at hr
        rw [← hr.2]
        exact hmax
      | none =>
        simp only at hr
        split_ifs at hr
        · simp only [Option.some.injEq, Prod.mk.injEq] at hr
          rw [← hr.2]
          exact hmax
        · simp only [Option.some.injEq, Prod.mk.injEq] at hr
          rw [← hr.2]
          exact hmax
        · exact includeLoopN_bound execN B h rest (max acc n) r k hmax hr

/-- With a depth `n ≥ 0`, the nesting of record fetches is at most `n`. -/
theorem ExecuteMechanismN_bound (X : Extern) (ip : IP) (ns : String) :
    ∀ (n fuel : Nat) (m : Mechanism) (r : Qualifier × Option Error) (k : Nat),
      ExecuteMechanismN X ip ns fuel m (n : Int) = some (r, k) → k ≤ n
  | n, fuel, m, r, k, h => by
    by_cases hk : m.Mechanism = IncludeMechanism ∨ m.Mechanism = RedirectMechanism
    · cases n with
      | zero =>
        unfold ExecuteMechanismN at h
        simp only [hk, if_true, Nat.cast_zero, Option.some.injEq, Prod.mk.injEq] at h
        omega
      | succ j =>
        have hd : ((j + 1 : Nat) : Int) ≠ 0 := by omega
        have hcast : ((j + 1 : Nat) : Int) - 1 = (j : Int) := by omega
        rcases hl : LookupSPF X m.Value ns with ⟨spf, _ | err⟩
        · rcases hp : ParseSPF X.unicodeToLower spf with ⟨parsedSpf, _ | err⟩
          · cases fuel with
            | zero =>
              unfold ExecuteMechanismN at h
              simp [hk, hd, hl, hp] at h
              omega
            | succ f =>
              rw [ExecuteMechanismN] at h
              simp only [hk, if_true, hd, if_false, hl, hp, hcast] at h
              cases hloop : includeLoopN (fun x => ExecuteMechanismN X ip ns f x (j : Int)) 0
                parsedSpf with
              | none => rw [hloop] at h; cases h
              | some rn =>
                rw [hloop] at h
                obtain ⟨r1, k1⟩ := rn
                simp only [Option.some.injEq, Prod.mk.injEq] at h
                have hb := includeLoopN_bound _ j
                  (fun x r2 k2 hx => ExecuteMechanismN_bound X ip ns j f x r2 k2 hx)
                  parsedSpf 0 r1 k1 (Nat.zero_le _) hloop
                omega
          · unfold ExecuteMechanismN at h
            simp only [hk, if_true, hd, if_false, hl, hp, Option.some.injEq,
              Prod.mk.injEq] at h
            omega
        · unfold ExecuteMechanismN at h
          simp only [hk, if_true, hd, if_false, hl, Option.some.injEq, Prod.mk.injEq] at h
          omega
    · unfold ExecuteMechanismN at h
      simp only [hk, if_false] at h
      cases hex : ExecuteMechanism X ip ns fuel m (n : Int) with
      | none => rw [hex] at h; cases h
      | some r1 =>
        rw [hex] at h
        simp only [Option.map_some', Option.some.injEq, Prod.mk.injEq] at h
        omega

theorem ValidateIP_total (X : Extern) (ip : IP) (name ns : String) (n fuel : Nat)
    (hle : n ≤ fuel) : ∃ r, ValidateIP X fuel ip name ns (n : Int) = some r := by
  rcases hl : LookupSPF X name ns with ⟨spf, _ | err⟩
  · rcases hp : ParseSPF X.unicodeToLower spf with ⟨record, _ | err⟩
    · simp only [ValidateIP, hl, hp]
      exact validateLoop_total _ record (fun x _ => ExecuteMechanism_total X ip ns n fuel x hle)
    · simp only [ValidateIP, hl, hp]
      exact ⟨_, rfl⟩
  · simp only [ValidateIP, hl]
    exact ⟨_, rfl⟩

theorem ValidateIP_fuel_le (X : Extern) (ip : IP) (name ns : String) (depth : Int)
    (r : Qualifier × Option Error) (fuel1 fuel2 : Nat) (hle : fuel1 ≤ fuel2)
    (h : ValidateIP X fuel1 ip name ns depth = some r) :
    ValidateIP X fuel2 ip name ns depth = some r := by
  rcases hl : LookupSPF X name ns with ⟨spf, _ | err⟩
  · rcases hp : ParseSPF X.unicodeToLower spf with ⟨record, _ | err⟩
    · simp only [ValidateIP, hl, hp] at h ⊢
      exact validateLoop_mono _ _
        (fun x r1 hx => ExecuteMechanism_fuel_le X ip ns x depth r1 fuel1 hx fuel2 hle)
        record r h
    · simp only [ValidateIP, hl, hp] at h ⊢
      exact h
  · simp only [ValidateIP, hl] at h ⊢
    exact h

/-- C22. Evaluation terminates under a non-negative budget: with a depth
`d ≥ 0`, for every resolver (cyclic ones included), address and directive,
`ExecuteMechanism` returns a result once the fuel is at least `d`, the same
for every greater fuel, and so does `ValidateIP`; and the nesting of the record
fetches made for include and redirect directives, counted by the ghost counter
of `ExecuteMechanismN`, is at most `d`. -/
theorem evaluation_terminates (X : Extern) (ip : IP) (ns : String) (d : Int) (fuel : Nat)
    (hd : 0 ≤ d) (hfuel : d ≤ (fuel : Int)) :
    (∀ m : Mechanism, ∃ (r : Qualifier × Option Error) (k : Nat),
      ExecuteMechanismN X ip ns fuel m d = some (r, k) ∧ (k : Int) ≤ d ∧
      ∀ fuel2 : Nat, fuel ≤ fuel2 → ExecuteMechanism X ip ns fuel2 m d = some r) ∧
    (∀ name : String, ∃ r : Qualifier × Option Error,
      ∀ fuel2 : Nat, fuel ≤ fuel2 → ValidateIP X fuel2 ip name ns d = some r) ∧
    (∀ (m : Mechanism) (fuel2 : Nat) (r : Qualifier × Option Error) (k : Nat),
      ExecuteMechanismN X ip ns fuel2 m d = some (r, k) →
      ExecuteMechanism X ip ns fuel2 m d = some r ∧ (k : Int) ≤ d) := by
  obtain ⟨n, rfl⟩ := Int.eq_ofNat_of_zero_le hd
  have hle : n ≤ fuel := by omega
  have hghost : ∀ (m : Mechanism) (fuel2 : Nat) (r : Qualifier × Option Error) (k : Nat),
      ExecuteMechanismN X ip ns fuel2 m (n : Int) = some (r, k) →
      ExecuteMechanism X ip ns fuel2 m (n : Int) = some r ∧ (k : Int) ≤ (n : Int) := by
    intro m fuel2 r k h
    refine ⟨?_, ?_⟩
    · rw [← ExecuteMechanismN_erase X ip ns fuel2 m (n : Int), h]
      rfl
    · exact_mod_cast ExecuteMechanismN_bound X ip ns n fuel2 m r k h
  refine ⟨?_, ?_, hghost⟩
  · intro m
    obtain ⟨r, hr⟩ := ExecuteMechanism_total X ip ns n fuel m hle
    have herase := ExecuteMechanismN_erase X ip ns fuel m (n : Int)
    rw [hr] at herase
    cases hN : ExecuteMechanismN X ip ns fuel m (n : Int) with
    | none => rw [hN] at herase; cases herase
    | some rk =>
      obtain ⟨r1, k⟩ := rk
      rw [hN] at herase
      simp only [Option.map_some', Option.some.injEq] at herase
      subst herase
      exact ⟨r1, k, rfl, (hghost m fuel r1 k hN).2,
        fun fuel2 h2 => ExecuteMechanism_fuel_le X ip ns m _ r1 fuel hr fuel2 h2⟩
  · intro name
    obtain ⟨r, hr⟩ := ValidateIP_total X ip name ns n fuel hle
    exact ⟨r, fun fuel2 h2 => ValidateIP_fuel_le X ip name ns _ r fuel fuel2 h2 hr⟩

/-- Two domains that include each other, walked with depth 3: the evaluation
ends with `ErrOutOfRecursions` after three nested fetches, as an instance of
`evaluation_terminates`. -/
theorem evaluation_terminates_witness :
    (∃ r : Qualifier × Option Error, ∀ fuel2 : Nat, 3 ≤ fuel2 →
        ValidateIP (tableExtern [("a.example", "v=spf1 include:b.example"),
          ("b.example", "v=spf1 include:a.example")] false) fuel2 none "a.example" "ns" 3
          = some r) ∧
      ExecuteMechanismN (tableExtern [("a.example", "v=spf1 include:b.example"),
          ("b.example", "v=spf1 include:a.example")] false) none "ns" 3
          ⟨PassQualifier, IncludeMechanism, "a.example"⟩ 3
        = some ((NoneQualifier, some Error.ErrOutOfRecursions), 3) :=
  ⟨(evaluation_terminates (tableExtern [("a.example", "v=spf1 include:b.example"),
      ("b.example", "v=spf1 include:a.example")] false) none "ns" 3 3 (by decide)
      (by decide)).2.1 "a.example", by decide⟩

end spf
